import Mathlib

/-! # Graph colouring through SAT: a verification development

Shallow embedding of the C program (`GCP_5_(25/5/25).c`; `GCP_2_(21/05/25).c` has the
same functions with a driver that only has the iterative loop).

Modelling conventions
* C `int` values are `Int`. Signed overflow is undefined behaviour in C, so no
  wrap-around is modelled: the development speaks about runs in which no `int` overflows.
* An `int *` array that is indexed by a variable number (`interpretacao`) is a total
  map `Int → Int`; the code only ever reads and writes indices `abs(literal)` and
  `1..num_literais`.
* A clause is the content of its `int` array, a `List Int`; the loops over a clause stop
  at the first `0` (the DIMACS terminator), as the C loops do.
* A `BinaryTree *` is a value of `BinaryTree`, `BinaryTree.NULL` being the null pointer.
  Nodes are never shared, so a pointer is identified with the subtree it owns. Every call
  of `free` is recorded, with the content of the node at that moment, in `liberados`.
* The DIMACS file is modelled at two levels. `gerarCNF_texto` and `ler_formula_texto`
  work on the characters of the file: the output of `"%d"`, the pieces `fgets` cuts with
  the buffer `char linha[1000]`, the tokens of `strtok` and the values of `atoi`.
  `gerarCNF` and `ler_formula` work on the integer tokens of each line (the value `atoi`
  gives to each token); they describe the same run whenever every line reaches the line
  loop whole, that is, has fewer than 1000 characters (`valores_gerarCNF_texto`,
  `ler_formula_texto_cabe`). A longer line reaches the line loop in several pieces, each
  stored as a row; only the text level shows this. The header line is represented by its
  two numbers at both levels.
* The sizes of the `malloc` blocks (the row array, each clause) and `MAX_ARESTAS` are not
  modelled: rows are a list, of which the loops visit the first `num_clausulas`.
* Recursion of `SAT` and the driver loop are modelled with a fuel argument; `none` means
  that no result was produced.
-/

namespace GCP

/-! ## Data model -/

/-- Formula CNF: `clausulas` are the rows stored in the array, `num_clausulas` and
`num_literais` the two numbers of the header. -/
structure Formula where
  clausulas : List (List Int)
  num_clausulas : Int
  num_literais : Int

/-- Binary decision tree; `NULL` is the null pointer. -/
inductive BinaryTree where
  | NULL : BinaryTree
  | no (valor : Int) (variavel : Int) (esquerda : BinaryTree) (direita : BinaryTree) : BinaryTree
  deriving DecidableEq

/-- Graph: `arestas` is the fixed array of pairs, of which the first `m_arestas` are used. -/
structure Grafo where
  n_vertices : Int
  m_arestas : Int
  arestas : Nat → Int × Int

/-- The libc `abs` on `int`. -/
def c_abs (x : Int) : Int := if x < 0 then -x else x

/-- The values `lo, lo+1, ..., hi` of a loop `for (i = lo; i <= hi; i++)`. -/
def intervalo (lo hi : Int) : List Int :=
  (List.range (hi + 1 - lo).toNat).map (fun (i : Nat) => lo + Int.ofNat i)

/-- The rows `clausulas[i]` visited by `for (i = 0; i < f->num_clausulas; i++)`. -/
def clausulas_de (f : Formula) : List (List Int) :=
  f.clausulas.take f.num_clausulas.toNat

/-- The literals of a clause: the entries before the terminating `0`. -/
def literais : List Int → List Int
  | [] => []
  | l :: resto => if l = 0 then [] else l :: literais resto

/-! ## Solver -/

/-- `literal_valido`: the variable of the literal is in `1..num_literais`. -/
def literal_valido (literal : Int) (num_literais : Int) : Bool :=
  let var := c_abs literal
  decide (var ≥ 1) && decide (var ≤ num_literais)

/-- `clausula_satisfeita`: some literal before the terminator is made true. -/
def clausula_satisfeita : List Int → (Int → Int) → Bool
  | [], _ => false
  | l :: resto, interpretacao =>
    if l = 0 then false
    else
      let var := c_abs l
      let valor : Int := if l > 0 then 1 else -1
      if interpretacao var = valor then true
      else clausula_satisfeita resto interpretacao

/-- `formula_satisfativel`: every clause is satisfied. -/
def formula_satisfativel (f : Formula) (interpretacao : Int → Int) : Bool :=
  (clausulas_de f).all (fun c => clausula_satisfeita c interpretacao)

/-- Inner loop of `formula_insatisfativel`: the value of `todos_falsos` after the scan
of one clause. -/
def todos_falsos : List Int → (Int → Int) → Bool
  | [], _ => true
  | l :: resto, interpretacao =>
    if l = 0 then true
    else
      let var := c_abs l
      let valor : Int := if l > 0 then 1 else -1
      if interpretacao var = 0 ∨ interpretacao var = valor then false
      else todos_falsos resto interpretacao

/-- `formula_insatisfativel`: some clause has every literal in conflict. -/
def formula_insatisfativel (f : Formula) (interpretacao : Int → Int) : Bool :=
  (clausulas_de f).any (fun c => todos_falsos c interpretacao)

/-- `proxima_variavel_nao_atribuida`: first `i` in `1..num_literais` with
`interpretacao[i] == 0`, or `0`. -/
def proxima_variavel_nao_atribuida (f : Formula) (interpretacao : Int → Int) : Int :=
  ((intervalo 1 f.num_literais).find? (fun i => decide (interpretacao i = 0))).getD 0

/-- Write `interpretacao[var] = valor`. -/
def atribuir (interpretacao : Int → Int) (var : Int) (valor : Int) : Int → Int :=
  fun i => if i = var then valor else interpretacao i

/-- A node just returned by `malloc` and initialised as `SAT` does
(`variavel = 0`, `valor = 0`, both children `NULL`). -/
def no_vazio : BinaryTree := BinaryTree.no 0 0 BinaryTree.NULL BinaryTree.NULL

/-- What a call of `SAT` leaves behind: the returned value, the array `interpretacao`,
the node `no`, and the nodes given to `free` (in order, with their content then). -/
structure Saida where
  ret : Bool
  interpretacao : Int → Int
  no : BinaryTree
  liberados : List BinaryTree

/-- `SAT` with a bound on the recursion depth. `none`: the bound was reached, or the
recursive step was entered with `no == NULL` (a null dereference in C). -/
def SAT_fuel : Nat → Formula → (Int → Int) → BinaryTree → Option Saida
  | 0, _, _, _ => none
  | fuel + 1, f, interpretacao, no =>
    if formula_satisfativel f interpretacao then some ⟨true, interpretacao, no, []⟩
    else if formula_insatisfativel f interpretacao then some ⟨false, interpretacao, no, []⟩
    else
      let var := proxima_variavel_nao_atribuida f interpretacao
      if var = 0 then some ⟨false, interpretacao, no, []⟩
      else
        match no with
        | BinaryTree.NULL => none
        | BinaryTree.no valor variavel _ direita =>
          let variavel1 := if variavel = 0 then var else variavel
          match SAT_fuel fuel f (atribuir interpretacao var 1) no_vazio with
          | none => none
          | some r1 =>
            if r1.ret then
              some ⟨true, r1.interpretacao, BinaryTree.no 1 variavel1 r1.no direita, r1.liberados⟩
            else
              match SAT_fuel fuel f (atribuir r1.interpretacao var (-1)) no_vazio with
              | none => none
              | some r2 =>
                if r2.ret then
                  some ⟨true, r2.interpretacao,
                    BinaryTree.no (-1) variavel1 BinaryTree.NULL r2.no,
                    r1.liberados ++ [r1.no] ++ r2.liberados⟩
                else
                  some ⟨false, atribuir r2.interpretacao var 0,
                    BinaryTree.no valor variavel1 BinaryTree.NULL BinaryTree.NULL,
                    r1.liberados ++ [r1.no] ++ r2.liberados ++ [r2.no]⟩

/-- `SAT`: the recursion depth never exceeds the number of variables, so
`num_literais + 1` levels are enough (see `SAT_fuel_total`). -/
def SAT (f : Formula) (interpretacao : Int → Int) (no : BinaryTree) : Option Saida :=
  SAT_fuel (f.num_literais.toNat + 1) f interpretacao no

/-! ## Encoder -/

/-- The DIMACS file at token level: the two numbers of the `p cnf` line and, for each
following line, the integers `atoi` gives to its tokens (`valores_da_linha` of the line
of the text). -/
structure ArquivoCNF where
  num_vars : Int
  num_clauses : Int
  linhas : List (List Int)

/-- The token written by `"-%d"` for `var`, as `atoi` reads it back: `-var` when
`var > 0`; otherwise the text is `-0` or begins with `--`, which `atoi` reads as `0`. -/
def menos (var : Int) : Int := if var > 0 then -var else 0

/-- Rule 1 of `gerarCNF`: one line per vertex with the `k` variables of the vertex. -/
def regra1 (n k : Int) : List (List Int) :=
  (intervalo 1 n).map (fun v => (intervalo 1 k).map (fun c => (v - 1) * k + c) ++ [0])

/-- Rule 2 of `gerarCNF`: one line per vertex and pair of colours `c1 < c2`. -/
def regra2 (n k : Int) : List (List Int) :=
  (intervalo 1 n).flatMap (fun v =>
    (intervalo 1 k).flatMap (fun c1 =>
      (intervalo (c1 + 1) k).map (fun c2 =>
        [menos ((v - 1) * k + c1), menos ((v - 1) * k + c2), 0])))

/-- Rule 3 of `gerarCNF`: one line per edge `i < m` and colour. -/
def regra3 (g : Grafo) (k : Int) : List (List Int) :=
  (List.range g.m_arestas.toNat).flatMap (fun i =>
    let u := (g.arestas i).1 + 1
    let v := (g.arestas i).2 + 1
    (intervalo 1 k).map (fun c =>
      [menos ((u - 1) * k + c), menos ((v - 1) * k + c), 0]))

/-- `gerarCNF`: the header and the lines written to the file. -/
def gerarCNF (g : Grafo) (k : Int) : ArquivoCNF :=
  let n := g.n_vertices
  let m := g.m_arestas
  let num_vars := n * k
  let num_clauses := n + Int.tdiv (n * (k * (k - 1))) 2 + m * k
  ⟨num_vars, num_clauses, regra1 n k ++ regra2 n k ++ regra3 g k⟩

/-! ## Reader -/

/-- The token loop of `ler_formula` on one line: stops at the first `0`, fails
(`return NULL`) at the first literal `literal_valido` refuses, and appends the
terminator. -/
def ler_clausula (num_literais : Int) : List Int → Option (List Int)
  | [] => some [0]
  | literal :: tokens =>
    if literal = 0 then some [0]
    else if !literal_valido literal num_literais then none
    else (ler_clausula num_literais tokens).map (fun c => literal :: c)

/-- The line loop of `ler_formula` after the header, on lines that `fgets` returns
whole (fewer than `TAMANHO_LINHA` characters): one row per line. For the loop on the
characters, where a longer line arrives in pieces, see `ler_pedacos`. -/
def ler_linhas (num_literais : Int) : List (List Int) → Option (List (List Int))
  | [] => some []
  | linha :: resto =>
    match ler_clausula num_literais linha with
    | none => none
    | some c => (ler_linhas num_literais resto).map (fun cs => c :: cs)

/-- `ler_formula` on a file made of one header line followed by clause lines each of
which fits the buffer, given by the values of its tokens; `none` is the `NULL` result.
`ler_formula_texto` is the same function on the characters of the file, without the
restriction on the lines. -/
def ler_formula (a : ArquivoCNF) : Option Formula :=
  (ler_linhas a.num_vars a.linhas).map (fun cs => ⟨cs, a.num_clauses, a.num_vars⟩)

/-! ## Driver -/

/-- Inner decode loop: first colour `cor` in `1..k` with
`interpretacao[(v - 1) * k + cor] == 1`. -/
def cor_do_vertice (k : Int) (interpretacao : Int → Int) (v : Int) : Option Int :=
  (intervalo 1 k).find? (fun cor => decide (interpretacao ((v - 1) * k + cor) = 1))

/-- Decode loop of `main`: the pairs (vertex, colour) printed, in order. -/
def coloracao_encontrada (n k : Int) (interpretacao : Int → Int) : List (Int × Int) :=
  (intervalo 1 n).filterMap (fun v => (cor_do_vertice k interpretacao v).map (fun cor => (v, cor)))

/-- Outcomes of the iterative test of `main`. -/
inductive Resultado where
  | erro : Resultado
  | coloracao (k : Int) (cores : List (Int × Int)) : Resultado
  | nenhuma : Resultado
  deriving DecidableEq

/-- The array returned by `calloc`: every entry is `0`. -/
def interpretacao_inicial : Int → Int := fun _ => 0

/-- The `while (k <= g.n_vertices)` loop of the iterative test on the token-level file
(every line written fits the buffer of `ler_formula`), `fuel` bounding the number of
iterations. `erro`: `ler_formula` returned `NULL` (`return 1`);
`coloracao k cores`: `SAT` succeeded at `k` and `cores` was printed;
`nenhuma`: the loop ended and the final message was printed. -/
def teste_iterativo_laco : Nat → Grafo → Int → Option Resultado
  | 0, _, _ => none
  | fuel + 1, g, k =>
    if k ≤ g.n_vertices then
      match ler_formula (gerarCNF g k) with
      | none => some Resultado.erro
      | some f =>
        match SAT f interpretacao_inicial no_vazio with
        | none => none
        | some r =>
          if r.ret then
            some (Resultado.coloracao k (coloracao_encontrada g.n_vertices k r.interpretacao))
          else teste_iterativo_laco fuel g (k + 1)
    else some Resultado.nenhuma

/-- The iterative test of `main` (option 2; the whole `main` of the earlier file):
`k` starts at `1` and the loop runs at most `n_vertices` times. -/
def teste_iterativo (g : Grafo) : Option Resultado :=
  teste_iterativo_laco (g.n_vertices.toNat + 1) g 1

/-! ## Specification vocabulary -/

/-- The truth value a literal asks of its variable: `1` for a positive literal,
`-1` for a negative one. -/
def valor_do_literal (l : Int) : Int := if l > 0 then 1 else -1

/-- Every clause has a literal made true by `interpretacao`. -/
def satisfaz (f : Formula) (interpretacao : Int → Int) : Prop :=
  ∀ c ∈ clausulas_de f, ∃ l ∈ literais c, interpretacao (c_abs l) = valor_do_literal l

/-- Well-formed formula: every literal is accepted by `literal_valido`. -/
def bem_formada (f : Formula) : Prop :=
  ∀ c ∈ clausulas_de f, ∀ l ∈ literais c, literal_valido l f.num_literais = true

/-- The array holds only `-1`, `0` or `1` at the variables `1..n`. -/
def valores_validos (n : Int) (interpretacao : Int → Int) : Prop :=
  ∀ i, 1 ≤ i → i ≤ n → interpretacao i = -1 ∨ interpretacao i = 0 ∨ interpretacao i = 1

/-- The assignment `total` gives `1` or `-1` to every variable `1..n`. -/
def atribuicao_total (n : Int) (total : Int → Int) : Prop :=
  ∀ i, 1 ≤ i → i ≤ n → total i = 1 ∨ total i = -1

/-- The assignment `total` keeps the value of every variable `1..n` that
`interpretacao` has already assigned. -/
def estende (n : Int) (interpretacao total : Int → Int) : Prop :=
  ∀ i, 1 ≤ i → i ≤ n → interpretacao i ≠ 0 → total i = interpretacao i

/-- Number of variables in `1..num_literais` still unassigned. -/
def nao_atribuidas (f : Formula) (interpretacao : Int → Int) : Nat :=
  (intervalo 1 f.num_literais).countP (fun i => decide (interpretacao i = 0))

/-! ## Tree shapes, graph colourings and examples -/

/-- The node exists and both its children are `NULL`. -/
def sem_filhos : BinaryTree → Bool
  | BinaryTree.NULL => false
  | BinaryTree.no _ _ esquerda direita =>
    decide (esquerda = BinaryTree.NULL) && decide (direita = BinaryTree.NULL)

/-- The tree is a single chain: every node has exactly one child, except the last one,
which has none and still holds `variavel = 0`, `valor = 0`. -/
def cadeia : BinaryTree → Bool
  | BinaryTree.NULL => false
  | BinaryTree.no valor variavel BinaryTree.NULL BinaryTree.NULL =>
    decide (valor = 0) && decide (variavel = 0)
  | BinaryTree.no _ _ esquerda BinaryTree.NULL => cadeia esquerda
  | BinaryTree.no _ _ BinaryTree.NULL direita => cadeia direita
  | BinaryTree.no _ _ _ _ => false

/-- Formula of the examples: `(x1 ∨ x2) ∧ ¬x1` over two variables. -/
def formula_exemplo : Formula := ⟨[[1, 2, 0], [-1, 0]], 2, 2⟩

/-- Formula of the examples: `x1 ∧ ¬x1` over one variable. -/
def formula_contraditoria : Formula := ⟨[[1, 0], [-1, 0]], 2, 1⟩

/-- The edges stored in the graph: `arestas[i]` for `i < m_arestas`. -/
def arestas_de (g : Grafo) : List (Int × Int) :=
  (List.range g.m_arestas.toNat).map g.arestas

/-- Both endpoints of every stored edge are in `0..n_vertices - 1`. -/
def arestas_dentro (g : Grafo) : Prop :=
  ∀ e ∈ arestas_de g, 0 ≤ e.1 ∧ e.1 < g.n_vertices ∧ 0 ≤ e.2 ∧ e.2 < g.n_vertices

/-- Proper colouring with `k` colours: every vertex `1..n` has a colour in `1..k` and
the vertices `a + 1` and `b + 1` of every stored edge `(a, b)` have different colours. -/
def coloracao_propria (g : Grafo) (k : Int) (cor : Int → Int) : Prop :=
  (∀ v, 1 ≤ v → v ≤ g.n_vertices → 1 ≤ cor v ∧ cor v ≤ k) ∧
    ∀ e ∈ arestas_de g, cor (e.1 + 1) ≠ cor (e.2 + 1)

/-- The assignment that encodes a colouring: variable `(v - 1) * k + c` is true exactly
when vertex `v` has colour `c`. -/
def interpretacao_de (k : Int) (cor : Int → Int) : Int → Int :=
  fun x => if cor ((x - 1) / k + 1) = (x - 1) % k + 1 then 1 else -1

/-- The triangle: three vertices, edges (0,1), (1,2), (0,2). -/
def grafo_triangulo : Grafo := ⟨3, 3, fun i => [(0, 1), (1, 2), (0, 2)].getD i (0, 0)⟩

/-- Two vertices joined by one edge. -/
def grafo_aresta : Grafo := ⟨2, 1, fun _ => (0, 1)⟩

/-- The variables `1..d` hold `1` or `-1` and the variables `d+1..n` hold `0`. -/
def prefixo (n : Int) (interpretacao : Int → Int) (d : Int) : Prop :=
  0 ≤ d ∧ ∀ i, 1 ≤ i → i ≤ n →
    (i ≤ d → interpretacao i = 1 ∨ interpretacao i = -1) ∧ (d < i → interpretacao i = 0)

/-- The variable of "vertex `v` has colour `c`" when `k` colours are tried. -/
def var_cor (k v c : Int) : Int := (v - 1) * k + c

/-- Formula of the examples: the single clause `x1` over two variables. -/
def formula_um_literal : Formula := ⟨[[1, 0]], 1, 2⟩

/-- Two vertices and no edge. -/
def grafo_isolados : Grafo := ⟨2, 0, fun _ => (0, 0)⟩

/-- Two vertices and the edge (0,1) stored twice. -/
def grafo_repetido : Grafo := ⟨2, 2, fun _ => (0, 1)⟩

/-- The chain under a node records a successful search started on `interpretacao` and
ended with the array `final`: the last node is untouched; every other node holds in
`variavel` the variable chosen for the array at that call and in `valor` the value that
variable has in `final`, with the left child alone when `valor` is `1` and the right
child alone when `valor` is `-1`. -/
def registra (f : Formula) : BinaryTree → (Int → Int) → (Int → Int) → Bool
  | BinaryTree.NULL, _, _ => false
  | BinaryTree.no valor variavel BinaryTree.NULL BinaryTree.NULL, _, _ =>
    decide (valor = 0) && decide (variavel = 0)
  | BinaryTree.no valor variavel esquerda BinaryTree.NULL, interpretacao, final =>
    decide (variavel = proxima_variavel_nao_atribuida f interpretacao) &&
      decide (valor = 1) && decide (final variavel = 1) &&
      registra f esquerda (atribuir interpretacao variavel 1) final
  | BinaryTree.no valor variavel BinaryTree.NULL direita, interpretacao, final =>
    decide (variavel = proxima_variavel_nao_atribuida f interpretacao) &&
      decide (valor = -1) && decide (final variavel = -1) &&
      registra f direita (atribuir interpretacao variavel (-1)) final
  | BinaryTree.no _ _ _ _, _, _ => false

/-- Number of nodes of the tree that have a child. -/
def nos_internos : BinaryTree → Nat
  | BinaryTree.NULL => 0
  | BinaryTree.no _ _ BinaryTree.NULL BinaryTree.NULL => 0
  | BinaryTree.no _ _ esquerda direita => 1 + nos_internos esquerda + nos_internos direita

/-- Number of variables of `1..n` that are `0` in `interpretacao` and not in `final`. -/
def atribuidas_pela_chamada (n : Int) (interpretacao final : Int → Int) : Nat :=
  (intervalo 1 n).countP (fun i => decide (interpretacao i = 0) && decide (final i ≠ 0))

/-- The arrays with which `SAT` is called during the run started on `inicial`: the
first call, the call of the true branch, and the call of the false branch, made on the
array the failed true branch left. -/
inductive chamada (f : Formula) (inicial : Int → Int) : (Int → Int) → Prop where
  | raiz : chamada f inicial inicial
  | esquerda (I : Int → Int) : chamada f inicial I →
      formula_satisfativel f I = false → formula_insatisfativel f I = false →
      proxima_variavel_nao_atribuida f I ≠ 0 →
      chamada f inicial (atribuir I (proxima_variavel_nao_atribuida f I) 1)
  | direita (I : Int → Int) (fuel : Nat) (r1 : Saida) : chamada f inicial I →
      formula_satisfativel f I = false → formula_insatisfativel f I = false →
      proxima_variavel_nao_atribuida f I ≠ 0 →
      SAT_fuel fuel f (atribuir I (proxima_variavel_nao_atribuida f I) 1) no_vazio = some r1 →
      r1.ret = false →
      chamada f inicial (atribuir r1.interpretacao (proxima_variavel_nao_atribuida f I) (-1))

/-- Two vertices and the self-loop (0,0). -/
def grafo_laco : Grafo := ⟨2, 1, fun _ => (0, 0)⟩

/-- Two vertices, the self-loop (0,0) and the edge (0,2), whose endpoint 2 is not a
vertex. -/
def grafo_laco_fora : Grafo := ⟨2, 2, fun i => [(0, 0), (0, 2)].getD i (0, 0)⟩

/-- Two vertices and the edge (0,2), whose endpoint 2 is not a vertex. -/
def grafo_fora : Grafo := ⟨2, 1, fun _ => (0, 2)⟩

/-! ## The file as text -/

/-- The DIMACS file as text: the two numbers of the `p cnf` line, which is the first
line and the only header, and, for each following line, its characters up to and
including its newline. -/
structure ArquivoTexto where
  num_vars : Int
  num_clauses : Int
  linhas : List (List Char)

/-- Decimal digits of `x`, least significant first; `fuel` bounds their number. -/
def digitos_rev : Nat → Nat → List Nat
  | 0, _ => []
  | fuel + 1, x => if x < 10 then [x] else (x % 10) :: digitos_rev fuel (x / 10)

/-- The characters of a number without sign in base ten. -/
def digitos (x : Nat) : List Char :=
  ((digitos_rev (x + 1) x).reverse).map Nat.digitChar

/-- The characters `printf` writes for `"%d"`. -/
def imprime (x : Int) : List Char :=
  if x < 0 then '-' :: digitos x.natAbs else digitos x.toNat

/-- Rule 1 of `gerarCNF` as text: for each vertex, `"%d "` for each colour, then `"0\n"`. -/
def texto_regra1 (n k : Int) : List (List Char) :=
  (intervalo 1 n).map (fun v =>
    (intervalo 1 k).flatMap (fun c => imprime ((v - 1) * k + c) ++ [' ']) ++ ['0', '\n'])

/-- The line `"-%d -%d 0\n"` of rules 2 and 3. -/
def texto_par (var1 var2 : Int) : List Char :=
  '-' :: imprime var1 ++ [' ', '-'] ++ imprime var2 ++ [' ', '0', '\n']

/-- Rule 2 of `gerarCNF` as text. -/
def texto_regra2 (n k : Int) : List (List Char) :=
  (intervalo 1 n).flatMap (fun v =>
    (intervalo 1 k).flatMap (fun c1 =>
      (intervalo (c1 + 1) k).map (fun c2 =>
        texto_par ((v - 1) * k + c1) ((v - 1) * k + c2))))

/-- Rule 3 of `gerarCNF` as text. -/
def texto_regra3 (g : Grafo) (k : Int) : List (List Char) :=
  (List.range g.m_arestas.toNat).flatMap (fun i =>
    let u := (g.arestas i).1 + 1
    let v := (g.arestas i).2 + 1
    (intervalo 1 k).map (fun c =>
      texto_par ((u - 1) * k + c) ((v - 1) * k + c)))

/-- `gerarCNF` as text: the numbers of the header and the lines written after it. -/
def gerarCNF_texto (g : Grafo) (k : Int) : ArquivoTexto :=
  let n := g.n_vertices
  let m := g.m_arestas
  let num_vars := n * k
  let num_clauses := n + Int.tdiv (n * (k * (k - 1))) 2 + m * k
  ⟨num_vars, num_clauses, texto_regra1 n k ++ texto_regra2 n k ++ texto_regra3 g k⟩

/-- Size of the buffer `char linha[1000]` of `ler_formula`. -/
def TAMANHO_LINHA : Nat := 1000

/-- The successive results of `fgets(linha, sizeof(linha), arquivo)` on one line of
the file: pieces of at most `tam` characters (`sizeof(linha) - 1`), the last one
ending with the newline of the line. -/
def fgets_aux (tam : Nat) : Nat → List Char → List (List Char)
  | 0, _ => []
  | _ + 1, [] => []
  | fuel + 1, c :: s => (c :: s).take tam :: fgets_aux tam fuel ((c :: s).drop tam)

/-- The pieces `fgets` hands to the line loop of `ler_formula` for one line. -/
def fgets (linha : List Char) : List (List Char) :=
  fgets_aux (TAMANHO_LINHA - 1) linha.length linha

/-- The delimiters `" \t\n"` given to `strtok`. -/
def delimitador (c : Char) : Bool := c = ' ' || c = '\t' || c = '\n'

/-- The tokens `strtok` finds: the maximal runs without a delimiter; `atual` is the
run being read. -/
def strtok_aux : List Char → List Char → List (List Char)
  | [], atual => if atual = [] then [] else [atual]
  | c :: s, atual =>
    if delimitador c then
      if atual = [] then strtok_aux s [] else atual :: strtok_aux s []
    else strtok_aux s (atual ++ [c])

/-- The tokens of one piece, in the order `strtok(linha, " \t\n")` and
`strtok(NULL, " \t\n")` return them. -/
def strtok (linha : List Char) : List (List Char) := strtok_aux linha []

/-- The libc `isspace`. -/
def isspace (c : Char) : Bool :=
  c = ' ' || c = '\t' || c = '\n' || c = '\x0b' || c = '\x0c' || c = '\r'

/-- The digits at the start of a string, read in base ten after `acc`. -/
def valor_digitos : Nat → List Char → Nat
  | acc, [] => acc
  | acc, c :: s => if c.isDigit then valor_digitos (acc * 10 + (c.toNat - 48)) s else acc

/-- The libc `atoi`: blanks, an optional sign, then digits; `0` when there is no digit. -/
def atoi (s : List Char) : Int :=
  match s.dropWhile isspace with
  | [] => 0
  | c :: r =>
    if c = '-' then -Int.ofNat (valor_digitos 0 r)
    else if c = '+' then Int.ofNat (valor_digitos 0 r)
    else Int.ofNat (valor_digitos 0 (c :: r))

/-- The line loop of `ler_formula` on the pieces read by `fgets` after the header: a
piece that starts with `c` is skipped (`continue`), every other piece is split by
`strtok`, its tokens converted by `atoi` and handed to the token loop, and stored as one
row. A piece that starts with `p` is skipped as well: the texts considered have one
header line, the first, whose two numbers are given apart, and the second reading of
a header that the C code would do on such a piece is not represented. -/
def ler_pedacos (num_literais : Int) : List (List Char) → Option (List (List Int))
  | [] => some []
  | linha :: resto =>
    if linha.head? = some 'c' then ler_pedacos num_literais resto
    else if linha.head? = some 'p' then ler_pedacos num_literais resto
    else
      match ler_clausula num_literais ((strtok linha).map atoi) with
      | none => none
      | some c => (ler_pedacos num_literais resto).map (fun cs => c :: cs)

/-- `ler_formula` on the text of a file made of one header line followed by the lines
`linhas`; `none` is the `NULL` result. A line of `TAMANHO_LINHA` characters or more
reaches the line loop in several pieces, each of which becomes a row. -/
def ler_formula_texto (a : ArquivoTexto) : Option Formula :=
  (ler_pedacos a.num_vars (a.linhas.flatMap fgets)).map
    (fun cs => ⟨cs, a.num_clauses, a.num_vars⟩)

/-- The iterative test of `main` with the file as text; see `teste_iterativo_laco`. -/
def teste_iterativo_texto_laco : Nat → Grafo → Int → Option Resultado
  | 0, _, _ => none
  | fuel + 1, g, k =>
    if k ≤ g.n_vertices then
      match ler_formula_texto (gerarCNF_texto g k) with
      | none => some Resultado.erro
      | some f =>
        match SAT f interpretacao_inicial no_vazio with
        | none => none
        | some r =>
          if r.ret then
            some (Resultado.coloracao k (coloracao_encontrada g.n_vertices k r.interpretacao))
          else teste_iterativo_texto_laco fuel g (k + 1)
    else some Resultado.nenhuma

/-- The iterative test of `main` with the file as text. -/
def teste_iterativo_texto (g : Grafo) : Option Resultado :=
  teste_iterativo_texto_laco (g.n_vertices.toNat + 1) g 1

/-- Every line of the file fits the buffer of `ler_formula`: with its newline it has
fewer than `TAMANHO_LINHA` characters. -/
def linhas_cabem (a : ArquivoTexto) : Prop :=
  ∀ linha ∈ a.linhas, linha.length < TAMANHO_LINHA

/-- The formula a token-level file denotes: one clause per line. -/
def formula_do_arquivo (a : ArquivoCNF) : Formula :=
  ⟨a.linhas, a.num_clauses, a.num_vars⟩

/-- Every character of the string is a decimal digit. -/
def so_digitos (s : List Char) : Prop := ∀ c ∈ s, c.isDigit = true

/-- No character of the string is a delimiter of `strtok`. -/
def sem_delimitador (s : List Char) : Prop := ∀ c ∈ s, delimitador c = false

/-- What the token loop of `ler_formula` sees of one piece: the values `atoi` gives
to the tokens of `strtok`. -/
def valores_da_linha (linha : List Char) : List Int := (strtok linha).map atoi

/-- A piece that starts a clause: not empty, and its first character is neither `c`
nor `p`. -/
def linha_de_clausula (linha : List Char) : Prop :=
  ∃ c r, linha = c :: r ∧ c ≠ 'c' ∧ c ≠ 'p'

/-- Every run of characters without a delimiter found inside the string is read by
`atoi` as `0` or as a literal that `literal_valido` accepts. -/
def limitado (N : Int) (s : List Char) : Prop :=
  ∀ t, t <:+: s → sem_delimitador t → atoi t = 0 ∨ literal_valido (atoi t) N = true

/-- The largest value of a C `int`. -/
def INT_MAX : Int := 2147483647

/-- Two vertices and the stored edge `(-1, 2)`. -/
def grafo_negativo : Grafo := ⟨2, 1, fun _ => (-1, 2)⟩

/-- Five vertices and no edge. -/
def grafo_cinco : Grafo := ⟨5, 0, fun _ => (0, 0)⟩

/-- Five vertices and the stored edge `(4, 4)`. -/
def grafo_cinco_laco : Grafo := ⟨5, 1, fun _ => (4, 4)⟩

/-- The two rows `ler_formula` stores for the line of vertex 5 when 223 colours are
tried: the variables 893 to 1113 followed by the literal `1`, and the literals `114`
and `1115`. -/
def linhas_cortadas : List (List Int) := [intervalo 893 1113 ++ [1, 0], [114, 1115, 0]]

/-- The colouring of five vertices that gives colour 223 to vertex 5 and colour 1 to the
others. -/
def cor_cinco (v : Int) : Int := if v = 5 then 223 else 1

/-! # Theorems -/

/-! ## Basic facts -/

theorem mem_intervalo {lo hi x : Int} : x ∈ intervalo lo hi ↔ lo ≤ x ∧ x ≤ hi := by
  unfold intervalo
  simp only [List.mem_map, List.mem_range, Int.ofNat_eq_coe]
  constructor
  · rintro ⟨i, hi1, rfl⟩
    omega
  · rintro ⟨h1, h2⟩
    exact ⟨(x - lo).toNat, by omega, by omega⟩

theorem length_intervalo (lo hi : Int) : (intervalo lo hi).length = (hi + 1 - lo).toNat := by
  simp [intervalo]

theorem clausula_satisfeita_iff (c : List Int) (I : Int → Int) :
    clausula_satisfeita c I = true ↔ ∃ l ∈ literais c, I (c_abs l) = valor_do_literal l := by
  induction c with
  | nil => simp [clausula_satisfeita, literais]
  | cons l resto ih =>
    by_cases h0 : l = 0
    · simp [clausula_satisfeita, literais, h0]
    · by_cases hv : I (c_abs l) = valor_do_literal l
      · have hv2 := hv
        unfold valor_do_literal at hv2
        simp only [clausula_satisfeita, literais, h0, if_false, hv2, if_true, true_iff]
        exact ⟨l, List.mem_cons_self _ _, hv⟩
      · have hv2 := hv
        unfold valor_do_literal at hv2
        simp only [clausula_satisfeita, literais, h0, if_false, hv2, ih, List.mem_cons,
          exists_eq_or_imp, hv, false_or]

theorem formula_satisfativel_iff (f : Formula) (I : Int → Int) :
    formula_satisfativel f I = true ↔ satisfaz f I := by
  unfold formula_satisfativel satisfaz
  simp only [List.all_eq_true, clausula_satisfeita_iff]

theorem todos_falsos_iff (c : List Int) (I : Int → Int) :
    todos_falsos c I = true ↔
      ∀ l ∈ literais c, I (c_abs l) ≠ 0 ∧ I (c_abs l) ≠ valor_do_literal l := by
  induction c with
  | nil => simp [todos_falsos, literais]
  | cons l resto ih =>
    by_cases h0 : l = 0
    · simp [todos_falsos, literais, h0]
    · by_cases hv : I (c_abs l) = 0 ∨ I (c_abs l) = valor_do_literal l
      · have hv2 := hv
        unfold valor_do_literal at hv2
        simp only [todos_falsos, literais, h0, if_false, hv2, if_true, List.mem_cons,
          forall_eq_or_imp]
        constructor
        · intro h; cases h
        · rintro ⟨⟨h1, h2⟩, -⟩
          rcases hv with h | h
          · exact absurd h h1
          · exact absurd h h2
      · have hv2 := hv
        unfold valor_do_literal at hv2
        simp only [todos_falsos, literais, h0, if_false, hv2, List.mem_cons,
          forall_eq_or_imp, ih]
        constructor
        · intro h
          exact ⟨⟨fun h1 => hv (Or.inl h1), fun h2 => hv (Or.inr h2)⟩, h⟩
        · rintro ⟨-, h⟩
          exact h

theorem formula_insatisfativel_iff (f : Formula) (I : Int → Int) :
    formula_insatisfativel f I = true ↔
      ∃ c ∈ clausulas_de f, ∀ l ∈ literais c,
        I (c_abs l) ≠ 0 ∧ I (c_abs l) ≠ valor_do_literal l := by
  unfold formula_insatisfativel
  simp only [List.any_eq_true, todos_falsos_iff]

theorem proxima_zero_iff (f : Formula) (I : Int → Int) :
    proxima_variavel_nao_atribuida f I = 0 ↔
      ∀ i, 1 ≤ i → i ≤ f.num_literais → I i ≠ 0 := by
  unfold proxima_variavel_nao_atribuida
  cases hfind : (intervalo 1 f.num_literais).find? (fun i => decide (I i = 0)) with
  | none =>
    simp only [Option.getD_none, true_iff]
    rw [List.find?_eq_none] at hfind
    intro i h1 h2
    have := hfind i (mem_intervalo.mpr ⟨h1, h2⟩)
    simpa using this
  | some x =>
    have hx := List.find?_some hfind
    have hm := mem_intervalo.mp (List.mem_of_find?_eq_some hfind)
    simp only [Option.getD_some]
    simp only [decide_eq_true_eq] at hx
    constructor
    · intro h; omega
    · intro h; exact absurd hx (h x hm.1 hm.2)

theorem proxima_spec (f : Formula) (I : Int → Int)
    (h : proxima_variavel_nao_atribuida f I ≠ 0) :
    1 ≤ proxima_variavel_nao_atribuida f I ∧
      proxima_variavel_nao_atribuida f I ≤ f.num_literais ∧
      I (proxima_variavel_nao_atribuida f I) = 0 := by
  unfold proxima_variavel_nao_atribuida at h ⊢
  cases hfind : (intervalo 1 f.num_literais).find? (fun i => decide (I i = 0)) with
  | none => rw [hfind] at h; simp at h
  | some x =>
    have hx := List.find?_some hfind
    have hm := mem_intervalo.mp (List.mem_of_find?_eq_some hfind)
    simp only [decide_eq_true_eq] at hx
    simp only [Option.getD_some]
    exact ⟨hm.1, hm.2, hx⟩

/-! ## The recursion of `SAT` -/

/-- Induction along the calls of `SAT`: one case per `return` of the function. -/
theorem SAT_fuel_inducao (f : Formula) (P : (Int → Int) → BinaryTree → Saida → Prop)
    (caso_sat : ∀ I no, formula_satisfativel f I = true → P I no ⟨true, I, no, []⟩)
    (caso_insat : ∀ I no, formula_satisfativel f I = false →
      formula_insatisfativel f I = true → P I no ⟨false, I, no, []⟩)
    (caso_sem_var : ∀ I no, formula_satisfativel f I = false →
      formula_insatisfativel f I = false → proxima_variavel_nao_atribuida f I = 0 →
      P I no ⟨false, I, no, []⟩)
    (caso_esq : ∀ fuel I valor variavel esq dir r1, formula_satisfativel f I = false →
      formula_insatisfativel f I = false → proxima_variavel_nao_atribuida f I ≠ 0 →
      SAT_fuel fuel f (atribuir I (proxima_variavel_nao_atribuida f I) 1) no_vazio = some r1 →
      P (atribuir I (proxima_variavel_nao_atribuida f I) 1) no_vazio r1 →
      r1.ret = true →
      P I (BinaryTree.no valor variavel esq dir)
        ⟨true, r1.interpretacao,
          BinaryTree.no 1
            (if variavel = 0 then proxima_variavel_nao_atribuida f I else variavel) r1.no dir,
          r1.liberados⟩)
    (caso_dir : ∀ fuel I valor variavel esq dir r1 r2, formula_satisfativel f I = false →
      formula_insatisfativel f I = false → proxima_variavel_nao_atribuida f I ≠ 0 →
      SAT_fuel fuel f (atribuir I (proxima_variavel_nao_atribuida f I) 1) no_vazio = some r1 →
      P (atribuir I (proxima_variavel_nao_atribuida f I) 1) no_vazio r1 →
      r1.ret = false →
      SAT_fuel fuel f
        (atribuir r1.interpretacao (proxima_variavel_nao_atribuida f I) (-1)) no_vazio
        = some r2 →
      P (atribuir r1.interpretacao (proxima_variavel_nao_atribuida f I) (-1)) no_vazio r2 →
      r2.ret = true →
      P I (BinaryTree.no valor variavel esq dir)
        ⟨true, r2.interpretacao,
          BinaryTree.no (-1)
            (if variavel = 0 then proxima_variavel_nao_atribuida f I else variavel)
            BinaryTree.NULL r2.no,
          r1.liberados ++ [r1.no] ++ r2.liberados⟩)
    (caso_volta : ∀ fuel I valor variavel esq dir r1 r2, formula_satisfativel f I = false →
      formula_insatisfativel f I = false → proxima_variavel_nao_atribuida f I ≠ 0 →
      SAT_fuel fuel f (atribuir I (proxima_variavel_nao_atribuida f I) 1) no_vazio = some r1 →
      P (atribuir I (proxima_variavel_nao_atribuida f I) 1) no_vazio r1 →
      r1.ret = false →
      SAT_fuel fuel f
        (atribuir r1.interpretacao (proxima_variavel_nao_atribuida f I) (-1)) no_vazio
        = some r2 →
      P (atribuir r1.interpretacao (proxima_variavel_nao_atribuida f I) (-1)) no_vazio r2 →
      r2.ret = false →
      P I (BinaryTree.no valor variavel esq dir)
        ⟨false, atribuir r2.interpretacao (proxima_variavel_nao_atribuida f I) 0,
          BinaryTree.no valor
            (if variavel = 0 then proxima_variavel_nao_atribuida f I else variavel)
            BinaryTree.NULL BinaryTree.NULL,
          r1.liberados ++ [r1.no] ++ r2.liberados ++ [r2.no]⟩) :
    ∀ fuel I no r, SAT_fuel fuel f I no = some r → P I no r := by
  intro fuel
  induction fuel with
  | zero => intro I no r h; simp [SAT_fuel] at h
  | succ fuel ih =>
    intro I no r h
    rw [SAT_fuel] at h
    by_cases hs : formula_satisfativel f I = true
    · simp only [hs, if_true, Option.some.injEq] at h
      subst h
      exact caso_sat I no hs
    · have hs2 : formula_satisfativel f I = false := by simpa using hs
      by_cases hi : formula_insatisfativel f I = true
      · simp only [hs2, hi, Bool.false_eq_true, if_false, if_true, Option.some.injEq] at h
        subst h
        exact caso_insat I no hs2 hi
      · have hi2 : formula_insatisfativel f I = false := by simpa using hi
        by_cases hv : proxima_variavel_nao_atribuida f I = 0
        · simp only [hs2, hi2, hv, Bool.false_eq_true, if_false, if_true, Option.some.injEq] at h
          subst h
          exact caso_sem_var I no hs2 hi2 hv
        · simp only [hs2, hi2, hv, Bool.false_eq_true, if_false] at h
          cases no with
          | NULL => simp at h
          | no valor variavel esq dir =>
            simp only at h
            cases h1 : SAT_fuel fuel f
                (atribuir I (proxima_variavel_nao_atribuida f I) 1) no_vazio with
            | none => rw [h1] at h; simp at h
            | some r1 =>
              rw [h1] at h
              simp only at h
              have p1 := ih _ _ _ h1
              by_cases hr1 : r1.ret = true
              · simp only [hr1, if_true, Option.some.injEq] at h
                subst h
                exact caso_esq fuel I valor variavel esq dir r1 hs2 hi2 hv h1 p1 hr1
              · have hr1f : r1.ret = false := by simpa using hr1
                simp only [hr1f, Bool.false_eq_true, if_false] at h
                cases h2 : SAT_fuel fuel f
                    (atribuir r1.interpretacao (proxima_variavel_nao_atribuida f I) (-1))
                    no_vazio with
                | none => rw [h2] at h; simp at h
                | some r2 =>
                  rw [h2] at h
                  simp only at h
                  have p2 := ih _ _ _ h2
                  by_cases hr2 : r2.ret = true
                  · simp only [hr2, if_true, Option.some.injEq] at h
                    subst h
                    exact caso_dir fuel I valor variavel esq dir r1 r2 hs2 hi2 hv h1 p1 hr1f
                      h2 p2 hr2
                  · have hr2f : r2.ret = false := by simpa using hr2
                    simp only [hr2f, Bool.false_eq_true, if_false, Option.some.injEq] at h
                    subst h
                    exact caso_volta fuel I valor variavel esq dir r1 r2 hs2 hi2 hv h1 p1
                      hr1f h2 p2 hr2f

theorem atribuir_mesmo (I : Int → Int) (var valor : Int) : atribuir I var valor var = valor := by
  simp [atribuir]

theorem atribuir_outro (I : Int → Int) (var valor i : Int) (h : i ≠ var) :
    atribuir I var valor i = I i := by
  simp [atribuir, h]

theorem atribuir_atribuir (I : Int → Int) (var a b : Int) :
    atribuir (atribuir I var a) var b = atribuir I var b := by
  funext i
  by_cases h : i = var <;> simp [atribuir, h]

theorem atribuir_desfaz (I : Int → Int) (var : Int) (h : I var = 0) :
    atribuir I var 0 = I := by
  funext i
  by_cases hi : i = var
  · subst hi; simp [atribuir, h]
  · simp [atribuir, hi]

/-- A call of `SAT` that returns false leaves `interpretacao` as it found it. -/
theorem SAT_fuel_restaura (f : Formula) :
    ∀ fuel I no r, SAT_fuel fuel f I no = some r → r.ret = false → r.interpretacao = I := by
  apply SAT_fuel_inducao f (fun I _ r => r.ret = false → r.interpretacao = I)
  · intro I no _ h; simp at h
  · intro I no _ _ _; rfl
  · intro I no _ _ _ _; rfl
  · intro fuel I valor variavel esq dir r1 _ _ _ _ _ _ h; simp at h
  · intro fuel I valor variavel esq dir r1 r2 _ _ _ _ _ _ _ _ _ h; simp at h
  · intro fuel I valor variavel esq dir r1 r2 _ _ hv _ p1 hr1 _ p2 hr2 _
    have hz := (proxima_spec f I hv).2.2
    simp only
    rw [p2 hr2, p1 hr1, atribuir_atribuir, atribuir_atribuir, atribuir_desfaz I _ hz]

/-- A call of `SAT` that returns true leaves a satisfied formula. -/
theorem SAT_fuel_correto (f : Formula) :
    ∀ fuel I no r, SAT_fuel fuel f I no = some r → r.ret = true →
      formula_satisfativel f r.interpretacao = true := by
  apply SAT_fuel_inducao f (fun _ _ r => r.ret = true →
      formula_satisfativel f r.interpretacao = true)
  · intro I no hs _; exact hs
  · intro I no _ _ h; simp at h
  · intro I no _ _ _ h; simp at h
  · intro fuel I valor variavel esq dir r1 _ _ _ _ p1 hr1 _; exact p1 hr1
  · intro fuel I valor variavel esq dir r1 r2 _ _ _ _ _ _ _ p2 hr2 _; exact p2 hr2
  · intro fuel I valor variavel esq dir r1 r2 _ _ _ _ _ _ _ _ _ h; simp at h

/-- A call of `SAT` never changes an entry that was not `0` at the call. -/
theorem SAT_fuel_preserva (f : Formula) :
    ∀ fuel I no r, SAT_fuel fuel f I no = some r →
      ∀ i, I i ≠ 0 → r.interpretacao i = I i := by
  apply SAT_fuel_inducao f (fun I _ r => ∀ i, I i ≠ 0 → r.interpretacao i = I i)
  · intro I no _ i _; rfl
  · intro I no _ _ i _; rfl
  · intro I no _ _ _ i _; rfl
  · intro fuel I valor variavel esq dir r1 _ _ hv _ p1 _ i hi
    have hz := (proxima_spec f I hv).2.2
    have hne : i ≠ proxima_variavel_nao_atribuida f I := by
      intro h; rw [h] at hi; exact hi hz
    have := p1 i (by rw [atribuir_outro _ _ _ _ hne]; exact hi)
    simp only
    rw [this, atribuir_outro _ _ _ _ hne]
  · intro fuel I valor variavel esq dir r1 r2 _ _ hv h1 _ hr1 _ p2 _ i hi
    have hz := (proxima_spec f I hv).2.2
    have hne : i ≠ proxima_variavel_nao_atribuida f I := by
      intro h; rw [h] at hi; exact hi hz
    have e1 := SAT_fuel_restaura f _ _ _ _ h1 hr1
    have := p2 i (by rw [atribuir_outro _ _ _ _ hne, e1, atribuir_outro _ _ _ _ hne]; exact hi)
    simp only
    rw [this, atribuir_outro _ _ _ _ hne, e1, atribuir_outro _ _ _ _ hne]
  · intro fuel I valor variavel esq dir r1 r2 _ _ hv h1 _ hr1 h2 _ hr2 i hi
    have hz := (proxima_spec f I hv).2.2
    have hne : i ≠ proxima_variavel_nao_atribuida f I := by
      intro h; rw [h] at hi; exact hi hz
    have e1 := SAT_fuel_restaura f _ _ _ _ h1 hr1
    have e2 := SAT_fuel_restaura f _ _ _ _ h2 hr2
    simp only
    rw [atribuir_outro _ _ _ _ hne, e2, atribuir_outro _ _ _ _ hne, e1,
      atribuir_outro _ _ _ _ hne]

/-! ## Termination of `SAT` -/

theorem countP_atribuir_le (I : Int → Int) (var v : Int) (hv : v ≠ 0) (l : List Int) :
    l.countP (fun i => decide (atribuir I var v i = 0)) ≤
      l.countP (fun i => decide (I i = 0)) := by
  apply List.countP_mono_left
  intro x _ hx
  simp only [decide_eq_true_eq] at hx ⊢
  by_cases h : x = var
  · rw [h, atribuir_mesmo] at hx; exact absurd hx hv
  · rwa [atribuir_outro _ _ _ _ h] at hx

theorem countP_atribuir_lt (I : Int → Int) (var v : Int) (hv : v ≠ 0) (hz : I var = 0)
    (l : List Int) (hm : var ∈ l) :
    l.countP (fun i => decide (atribuir I var v i = 0)) <
      l.countP (fun i => decide (I i = 0)) := by
  induction l with
  | nil => cases hm
  | cons x xs ih =>
    have hle := countP_atribuir_le I var v hv xs
    by_cases hx : x = var
    · subst hx
      simp only [List.countP_cons, atribuir_mesmo, hz, hv, decide_True, decide_False, if_true,
        Bool.false_eq_true, if_false]
      omega
    · have hmx : var ∈ xs := by
        rcases List.mem_cons.mp hm with h | h
        · exact absurd h.symm hx
        · exact h
      have := ih hmx
      simp only [List.countP_cons, atribuir_outro _ _ _ _ hx]
      omega

theorem nao_atribuidas_atribuir (f : Formula) (I : Int → Int) (v : Int) (hv : v ≠ 0)
    (h : proxima_variavel_nao_atribuida f I ≠ 0) :
    nao_atribuidas f (atribuir I (proxima_variavel_nao_atribuida f I) v) <
      nao_atribuidas f I := by
  obtain ⟨h1, h2, h3⟩ := proxima_spec f I h
  exact countP_atribuir_lt I _ v hv h3 _ (mem_intervalo.mpr ⟨h1, h2⟩)

theorem nao_atribuidas_le (f : Formula) (I : Int → Int) :
    nao_atribuidas f I ≤ f.num_literais.toNat := by
  unfold nao_atribuidas
  have h := List.countP_le_length (fun i => decide (I i = 0)) (l := intervalo 1 f.num_literais)
  rw [length_intervalo] at h
  have : (f.num_literais + 1 - 1).toNat = f.num_literais.toNat := by
    congr 1; omega
  omega

/-- With more levels than unassigned variables, `SAT` returns. -/
theorem SAT_fuel_total (f : Formula) :
    ∀ fuel I no, no ≠ BinaryTree.NULL → nao_atribuidas f I < fuel →
      ∃ r, SAT_fuel fuel f I no = some r := by
  intro fuel
  induction fuel with
  | zero => intro I no _ h; omega
  | succ fuel ih =>
    intro I no hno hlt
    rw [SAT_fuel]
    by_cases hs : formula_satisfativel f I = true
    · simp [hs]
    · have hs2 : formula_satisfativel f I = false := by simpa using hs
      by_cases hi : formula_insatisfativel f I = true
      · simp [hs2, hi]
      · have hi2 : formula_insatisfativel f I = false := by simpa using hi
        by_cases hv : proxima_variavel_nao_atribuida f I = 0
        · simp [hs2, hi2, hv]
        · simp only [hs2, hi2, hv, Bool.false_eq_true, if_false]
          cases no with
          | NULL => exact absurd rfl hno
          | no valor variavel esq dir =>
            simp only
            have hn1 : no_vazio ≠ BinaryTree.NULL := by simp [no_vazio]
            have hc1 := nao_atribuidas_atribuir f I 1 (by decide) hv
            obtain ⟨r1, h1⟩ := ih (atribuir I (proxima_variavel_nao_atribuida f I) 1)
              no_vazio hn1 (by omega)
            rw [h1]
            simp only
            by_cases hr1 : r1.ret = true
            · simp [hr1]
            · have hr1f : r1.ret = false := by simpa using hr1
              simp only [hr1f, Bool.false_eq_true, if_false]
              have e1 := SAT_fuel_restaura f _ _ _ _ h1 hr1f
              have hc2 := nao_atribuidas_atribuir f I (-1) (by decide) hv
              obtain ⟨r2, h2⟩ := ih
                (atribuir r1.interpretacao (proxima_variavel_nao_atribuida f I) (-1))
                no_vazio hn1 (by rw [e1, atribuir_atribuir]; omega)
              rw [h2]
              simp only
              by_cases hr2 : r2.ret = true
              · simp [hr2]
              · have hr2f : r2.ret = false := by simpa using hr2
                simp [hr2f]

/-- `SAT` returns on every node that is not `NULL`. -/
theorem SAT_total (f : Formula) (I : Int → Int) (no : BinaryTree)
    (hno : no ≠ BinaryTree.NULL) : ∃ r, SAT f I no = some r := by
  unfold SAT
  exact SAT_fuel_total f _ I no hno (by have := nao_atribuidas_le f I; omega)

theorem no_vazio_ne_NULL : no_vazio ≠ BinaryTree.NULL := by simp [no_vazio]

/-! ## Completeness of the search -/

theorem literal_valido_iff (l n : Int) :
    literal_valido l n = true ↔ 1 ≤ c_abs l ∧ c_abs l ≤ n := by
  simp [literal_valido]

theorem valor_do_literal_casos (l : Int) : valor_do_literal l = 1 ∨ valor_do_literal l = -1 := by
  unfold valor_do_literal
  split
  · left; rfl
  · right; rfl

/-- A call of `SAT` on a well-formed formula returns false only when no total
assignment extending `interpretacao` satisfies the formula. -/
theorem SAT_fuel_completo (f : Formula) (hwf : bem_formada f) :
    ∀ fuel I no r, SAT_fuel fuel f I no = some r → r.ret = false →
      ∀ total, atribuicao_total f.num_literais total → estende f.num_literais I total →
        ¬ satisfaz f total := by
  apply SAT_fuel_inducao f (fun I _ r => r.ret = false →
      ∀ total, atribuicao_total f.num_literais total → estende f.num_literais I total →
        ¬ satisfaz f total)
  · intro I no _ h; simp at h
  · intro I no _ hi _ total _ hext hsat
    obtain ⟨c, hc, hconf⟩ := (formula_insatisfativel_iff f I).mp hi
    obtain ⟨l, hl, hval⟩ := hsat c hc
    obtain ⟨hr1, hr2⟩ := (literal_valido_iff _ _).mp (hwf c hc l hl)
    obtain ⟨hne0, hnev⟩ := hconf l hl
    rw [hext _ hr1 hr2 hne0] at hval
    exact hnev hval
  · intro I no hs hi hv _ total _ _ _
    have hall := (proxima_zero_iff f I).mp hv
    have hns : ¬ satisfaz f I := by
      rw [← formula_satisfativel_iff]; simp [hs]
    apply hns
    intro c hc
    have hni : ¬ (∀ l ∈ literais c, I (c_abs l) ≠ 0 ∧ I (c_abs l) ≠ valor_do_literal l) := by
      intro hcon
      have := (formula_insatisfativel_iff f I).mpr ⟨c, hc, hcon⟩
      rw [hi] at this; cases this
    push_neg at hni
    obtain ⟨l, hl, hlv⟩ := hni
    obtain ⟨hr1, hr2⟩ := (literal_valido_iff _ _).mp (hwf c hc l hl)
    exact ⟨l, hl, hlv (hall _ hr1 hr2)⟩
  · intro fuel I valor variavel esq dir r1 _ _ _ _ _ _ h; simp at h
  · intro fuel I valor variavel esq dir r1 r2 _ _ _ _ _ _ _ _ _ h; simp at h
  · intro fuel I valor variavel esq dir r1 r2 _ _ hv h1 p1 hr1 _ p2 hr2 _ total htot hext
    obtain ⟨hv1, hv2, hv3⟩ := proxima_spec f I hv
    have e1 := SAT_fuel_restaura f _ _ _ _ h1 hr1
    rw [e1, atribuir_atribuir] at p2
    rcases htot _ hv1 hv2 with ht | ht
    · apply p1 hr1 total htot
      intro i hi1 hi2 hne
      by_cases hiv : i = proxima_variavel_nao_atribuida f I
      · rw [hiv, atribuir_mesmo, ht]
      · rw [atribuir_outro _ _ _ _ hiv] at hne ⊢
        exact hext i hi1 hi2 hne
    · apply p2 hr2 total htot
      intro i hi1 hi2 hne
      by_cases hiv : i = proxima_variavel_nao_atribuida f I
      · rw [hiv, atribuir_mesmo, ht]
      · rw [atribuir_outro _ _ _ _ hiv] at hne ⊢
        exact hext i hi1 hi2 hne

/-! ## Shape of the decision tree -/

theorem cadeia_esquerda (valor variavel : Int) (t : BinaryTree) (h : cadeia t = true) :
    cadeia (BinaryTree.no valor variavel t BinaryTree.NULL) = true := by
  cases t with
  | NULL => simp [cadeia] at h
  | no a b c d => simpa [cadeia] using h

theorem cadeia_direita (valor variavel : Int) (t : BinaryTree) (h : cadeia t = true) :
    cadeia (BinaryTree.no valor variavel BinaryTree.NULL t) = true := by
  cases t with
  | NULL => simp [cadeia] at h
  | no a b c d => simpa [cadeia] using h

/-- On a fresh node: after false the node has no children; after true the tree is a
chain; every node given to `free` had no children. -/
theorem SAT_fuel_arvore (f : Formula) :
    ∀ fuel I no r, SAT_fuel fuel f I no = some r → no = no_vazio →
      (r.ret = false → sem_filhos r.no = true) ∧
      (r.ret = true → cadeia r.no = true) ∧
      (∀ t ∈ r.liberados, sem_filhos t = true) := by
  apply SAT_fuel_inducao f (fun _ no r => no = no_vazio →
      (r.ret = false → sem_filhos r.no = true) ∧
      (r.ret = true → cadeia r.no = true) ∧
      (∀ t ∈ r.liberados, sem_filhos t = true))
  · intro I no _ hno
    subst hno
    simp [no_vazio, cadeia]
  · intro I no _ _ hno
    subst hno
    simp [no_vazio, sem_filhos]
  · intro I no _ _ _ hno
    subst hno
    simp [no_vazio, sem_filhos]
  · intro fuel I valor variavel esq dir r1 _ _ _ _ p1 hr1 hno
    obtain ⟨-, pc, pl⟩ := p1 rfl
    simp only [no_vazio, BinaryTree.no.injEq] at hno
    obtain ⟨-, -, -, hd⟩ := hno
    subst hd
    refine ⟨by simp, fun _ => cadeia_esquerda _ _ _ (pc hr1), pl⟩
  · intro fuel I valor variavel esq dir r1 r2 _ _ _ _ p1 hr1 _ p2 hr2 _
    obtain ⟨ps1, -, pl1⟩ := p1 rfl
    obtain ⟨-, pc2, pl2⟩ := p2 rfl
    refine ⟨by simp, fun _ => cadeia_direita _ _ _ (pc2 hr2), ?_⟩
    intro t ht
    simp only [List.mem_append, List.mem_singleton] at ht
    rcases ht with (ht | ht) | ht
    · exact pl1 t ht
    · rw [ht]; exact ps1 hr1
    · exact pl2 t ht
  · intro fuel I valor variavel esq dir r1 r2 _ _ _ _ p1 hr1 _ p2 hr2 _
    obtain ⟨ps1, -, pl1⟩ := p1 rfl
    obtain ⟨ps2, -, pl2⟩ := p2 rfl
    refine ⟨fun _ => by simp [sem_filhos], by simp, ?_⟩
    intro t ht
    simp only [List.mem_append, List.mem_singleton] at ht
    rcases ht with ((ht | ht) | ht) | ht
    · exact pl1 t ht
    · rw [ht]; exact ps1 hr1
    · exact pl2 t ht
    · rw [ht]; exact ps2 hr2

/-! ## Claims on the solver -/

/-- On a well-formed formula `SAT` decides whether `interpretacao` can be extended to a
total satisfying assignment. -/
theorem SAT_decide (f : Formula) (I : Int → Int)
    (hwf : bem_formada f) (hval : valores_validos f.num_literais I) :
    ∃ r, SAT f I no_vazio = some r ∧
      (r.ret = true ↔
        ∃ total, atribuicao_total f.num_literais total ∧
          estende f.num_literais I total ∧ satisfaz f total) := by
  obtain ⟨r, hr⟩ := SAT_total f I no_vazio no_vazio_ne_NULL
  refine ⟨r, hr, ?_, ?_⟩
  · intro hret
    have hsat := (formula_satisfativel_iff f _).mp (SAT_fuel_correto f _ _ _ _ hr hret)
    refine ⟨fun i => if r.interpretacao i = -1 then -1 else 1, ?_, ?_, ?_⟩
    · intro i _ _
      by_cases h : r.interpretacao i = -1
      · right; simp [h]
      · left; simp [h]
    · intro i h1 h2 hne
      have hp := SAT_fuel_preserva f _ _ _ _ hr i hne
      rcases hval i h1 h2 with h | h | h
      · simp [hp, h]
      · exact absurd h hne
      · simp [hp, h]
    · intro c hc
      obtain ⟨l, hl, hlv⟩ := hsat c hc
      refine ⟨l, hl, ?_⟩
      rcases valor_do_literal_casos l with h | h
      · rw [h] at hlv ⊢; simp [hlv]
      · rw [h] at hlv ⊢; simp [hlv]
  · rintro ⟨total, htot, hext, hsat⟩
    by_contra hret
    have hretf : r.ret = false := by simpa using hret
    exact SAT_fuel_completo f hwf _ _ _ _ hr hretf total htot hext hsat

/-- C1: on a well-formed formula, with an array holding only -1, 0 or 1 and a fresh node,
`SAT` returns, and it returns true exactly when some total assignment that keeps every
variable already assigned makes a literal true in every clause. -/
theorem SAT_decide_extensao (f : Formula) (I : Int → Int)
    (hwf : bem_formada f) (hval : valores_validos f.num_literais I) :
    ∃ r, SAT f I no_vazio = some r ∧
      (r.ret = true ↔
        ∃ total, atribuicao_total f.num_literais total ∧
          estende f.num_literais I total ∧ satisfaz f total) :=
  SAT_decide f I hwf hval

/-- C2: when `SAT` returns true, `formula_satisfativel` holds on the array it leaves:
every clause has a literal whose variable holds the value of the literal's polarity. -/
theorem SAT_true_satisfaz (f : Formula) (I : Int → Int) (no : BinaryTree) (r : Saida)
    (h : SAT f I no = some r) (hret : r.ret = true) :
    formula_satisfativel f r.interpretacao = true ∧
      ∀ c ∈ clausulas_de f, ∃ l ∈ literais c,
        r.interpretacao (c_abs l) = (if l > 0 then 1 else -1) := by
  have hs := SAT_fuel_correto f _ _ _ _ h hret
  exact ⟨hs, (formula_satisfativel_iff f _).mp hs⟩

/-- C8: when `SAT` returns false, the array after the call equals the array before it. -/
theorem SAT_false_restaura (f : Formula) (I : Int → Int) (no : BinaryTree) (r : Saida)
    (h : SAT f I no = some r) (hret : r.ret = false) :
    r.interpretacao = I ∧ ∀ i, r.interpretacao i = I i := by
  have e := SAT_fuel_restaura f _ _ _ _ h hret
  exact ⟨e, fun i => by rw [e]⟩

/-- C10: `SAT` on a fresh node returns; after false the node has no children; after
true the tree under the node is a chain ending in a childless node with `variavel = 0`
and `valor = 0`, and the formula is satisfied by the array; in both cases every node
given to `free` had no children. -/
theorem SAT_arvore_de_decisao (f : Formula) (I : Int → Int) :
    ∃ r, SAT f I no_vazio = some r ∧
      (r.ret = false → sem_filhos r.no = true) ∧
      (r.ret = true → cadeia r.no = true ∧ formula_satisfativel f r.interpretacao = true) ∧
      (∀ t ∈ r.liberados, sem_filhos t = true) := by
  obtain ⟨r, hr⟩ := SAT_total f I no_vazio no_vazio_ne_NULL
  obtain ⟨h1, h2, h3⟩ := SAT_fuel_arvore f _ _ _ _ hr rfl
  exact ⟨r, hr, h1, fun hret => ⟨h2 hret, SAT_fuel_correto f _ _ _ _ hr hret⟩, h3⟩

theorem SAT_decide_extensao_witness :
    bem_formada formula_exemplo ∧ valores_validos 2 interpretacao_inicial ∧
    ∃ r, SAT formula_exemplo interpretacao_inicial no_vazio = some r ∧
      (r.ret = true ↔
        ∃ total, atribuicao_total formula_exemplo.num_literais total ∧
          estende formula_exemplo.num_literais interpretacao_inicial total ∧
          satisfaz formula_exemplo total) :=
  ⟨by unfold bem_formada; decide, fun _ _ _ => Or.inr (Or.inl rfl),
    SAT_decide_extensao formula_exemplo interpretacao_inicial
      (by unfold bem_formada; decide) (fun _ _ _ => Or.inr (Or.inl rfl))⟩

theorem SAT_true_satisfaz_witness :
    ∃ r, SAT formula_exemplo interpretacao_inicial no_vazio = some r ∧ r.ret = true ∧
      formula_satisfativel formula_exemplo r.interpretacao = true ∧
      ∀ c ∈ clausulas_de formula_exemplo, ∃ l ∈ literais c,
        r.interpretacao (c_abs l) = (if l > 0 then 1 else -1) :=
  ⟨_, rfl, rfl, SAT_true_satisfaz formula_exemplo interpretacao_inicial no_vazio _ rfl rfl⟩

theorem SAT_false_restaura_witness :
    ∃ r, SAT formula_contraditoria interpretacao_inicial no_vazio = some r ∧ r.ret = false ∧
      r.interpretacao = interpretacao_inicial ∧
      ∀ i, r.interpretacao i = interpretacao_inicial i :=
  ⟨_, rfl, rfl,
    SAT_false_restaura formula_contraditoria interpretacao_inicial no_vazio _ rfl rfl⟩

/-! ## Counting the clauses of `gerarCNF` -/

theorem intervalo_vazio {lo hi : Int} (h : hi < lo) : intervalo lo hi = [] := by
  unfold intervalo
  have : (hi + 1 - lo).toNat = 0 := by omega
  rw [this]; rfl

theorem intervalo_cons {lo hi : Int} (h : lo ≤ hi) :
    intervalo lo hi = lo :: intervalo (lo + 1) hi := by
  unfold intervalo
  have : (hi + 1 - lo).toNat = (hi + 1 - (lo + 1)).toNat + 1 := by omega
  rw [this, List.range_succ_eq_map, List.map_cons, List.map_map]
  congr 1
  · simp
  · apply List.map_congr_left
    intro i _
    simp only [Function.comp, Int.ofNat_eq_coe, Nat.succ_eq_add_one, Nat.cast_add, Nat.cast_one]
    omega

theorem length_flatMap_const {α β : Type} (l : List α) (g : α → List β) (c : Nat)
    (h : ∀ x ∈ l, (g x).length = c) : (l.flatMap g).length = l.length * c := by
  induction l with
  | nil => simp
  | cons x xs ih =>
    rw [List.flatMap_cons, List.length_append, h x (List.mem_cons_self _ _),
      ih (fun y hy => h y (List.mem_cons_of_mem _ hy)), List.length_cons]
    ring

/-- The pairs `c1 < c2` of rule 2 for one vertex: twice their number is `d * (d - 1)`
when `d` colours remain. -/
theorem pares_de_cores {β : Type} (g : Int → Int → β) (k : Int) :
    ∀ (d : Nat) (lo : Int), (k + 1 - lo).toNat = d →
      2 * ((intervalo lo k).flatMap (fun c1 => (intervalo (c1 + 1) k).map (g c1))).length
        = d * (d - 1) := by
  intro d
  induction d with
  | zero =>
    intro lo h
    rw [intervalo_vazio (by omega)]
    simp
  | succ d ih =>
    intro lo h
    rw [intervalo_cons (by omega), List.flatMap_cons, List.length_append, List.length_map,
      length_intervalo]
    have h1 : (k + 1 - (lo + 1)).toNat = d := by omega
    have := ih (lo + 1) h1
    rw [h1, Nat.mul_add, this]
    cases d with
    | zero => simp
    | succ e => simp only [Nat.add_sub_cancel]; ring

theorem length_regra1 (n k : Int) : (regra1 n k).length = n.toNat := by
  unfold regra1
  rw [List.length_map, length_intervalo]
  congr 1; omega

theorem length_regra2 (n k : Int) :
    2 * (regra2 n k).length = n.toNat * (k.toNat * (k.toNat - 1)) := by
  unfold regra2
  have hk : (k + 1 - 1).toNat = k.toNat := by congr 1; omega
  have hn : (n + 1 - 1).toNat = n.toNat := by congr 1; omega
  have hin := fun (v : Int) => pares_de_cores
    (fun c1 c2 => [menos ((v - 1) * k + c1), menos ((v - 1) * k + c2), 0]) k k.toNat 1 hk
  have hhalf : ∀ v ∈ intervalo 1 n,
      ((intervalo 1 k).flatMap (fun c1 => (intervalo (c1 + 1) k).map (fun c2 =>
        [menos ((v - 1) * k + c1), menos ((v - 1) * k + c2), 0]))).length
        = k.toNat * (k.toNat - 1) / 2 := by
    intro v _
    have := hin v
    omega
  rw [length_flatMap_const _ _ _ hhalf, length_intervalo, hn]
  have heven : 2 ∣ k.toNat * (k.toNat - 1) := by
    have := hin 0
    exact Dvd.intro _ this
  obtain ⟨q, hq⟩ := heven
  rw [hq]
  simp only [Nat.mul_div_cancel_left q (by decide : 0 < 2)]
  ring

theorem length_regra3 (g : Grafo) (k : Int) :
    (regra3 g k).length = g.m_arestas.toNat * k.toNat := by
  unfold regra3
  rw [length_flatMap_const _ _ k.toNat, List.length_range]
  intro i _
  simp only [List.length_map, length_intervalo]
  congr 1; omega

theorem length_linhas_gerarCNF (g : Grafo) (k : Int) (hn : 0 ≤ g.n_vertices)
    (hm : 0 ≤ g.m_arestas) (hk : 1 ≤ k) :
    (((gerarCNF g k).linhas.length : Nat) : Int) =
      g.n_vertices + g.n_vertices * k * (k - 1) / 2 + g.m_arestas * k := by
  have h1 := length_regra1 g.n_vertices k
  have h2 := length_regra2 g.n_vertices k
  have h3 := length_regra3 g k
  simp only [gerarCNF, List.length_append, h1, h3, Nat.cast_add, Nat.cast_mul]
  have e2 : (2 : Int) * ((regra2 g.n_vertices k).length : Int) =
      g.n_vertices * k * (k - 1) := by
    have : ((2 * (regra2 g.n_vertices k).length : Nat) : Int) =
        ((g.n_vertices.toNat * (k.toNat * (k.toNat - 1)) : Nat) : Int) := by rw [h2]
    have hk1 : ((k.toNat - 1 : Nat) : Int) = k - 1 := by omega
    simp only [Nat.cast_mul, Nat.cast_ofNat, hk1, Int.toNat_of_nonneg hn,
      Int.toNat_of_nonneg (by omega : (0 : Int) ≤ k)] at this
    rw [this]; ring
  rw [← e2, Int.mul_ediv_cancel_left _ (by decide : (2 : Int) ≠ 0), Int.toNat_of_nonneg hn,
    Int.toNat_of_nonneg hm, Int.toNat_of_nonneg (by omega : (0 : Int) ≤ k)]

theorem num_clauses_gerarCNF (g : Grafo) (k : Int) (hn : 0 ≤ g.n_vertices)
    (hm : 0 ≤ g.m_arestas) (hk : 1 ≤ k) :
    (gerarCNF g k).num_clauses = (((gerarCNF g k).linhas.length : Nat) : Int) := by
  rw [length_linhas_gerarCNF g k hn hm hk]
  have h2 := length_regra2 g.n_vertices k
  have e2 : g.n_vertices * (k * (k - 1)) = 2 * ((regra2 g.n_vertices k).length : Int) := by
    have : ((2 * (regra2 g.n_vertices k).length : Nat) : Int) =
        ((g.n_vertices.toNat * (k.toNat * (k.toNat - 1)) : Nat) : Int) := by rw [h2]
    have hk1 : ((k.toNat - 1 : Nat) : Int) = k - 1 := by omega
    simp only [Nat.cast_mul, Nat.cast_ofNat, hk1, Int.toNat_of_nonneg hn,
      Int.toNat_of_nonneg (by omega : (0 : Int) ≤ k)] at this
    rw [this]
  have e3 : g.n_vertices * k * (k - 1) = 2 * ((regra2 g.n_vertices k).length : Int) := by
    rw [← e2]; ring
  simp only [gerarCNF]
  rw [e2, e3, Int.mul_tdiv_cancel_left _ (by decide : (2 : Int) ≠ 0),
    Int.mul_ediv_cancel_left _ (by decide : (2 : Int) ≠ 0)]

/-- C9: for `n ≥ 0`, `m ≥ 0` and `k ≥ 1`, `gerarCNF` writes `n + n*k*(k-1)/2 + m*k`
clause lines, the header declares that same number, computed as
`n + n*(k*(k-1))/2 + m*k` with the truncating division of C, and declares `n*k`
variables. -/
theorem gerarCNF_contagem (g : Grafo) (k : Int) (hn : 0 ≤ g.n_vertices)
    (hm : 0 ≤ g.m_arestas) (hk : 1 ≤ k) :
    (((gerarCNF g k).linhas.length : Nat) : Int) =
        g.n_vertices + g.n_vertices * k * (k - 1) / 2 + g.m_arestas * k ∧
      (gerarCNF g k).num_clauses = (((gerarCNF g k).linhas.length : Nat) : Int) ∧
      (gerarCNF g k).num_clauses =
        g.n_vertices + Int.tdiv (g.n_vertices * (k * (k - 1))) 2 + g.m_arestas * k ∧
      (gerarCNF g k).num_vars = g.n_vertices * k :=
  ⟨length_linhas_gerarCNF g k hn hm hk, num_clauses_gerarCNF g k hn hm hk, rfl, rfl⟩

/-! ## Reading back the file of `gerarCNF` -/

theorem literais_append_zero (ls : List Int) (h : ∀ l ∈ ls, l ≠ 0) :
    literais (ls ++ [0]) = ls := by
  induction ls with
  | nil => simp [literais]
  | cons x xs ih =>
    have hx : x ≠ 0 := h x (List.mem_cons_self _ _)
    rw [List.cons_append, literais]
    simp only [hx, if_false]
    rw [ih (fun l hl => h l (List.mem_cons_of_mem _ hl))]

theorem literais_ne_zero (linha : List Int) : ∀ l ∈ literais linha, l ≠ 0 := by
  induction linha with
  | nil => simp [literais]
  | cons x xs ih =>
    by_cases hx : x = 0
    · simp [literais, hx]
    · simp only [literais, hx, if_false, List.mem_cons, forall_eq_or_imp]
      exact ⟨hx, ih⟩

theorem literais_normal (linha : List Int) : literais (literais linha ++ [0]) = literais linha :=
  literais_append_zero _ (literais_ne_zero linha)

theorem ler_clausula_some (n : Int) (linha : List Int) :
    ∀ c, ler_clausula n linha = some c →
      c = literais linha ++ [0] ∧ ∀ l ∈ literais linha, literal_valido l n = true := by
  induction linha with
  | nil => intro c h; simp [ler_clausula] at h; simp [literais, h]
  | cons x xs ih =>
    intro c h
    by_cases hx : x = 0
    · simp [ler_clausula, hx] at h; simp [literais, hx, h]
    · by_cases hv : literal_valido x n = true
      · simp only [ler_clausula, hx, if_false, hv, Bool.not_true, Bool.false_eq_true,
          Option.map_eq_some'] at h
        obtain ⟨c1, hc1, rfl⟩ := h
        obtain ⟨e, hval⟩ := ih c1 hc1
        simp only [literais, hx, if_false, List.cons_append, List.mem_cons, forall_eq_or_imp]
        exact ⟨by rw [e], hv, hval⟩
      · simp [ler_clausula, hx, hv] at h

theorem ler_clausula_ok (n : Int) (linha : List Int)
    (h : ∀ l ∈ literais linha, literal_valido l n = true) :
    ler_clausula n linha = some (literais linha ++ [0]) := by
  induction linha with
  | nil => simp [ler_clausula, literais]
  | cons x xs ih =>
    by_cases hx : x = 0
    · simp [ler_clausula, literais, hx]
    · simp only [literais, hx, if_false, List.mem_cons, forall_eq_or_imp] at h
      simp [ler_clausula, literais, hx, h.1, ih h.2]

theorem ler_linhas_some (n : Int) (linhas : List (List Int)) :
    ∀ cs, ler_linhas n linhas = some cs →
      cs = linhas.map (fun linha => literais linha ++ [0]) ∧
      ∀ linha ∈ linhas, ∀ l ∈ literais linha, literal_valido l n = true := by
  induction linhas with
  | nil => intro cs h; simp [ler_linhas] at h; simp [h]
  | cons x xs ih =>
    intro cs h
    rw [ler_linhas] at h
    cases hx : ler_clausula n x with
    | none => rw [hx] at h; simp at h
    | some c =>
      rw [hx] at h
      simp only [Option.map_eq_some'] at h
      obtain ⟨cs1, hcs1, rfl⟩ := h
      obtain ⟨e1, v1⟩ := ler_clausula_some n x c hx
      obtain ⟨e2, v2⟩ := ih cs1 hcs1
      simp only [List.map_cons, List.mem_cons, forall_eq_or_imp]
      exact ⟨by rw [e1, e2], v1, v2⟩

theorem ler_linhas_ok (n : Int) (linhas : List (List Int))
    (h : ∀ linha ∈ linhas, ∀ l ∈ literais linha, literal_valido l n = true) :
    ler_linhas n linhas = some (linhas.map (fun linha => literais linha ++ [0])) := by
  induction linhas with
  | nil => simp [ler_linhas]
  | cons x xs ih =>
    simp only [List.mem_cons, forall_eq_or_imp] at h
    rw [ler_linhas, ler_clausula_ok n x h.1]
    simp [ih h.2]

/-- What `ler_formula` returns: the header numbers and every line cut at its first `0`. -/
theorem ler_formula_some (a : ArquivoCNF) (f : Formula) (h : ler_formula a = some f) :
    f = ⟨a.linhas.map (fun linha => literais linha ++ [0]), a.num_clauses, a.num_vars⟩ ∧
      ∀ linha ∈ a.linhas, ∀ l ∈ literais linha, literal_valido l a.num_vars = true := by
  unfold ler_formula at h
  simp only [Option.map_eq_some'] at h
  obtain ⟨cs, hcs, rfl⟩ := h
  obtain ⟨e, v⟩ := ler_linhas_some _ _ cs hcs
  exact ⟨by rw [e], v⟩

theorem ler_formula_ok (a : ArquivoCNF)
    (h : ∀ linha ∈ a.linhas, ∀ l ∈ literais linha, literal_valido l a.num_vars = true) :
    ler_formula a =
      some ⟨a.linhas.map (fun linha => literais linha ++ [0]), a.num_clauses, a.num_vars⟩ := by
  unfold ler_formula
  rw [ler_linhas_ok _ _ h]
  rfl

/-- A formula returned by `ler_formula` is well formed. -/
theorem ler_formula_bem_formada (a : ArquivoCNF) (f : Formula) (h : ler_formula a = some f) :
    bem_formada f := by
  obtain ⟨rfl, v⟩ := ler_formula_some a f h
  intro c hc l hl
  simp only [clausulas_de] at hc
  have hc2 := List.mem_of_mem_take hc
  simp only [List.mem_map] at hc2
  obtain ⟨linha, hlin, rfl⟩ := hc2
  rw [literais_normal] at hl
  exact v linha hlin l hl

/-- Satisfaction of a formula returned by `ler_formula`, in terms of the lines of the
file. -/
theorem satisfaz_ler_formula (a : ArquivoCNF) (f : Formula) (I : Int → Int)
    (h : ler_formula a = some f) (hcount : a.num_clauses.toNat = a.linhas.length) :
    satisfaz f I ↔ ∀ linha ∈ a.linhas, clausula_satisfeita linha I = true := by
  obtain ⟨rfl, -⟩ := ler_formula_some a f h
  unfold satisfaz clausulas_de
  simp only [hcount]
  rw [List.take_of_length_le (by simp)]
  simp only [List.mem_map, forall_exists_index, and_imp, forall_apply_eq_imp_iff₂,
    literais_normal, clausula_satisfeita_iff]

theorem gerarCNF_contagem_toNat (g : Grafo) (k : Int) (hn : 0 ≤ g.n_vertices)
    (hm : 0 ≤ g.m_arestas) (hk : 1 ≤ k) :
    (gerarCNF g k).num_clauses.toNat = (gerarCNF g k).linhas.length := by
  rw [num_clauses_gerarCNF g k hn hm hk]
  simp

/-! ## Meaning of the three rules -/

theorem var_pos {k v c : Int} (hk : 1 ≤ k) (hv : 1 ≤ v) (hc : 1 ≤ c) :
    1 ≤ (v - 1) * k + c := by
  have := mul_nonneg (sub_nonneg.mpr hv) (by linarith : (0 : Int) ≤ k)
  linarith

theorem var_le {n k v c : Int} (hk : 1 ≤ k) (hv : v ≤ n) (hc : c ≤ k) :
    (v - 1) * k + c ≤ n * k := by
  have := mul_nonneg (sub_nonneg.mpr hv) (by linarith : (0 : Int) ≤ k)
  nlinarith

theorem clausula_positiva (I : Int → Int) (ls : List Int) (h : ∀ l ∈ ls, 1 ≤ l) :
    clausula_satisfeita (ls ++ [0]) I = true ↔ ∃ l ∈ ls, I l = 1 := by
  rw [clausula_satisfeita_iff, literais_append_zero ls (fun l hl => by have := h l hl; omega)]
  constructor
  · rintro ⟨l, hl, hv⟩
    have := h l hl
    refine ⟨l, hl, ?_⟩
    simpa [c_abs, valor_do_literal, show ¬ l < 0 by omega, show l > 0 by omega] using hv
  · rintro ⟨l, hl, hv⟩
    have := h l hl
    refine ⟨l, hl, ?_⟩
    simpa [c_abs, valor_do_literal, show ¬ l < 0 by omega, show l > 0 by omega] using hv

theorem clausula_negativa (I : Int → Int) (x y : Int) (hx : 1 ≤ x) (hy : 1 ≤ y) :
    clausula_satisfeita [menos x, menos y, 0] I = true ↔ I x = -1 ∨ I y = -1 := by
  have hx1 : x > 0 := by omega
  have hy1 : y > 0 := by omega
  have hx2 : ¬ (-x = 0) := by omega
  have hy2 : ¬ (-y = 0) := by omega
  have hx3 : ¬ (-x > 0) := by omega
  have hy3 : ¬ (-y > 0) := by omega
  have hx4 : -x < 0 := by omega
  have hy4 : -y < 0 := by omega
  simp only [clausula_satisfeita, menos, hx1, hy1, if_true, hx2, hy2, hx3, hy3, if_false,
    c_abs, hx4, hy4, neg_neg]
  by_cases h1 : I x = -1
  · simp [h1]
  · by_cases h2 : I y = -1
    · simp [h1, h2]
    · simp [h1, h2]

theorem literais_negativa (x y : Int) (hx : 1 ≤ x) (hy : 1 ≤ y) :
    literais [menos x, menos y, 0] = [-x, -y] := by
  have hx1 : x > 0 := by omega
  have hy1 : y > 0 := by omega
  have hx2 : ¬ (-x = 0) := by omega
  have hy2 : ¬ (-y = 0) := by omega
  simp [literais, menos, hx1, hy1, hx2, hy2]

theorem mem_regra1 (n k : Int) (linha : List Int) :
    linha ∈ regra1 n k ↔ ∃ v, 1 ≤ v ∧ v ≤ n ∧
      linha = (intervalo 1 k).map (fun c => (v - 1) * k + c) ++ [0] := by
  unfold regra1
  simp only [List.mem_map, mem_intervalo]
  constructor
  · rintro ⟨v, ⟨h1, h2⟩, rfl⟩; exact ⟨v, h1, h2, rfl⟩
  · rintro ⟨v, h1, h2, rfl⟩; exact ⟨v, ⟨h1, h2⟩, rfl⟩

theorem mem_regra2 (n k : Int) (linha : List Int) :
    linha ∈ regra2 n k ↔ ∃ v c1 c2, 1 ≤ v ∧ v ≤ n ∧ 1 ≤ c1 ∧ c1 < c2 ∧ c2 ≤ k ∧
      linha = [menos ((v - 1) * k + c1), menos ((v - 1) * k + c2), 0] := by
  unfold regra2
  simp only [List.mem_flatMap, List.mem_map, mem_intervalo]
  constructor
  · rintro ⟨v, ⟨h1, h2⟩, c1, ⟨h3, _⟩, c2, ⟨h5, h6⟩, rfl⟩
    exact ⟨v, c1, c2, h1, h2, h3, by omega, h6, rfl⟩
  · rintro ⟨v, c1, c2, h1, h2, h3, h4, h5, rfl⟩
    exact ⟨v, ⟨h1, h2⟩, c1, ⟨h3, by omega⟩, c2, ⟨by omega, h5⟩, rfl⟩

theorem mem_regra3 (g : Grafo) (k : Int) (linha : List Int) :
    linha ∈ regra3 g k ↔ ∃ i c, i < g.m_arestas.toNat ∧ 1 ≤ c ∧ c ≤ k ∧
      linha = [menos (((g.arestas i).1 + 1 - 1) * k + c),
        menos (((g.arestas i).2 + 1 - 1) * k + c), 0] := by
  unfold regra3
  simp only [List.mem_flatMap, List.mem_map, mem_intervalo, List.mem_range]
  constructor
  · rintro ⟨i, hi, c, ⟨h1, h2⟩, rfl⟩; exact ⟨i, c, hi, h1, h2, rfl⟩
  · rintro ⟨i, c, hi, h1, h2, rfl⟩; exact ⟨i, hi, c, ⟨h1, h2⟩, rfl⟩

theorem mem_linhas_gerarCNF (g : Grafo) (k : Int) (linha : List Int) :
    linha ∈ (gerarCNF g k).linhas ↔
      linha ∈ regra1 g.n_vertices k ∨ linha ∈ regra2 g.n_vertices k ∨ linha ∈ regra3 g k := by
  simp only [gerarCNF, List.mem_append, or_assoc]

/-! ## Graph colourings -/

theorem mem_arestas_de (g : Grafo) (e : Int × Int) :
    e ∈ arestas_de g ↔ ∃ i, i < g.m_arestas.toNat ∧ g.arestas i = e := by
  simp [arestas_de]

theorem regra1_satisfeita (n k : Int) (I : Int → Int) (hk : 1 ≤ k) :
    (∀ linha ∈ regra1 n k, clausula_satisfeita linha I = true) ↔
      ∀ v, 1 ≤ v → v ≤ n → ∃ c, 1 ≤ c ∧ c ≤ k ∧ I ((v - 1) * k + c) = 1 := by
  have key : ∀ v, 1 ≤ v →
      (clausula_satisfeita ((intervalo 1 k).map (fun c => (v - 1) * k + c) ++ [0]) I = true ↔
        ∃ c, 1 ≤ c ∧ c ≤ k ∧ I ((v - 1) * k + c) = 1) := by
    intro v hv
    rw [clausula_positiva]
    · simp only [List.mem_map, mem_intervalo]
      constructor
      · rintro ⟨l, ⟨c, ⟨h1, h2⟩, rfl⟩, hI⟩; exact ⟨c, h1, h2, hI⟩
      · rintro ⟨c, h1, h2, hI⟩; exact ⟨_, ⟨c, ⟨h1, h2⟩, rfl⟩, hI⟩
    · intro l hl
      simp only [List.mem_map, mem_intervalo] at hl
      obtain ⟨c, ⟨h1, _⟩, rfl⟩ := hl
      exact var_pos hk hv h1
  constructor
  · intro h v h1 h2
    exact (key v h1).mp (h _ ((mem_regra1 n k _).mpr ⟨v, h1, h2, rfl⟩))
  · intro h linha hl
    obtain ⟨v, h1, h2, rfl⟩ := (mem_regra1 n k _).mp hl
    exact (key v h1).mpr (h v h1 h2)

theorem regra2_satisfeita (n k : Int) (I : Int → Int) (hk : 1 ≤ k) :
    (∀ linha ∈ regra2 n k, clausula_satisfeita linha I = true) ↔
      ∀ v, 1 ≤ v → v ≤ n → ∀ c1 c2, 1 ≤ c1 → c1 < c2 → c2 ≤ k →
        I ((v - 1) * k + c1) = -1 ∨ I ((v - 1) * k + c2) = -1 := by
  constructor
  · intro h v h1 h2 c1 c2 h3 h4 h5
    have := h _ ((mem_regra2 n k _).mpr ⟨v, c1, c2, h1, h2, h3, h4, h5, rfl⟩)
    exact (clausula_negativa I _ _ (var_pos hk h1 h3) (var_pos hk h1 (by omega))).mp this
  · intro h linha hl
    obtain ⟨v, c1, c2, h1, h2, h3, h4, h5, rfl⟩ := (mem_regra2 n k _).mp hl
    exact (clausula_negativa I _ _ (var_pos hk h1 h3) (var_pos hk h1 (by omega))).mpr
      (h v h1 h2 c1 c2 h3 h4 h5)

theorem regra3_satisfeita_aresta (g : Grafo) (k : Int) (I : Int → Int) (hk : 1 ≤ k)
    (h : ∀ linha ∈ regra3 g k, clausula_satisfeita linha I = true)
    (i : Nat) (hi : i < g.m_arestas.toNat)
    (ha : 0 ≤ (g.arestas i).1) (hb : 0 ≤ (g.arestas i).2) (c : Int) (hc1 : 1 ≤ c)
    (hc2 : c ≤ k) :
    I (((g.arestas i).1 + 1 - 1) * k + c) = -1 ∨ I (((g.arestas i).2 + 1 - 1) * k + c) = -1 := by
  have := h _ ((mem_regra3 g k _).mpr ⟨i, c, hi, hc1, hc2, rfl⟩)
  exact (clausula_negativa I _ _ (var_pos hk (by omega) hc1) (var_pos hk (by omega) hc1)).mp
    this

theorem regra3_satisfeita (g : Grafo) (k : Int) (I : Int → Int) (hk : 1 ≤ k)
    (hpos : ∀ i, i < g.m_arestas.toNat → 0 ≤ (g.arestas i).1 ∧ 0 ≤ (g.arestas i).2) :
    (∀ linha ∈ regra3 g k, clausula_satisfeita linha I = true) ↔
      ∀ i, i < g.m_arestas.toNat → ∀ c, 1 ≤ c → c ≤ k →
        I (((g.arestas i).1 + 1 - 1) * k + c) = -1 ∨
          I (((g.arestas i).2 + 1 - 1) * k + c) = -1 := by
  constructor
  · intro h i hi c hc1 hc2
    exact regra3_satisfeita_aresta g k I hk h i hi (hpos i hi).1 (hpos i hi).2 c hc1 hc2
  · intro h linha hl
    obtain ⟨i, c, hi, hc1, hc2, rfl⟩ := (mem_regra3 g k _).mp hl
    exact (clausula_negativa I _ _ (var_pos hk (by have := (hpos i hi).1; omega) hc1)
      (var_pos hk (by have := (hpos i hi).2; omega) hc1)).mpr (h i hi c hc1 hc2)

/-- Satisfaction of the formula read back from `gerarCNF`, rule by rule. -/
theorem satisfaz_gerarCNF (g : Grafo) (k : Int) (f : Formula) (I : Int → Int)
    (hn : 0 ≤ g.n_vertices) (hm : 0 ≤ g.m_arestas) (hk : 1 ≤ k)
    (h : ler_formula (gerarCNF g k) = some f) :
    satisfaz f I ↔
      (∀ linha ∈ regra1 g.n_vertices k, clausula_satisfeita linha I = true) ∧
      (∀ linha ∈ regra2 g.n_vertices k, clausula_satisfeita linha I = true) ∧
      (∀ linha ∈ regra3 g k, clausula_satisfeita linha I = true) := by
  rw [satisfaz_ler_formula _ f I h (gerarCNF_contagem_toNat g k hn hm hk)]
  simp only [mem_linhas_gerarCNF]
  constructor
  · intro h1
    exact ⟨fun l hl => h1 l (Or.inl hl), fun l hl => h1 l (Or.inr (Or.inl hl)),
      fun l hl => h1 l (Or.inr (Or.inr hl))⟩
  · rintro ⟨h1, h2, h3⟩ l (hl | hl | hl)
    · exact h1 l hl
    · exact h2 l hl
    · exact h3 l hl

/-- With every edge inside the vertex range, `ler_formula` accepts the file of
`gerarCNF`. -/
theorem ler_formula_gerarCNF (g : Grafo) (k : Int) (hk : 1 ≤ k) (hd : arestas_dentro g) :
    ∃ f, ler_formula (gerarCNF g k) = some f := by
  refine ⟨_, ler_formula_ok _ ?_⟩
  intro linha hl l hlit
  rw [mem_linhas_gerarCNF] at hl
  rw [literal_valido_iff]
  show 1 ≤ c_abs l ∧ c_abs l ≤ g.n_vertices * k
  rcases hl with hl | hl | hl
  · obtain ⟨v, h1, h2, rfl⟩ := (mem_regra1 _ _ _).mp hl
    rw [literais_append_zero] at hlit
    · simp only [List.mem_map, mem_intervalo] at hlit
      obtain ⟨c, ⟨hc1, hc2⟩, rfl⟩ := hlit
      have p := var_pos hk h1 hc1
      have q := var_le hk h2 hc2
      simp only [c_abs, show ¬ ((v - 1) * k + c < 0) by omega, if_false]
      exact ⟨p, q⟩
    · intro x hx
      simp only [List.mem_map, mem_intervalo] at hx
      obtain ⟨c, ⟨hc1, _⟩, rfl⟩ := hx
      have p := var_pos hk h1 hc1
      omega
  · obtain ⟨v, c1, c2, h1, h2, h3, h4, h5, rfl⟩ := (mem_regra2 _ _ _).mp hl
    have p1 := var_pos hk h1 h3
    have q1 := var_le hk h2 (by omega : c1 ≤ k)
    have p2 := var_pos hk h1 (by omega : 1 ≤ c2)
    have q2 := var_le hk h2 h5
    rw [literais_negativa _ _ p1 p2] at hlit
    simp only [List.mem_cons, List.mem_singleton, List.not_mem_nil, or_false] at hlit
    rcases hlit with rfl | rfl
    · simp only [c_abs, show (-((v - 1) * k + c1) < 0) by omega, if_true, neg_neg]
      exact ⟨p1, q1⟩
    · simp only [c_abs, show (-((v - 1) * k + c2) < 0) by omega, if_true, neg_neg]
      exact ⟨p2, q2⟩
  · obtain ⟨i, c, hi, hc1, hc2, rfl⟩ := (mem_regra3 _ _ _).mp hl
    obtain ⟨ha1, ha2, hb1, hb2⟩ := hd _ ((mem_arestas_de g _).mpr ⟨i, hi, rfl⟩)
    have p1 := var_pos hk (by omega : 1 ≤ (g.arestas i).1 + 1) hc1
    have q1 := var_le hk (by omega : (g.arestas i).1 + 1 ≤ g.n_vertices) hc2
    have p2 := var_pos hk (by omega : 1 ≤ (g.arestas i).2 + 1) hc1
    have q2 := var_le hk (by omega : (g.arestas i).2 + 1 ≤ g.n_vertices) hc2
    rw [literais_negativa _ _ p1 p2] at hlit
    simp only [List.mem_cons, List.mem_singleton, List.not_mem_nil, or_false] at hlit
    rcases hlit with rfl | rfl
    · simp only [c_abs, show (-(((g.arestas i).1 + 1 - 1) * k + c) < 0) by omega, if_true,
        neg_neg]
      exact ⟨p1, q1⟩
    · simp only [c_abs, show (-(((g.arestas i).2 + 1 - 1) * k + c) < 0) by omega, if_true,
        neg_neg]
      exact ⟨p2, q2⟩

theorem ler_formula_num_literais (g : Grafo) (k : Int) (f : Formula)
    (h : ler_formula (gerarCNF g k) = some f) : f.num_literais = g.n_vertices * k := by
  obtain ⟨rfl, -⟩ := ler_formula_some _ f h
  rfl

/-! ## The reduction -/

theorem decodifica_var (k v c : Int) (hk : 1 ≤ k) (hc1 : 1 ≤ c) (hc2 : c ≤ k) :
    ((v - 1) * k + c - 1) / k + 1 = v ∧ ((v - 1) * k + c - 1) % k + 1 = c := by
  have e : (v - 1) * k + c - 1 = (c - 1) + (v - 1) * k := by ring
  have hk0 : k ≠ 0 := by omega
  rw [e, Int.add_mul_ediv_right _ _ hk0, Int.add_mul_emod_self,
    Int.ediv_eq_zero_of_lt (by omega) (by omega), Int.emod_eq_of_lt (by omega) (by omega)]
  constructor <;> ring

theorem interpretacao_de_var (k : Int) (cor : Int → Int) (v c : Int) (hk : 1 ≤ k)
    (hc1 : 1 ≤ c) (hc2 : c ≤ k) :
    interpretacao_de k cor ((v - 1) * k + c) = if cor v = c then 1 else -1 := by
  obtain ⟨e1, e2⟩ := decodifica_var k v c hk hc1 hc2
  simp only [interpretacao_de, e1, e2]

theorem cor_do_vertice_some (k : Int) (I : Int → Int) (v c : Int)
    (h : cor_do_vertice k I v = some c) : 1 ≤ c ∧ c ≤ k ∧ I ((v - 1) * k + c) = 1 := by
  unfold cor_do_vertice at h
  have h1 := mem_intervalo.mp (List.mem_of_find?_eq_some h)
  have h2 := List.find?_some h
  simp only [decide_eq_true_eq] at h2
  exact ⟨h1.1, h1.2, h2⟩

theorem cor_do_vertice_existe (k : Int) (I : Int → Int) (v : Int)
    (h : ∃ c, 1 ≤ c ∧ c ≤ k ∧ I ((v - 1) * k + c) = 1) :
    ∃ c, cor_do_vertice k I v = some c := by
  cases hc : cor_do_vertice k I v with
  | some c => exact ⟨c, rfl⟩
  | none =>
    exfalso
    unfold cor_do_vertice at hc
    rw [List.find?_eq_none] at hc
    obtain ⟨c, h1, h2, h3⟩ := h
    have := hc c (mem_intervalo.mpr ⟨h1, h2⟩)
    simp [h3] at this

/-- A satisfying assignment of the formula of `gerarCNF` gives a proper colouring. -/
theorem coloracao_de_satisfaz (g : Grafo) (k : Int) (f : Formula) (I : Int → Int)
    (hn : 0 ≤ g.n_vertices) (hm : 0 ≤ g.m_arestas) (hk : 1 ≤ k) (hd : arestas_dentro g)
    (h : ler_formula (gerarCNF g k) = some f) (hs : satisfaz f I) :
    coloracao_propria g k (fun v => (cor_do_vertice k I v).getD 1) := by
  obtain ⟨r1, -, r3⟩ := (satisfaz_gerarCNF g k f I hn hm hk h).mp hs
  have cob := (regra1_satisfeita _ _ _ hk).mp r1
  have hcor : ∀ v, 1 ≤ v → v ≤ g.n_vertices →
      ∃ c, cor_do_vertice k I v = some c ∧ 1 ≤ c ∧ c ≤ k ∧ I ((v - 1) * k + c) = 1 := by
    intro v h1 h2
    obtain ⟨c, hc⟩ := cor_do_vertice_existe k I v (cob v h1 h2)
    exact ⟨c, hc, cor_do_vertice_some k I v c hc⟩
  constructor
  · intro v h1 h2
    obtain ⟨c, hc, hc1, hc2, -⟩ := hcor v h1 h2
    simp only [hc, Option.getD_some]
    exact ⟨hc1, hc2⟩
  · intro e he
    obtain ⟨i, hi, rfl⟩ := (mem_arestas_de g e).mp he
    obtain ⟨ha1, ha2, hb1, hb2⟩ := hd _ he
    obtain ⟨ca, hca, hca1, hca2, hIa⟩ := hcor ((g.arestas i).1 + 1) (by omega) (by omega)
    obtain ⟨cb, hcb, -, -, hIb⟩ := hcor ((g.arestas i).2 + 1) (by omega) (by omega)
    simp only [hca, hcb, Option.getD_some]
    intro heq
    subst heq
    rcases regra3_satisfeita_aresta g k I hk r3 i hi ha1 hb1 ca hca1 hca2 with h1 | h1
    · rw [hIa] at h1; omega
    · rw [hIb] at h1; omega

/-- A proper colouring gives a total satisfying assignment of the formula of `gerarCNF`. -/
theorem satisfaz_de_coloracao (g : Grafo) (k : Int) (f : Formula) (cor : Int → Int)
    (hn : 0 ≤ g.n_vertices) (hm : 0 ≤ g.m_arestas) (hk : 1 ≤ k) (hd : arestas_dentro g)
    (h : ler_formula (gerarCNF g k) = some f) (hc : coloracao_propria g k cor) :
    satisfaz f (interpretacao_de k cor) ∧
      atribuicao_total f.num_literais (interpretacao_de k cor) := by
  constructor
  · rw [satisfaz_gerarCNF g k f _ hn hm hk h]
    refine ⟨?_, ?_, ?_⟩
    · rw [regra1_satisfeita _ _ _ hk]
      intro v h1 h2
      obtain ⟨hc1, hc2⟩ := hc.1 v h1 h2
      refine ⟨cor v, hc1, hc2, ?_⟩
      rw [interpretacao_de_var k cor v _ hk hc1 hc2]
      simp
    · rw [regra2_satisfeita _ _ _ hk]
      intro v _ _ c1 c2 h3 h4 h5
      rw [interpretacao_de_var k cor v c1 hk h3 (by omega),
        interpretacao_de_var k cor v c2 hk (by omega) h5]
      by_cases hv : cor v = c1
      · right
        have : cor v ≠ c2 := by omega
        simp [this]
      · left
        simp [hv]
    · rw [regra3_satisfeita g k _ hk]
      · intro i hi c hc1 hc2
        have hne := hc.2 _ ((mem_arestas_de g _).mpr ⟨i, hi, rfl⟩)
        rw [interpretacao_de_var k cor _ c hk hc1 hc2,
          interpretacao_de_var k cor _ c hk hc1 hc2]
        by_cases hv : cor ((g.arestas i).1 + 1) = c
        · right
          have : cor ((g.arestas i).2 + 1) ≠ c := by
            intro h2; exact hne (by rw [hv, h2])
          simp [this]
        · left
          simp [hv]
      · intro i hi
        obtain ⟨ha1, -, hb1, -⟩ := hd _ ((mem_arestas_de g _).mpr ⟨i, hi, rfl⟩)
        exact ⟨ha1, hb1⟩
  · intro x _ _
    unfold interpretacao_de
    split
    · left; rfl
    · right; rfl

/-! ## The decoded colouring -/

theorem mem_coloracao_encontrada (n k : Int) (I : Int → Int) (v c : Int) :
    (v, c) ∈ coloracao_encontrada n k I ↔
      1 ≤ v ∧ v ≤ n ∧ cor_do_vertice k I v = some c := by
  unfold coloracao_encontrada
  simp only [List.mem_filterMap, mem_intervalo, Option.map_eq_some', Prod.mk.injEq]
  constructor
  · rintro ⟨w, ⟨h1, h2⟩, d, hd, rfl, rfl⟩; exact ⟨h1, h2, hd⟩
  · rintro ⟨h1, h2, hc⟩; exact ⟨v, ⟨h1, h2⟩, c, hc, rfl, rfl⟩

theorem vertices_de_filterMap (l : List Int) (cor : Int → Option Int)
    (h : ∀ v ∈ l, ∃ c, cor v = some c) :
    (l.filterMap (fun v => (cor v).map (fun c => (v, c)))).map Prod.fst = l := by
  induction l with
  | nil => rfl
  | cons x xs ih =>
    obtain ⟨c, hc⟩ := h x (List.mem_cons_self _ _)
    rw [List.filterMap_cons_some (by rw [hc]; rfl), List.map_cons,
      ih (fun v hv => h v (List.mem_cons_of_mem _ hv))]

/-- What the three rules give on the array left by a successful `SAT`. -/
theorem regras_apos_SAT (g : Grafo) (k : Int) (f : Formula) (r : Saida)
    (hn : 0 ≤ g.n_vertices) (hm : 0 ≤ g.m_arestas) (hk : 1 ≤ k)
    (hf : ler_formula (gerarCNF g k) = some f)
    (hr : SAT f interpretacao_inicial no_vazio = some r) (hret : r.ret = true) :
    (∀ v, 1 ≤ v → v ≤ g.n_vertices →
        ∃ c, 1 ≤ c ∧ c ≤ k ∧ r.interpretacao ((v - 1) * k + c) = 1) ∧
      (∀ v, 1 ≤ v → v ≤ g.n_vertices → ∀ c1 c2, 1 ≤ c1 → c1 < c2 → c2 ≤ k →
        r.interpretacao ((v - 1) * k + c1) = -1 ∨ r.interpretacao ((v - 1) * k + c2) = -1) ∧
      (∀ linha ∈ regra3 g k, clausula_satisfeita linha r.interpretacao = true) := by
  have hs := (formula_satisfativel_iff f _).mp (SAT_fuel_correto f _ _ _ _ hr hret)
  obtain ⟨r1, r2, r3⟩ := (satisfaz_gerarCNF g k f _ hn hm hk hf).mp hs
  exact ⟨(regra1_satisfeita _ _ _ hk).mp r1, (regra2_satisfeita _ _ _ hk).mp r2, r3⟩

/-- When `SAT` succeeds on the formula the token-level reader makes of the file of
`gerarCNF g k`, the pairs printed by the decode loop never give the same colour to the
two endpoints `a + 1`, `b + 1` of a stored edge `(a, b)`. -/
theorem coloracao_encontrada_adjacencia (g : Grafo) (k : Int) (f : Formula) (r : Saida)
    (hm : 0 ≤ g.m_arestas)
    (hf : ler_formula (gerarCNF g k) = some f)
    (hr : SAT f interpretacao_inicial no_vazio = some r) (hret : r.ret = true) :
    ∀ e ∈ arestas_de g, ∀ c1 c2,
      (e.1 + 1, c1) ∈ coloracao_encontrada g.n_vertices k r.interpretacao →
      (e.2 + 1, c2) ∈ coloracao_encontrada g.n_vertices k r.interpretacao → c1 ≠ c2 := by
  intro e he c1 c2 h1 h2 heq
  subst heq
  obtain ⟨i, hi, rfl⟩ := (mem_arestas_de g e).mp he
  obtain ⟨ha1, ha2, hca⟩ := (mem_coloracao_encontrada _ _ _ _ _).mp h1
  obtain ⟨hb1, -, hcb⟩ := (mem_coloracao_encontrada _ _ _ _ _).mp h2
  obtain ⟨hc1, hc2, hIa⟩ := cor_do_vertice_some _ _ _ _ hca
  obtain ⟨-, -, hIb⟩ := cor_do_vertice_some _ _ _ _ hcb
  have hk : 1 ≤ k := by omega
  obtain ⟨-, -, r3⟩ := regras_apos_SAT g k f r (by omega) hm hk hf hr hret
  rcases regra3_satisfeita_aresta g k _ hk r3 i hi (by omega) (by omega) c1 hc1 hc2 with h | h
  · rw [hIa] at h; omega
  · rw [hIb] at h; omega

/-- When `SAT` succeeds from the all-zero array on the formula the token-level reader
makes of the file of `gerarCNF g k` (`k ≥ 1`), every vertex `v` in `1..n` has exactly
one colour `c` in `1..k` with `interpretacao[(v-1)*k+c] == 1`, and the decode loop
prints exactly one pair for each vertex `1..n`, in order. -/
theorem coloracao_encontrada_total (g : Grafo) (k : Int) (f : Formula) (r : Saida)
    (hm : 0 ≤ g.m_arestas) (hk : 1 ≤ k)
    (hf : ler_formula (gerarCNF g k) = some f)
    (hr : SAT f interpretacao_inicial no_vazio = some r) (hret : r.ret = true) :
    (∀ v, 1 ≤ v → v ≤ g.n_vertices →
        ∃! c, (1 ≤ c ∧ c ≤ k) ∧ r.interpretacao ((v - 1) * k + c) = 1) ∧
      (coloracao_encontrada g.n_vertices k r.interpretacao).map Prod.fst =
        intervalo 1 g.n_vertices := by
  by_cases hn : 0 ≤ g.n_vertices
  · obtain ⟨cob, exc, -⟩ := regras_apos_SAT g k f r hn hm hk hf hr hret
    constructor
    · intro v h1 h2
      obtain ⟨c, hc1, hc2, hI⟩ := cob v h1 h2
      refine ⟨c, ⟨⟨hc1, hc2⟩, hI⟩, ?_⟩
      rintro d ⟨⟨hd1, hd2⟩, hId⟩
      by_contra hne
      rcases lt_or_gt_of_ne hne with hlt | hgt
      · rcases exc v h1 h2 d c hd1 hlt hc2 with h | h
        · rw [hId] at h; omega
        · rw [hI] at h; omega
      · rcases exc v h1 h2 c d hc1 hgt hd2 with h | h
        · rw [hI] at h; omega
        · rw [hId] at h; omega
    · unfold coloracao_encontrada
      apply vertices_de_filterMap
      intro v hv
      obtain ⟨h1, h2⟩ := mem_intervalo.mp hv
      exact cor_do_vertice_existe k _ v (cob v h1 h2)
  · constructor
    · intro v h1 h2; omega
    · unfold coloracao_encontrada
      rw [intervalo_vazio (by omega)]
      rfl

/-! ## The iterative driver -/

/-- The answer of `SAT` on the formula of `gerarCNF g k` from the all-zero array: it
returns, and returns true exactly when the graph has a proper colouring with `k`
colours. -/
theorem SAT_gerarCNF (g : Grafo) (k : Int) (hn : 0 ≤ g.n_vertices) (hm : 0 ≤ g.m_arestas)
    (hd : arestas_dentro g) (hk : 1 ≤ k) :
    ∃ f r, ler_formula (gerarCNF g k) = some f ∧
      SAT f interpretacao_inicial no_vazio = some r ∧
      (r.ret = true ↔ ∃ cor, coloracao_propria g k cor) := by
  obtain ⟨f, hf⟩ := ler_formula_gerarCNF g k hk hd
  obtain ⟨r, hr, hiff⟩ := SAT_decide f interpretacao_inicial
    (ler_formula_bem_formada _ f hf) (fun _ _ _ => Or.inr (Or.inl rfl))
  refine ⟨f, r, hf, hr, ?_⟩
  rw [hiff]
  constructor
  · rintro ⟨total, -, -, hs⟩
    exact ⟨_, coloracao_de_satisfaz g k f total hn hm hk hd hf hs⟩
  · rintro ⟨cor, hcor⟩
    obtain ⟨hs, ht⟩ := satisfaz_de_coloracao g k f cor hn hm hk hd hf hcor
    exact ⟨_, ht, fun i _ _ hne => absurd rfl hne, hs⟩

theorem gerarCNF_contagem_witness :
    (0 : Int) ≤ grafo_triangulo.n_vertices ∧ (0 : Int) ≤ grafo_triangulo.m_arestas ∧
    (1 : Int) ≤ 3 ∧
    ((((gerarCNF grafo_triangulo 3).linhas.length : Nat) : Int) =
        grafo_triangulo.n_vertices + grafo_triangulo.n_vertices * 3 * (3 - 1) / 2 +
          grafo_triangulo.m_arestas * 3 ∧
      (gerarCNF grafo_triangulo 3).num_clauses =
        (((gerarCNF grafo_triangulo 3).linhas.length : Nat) : Int) ∧
      (gerarCNF grafo_triangulo 3).num_clauses =
        grafo_triangulo.n_vertices + Int.tdiv (grafo_triangulo.n_vertices * (3 * (3 - 1))) 2 +
          grafo_triangulo.m_arestas * 3 ∧
      (gerarCNF grafo_triangulo 3).num_vars = grafo_triangulo.n_vertices * 3) :=
  ⟨by decide, by decide, by decide,
    gerarCNF_contagem grafo_triangulo 3 (by decide) (by decide) (by decide)⟩

theorem arestas_dentro_triangulo : arestas_dentro grafo_triangulo := by
  unfold arestas_dentro; decide

theorem arestas_dentro_aresta : arestas_dentro grafo_aresta := by
  unfold arestas_dentro; decide

theorem find_intervalo_minimo (p : Int → Bool) :
    ∀ (d : Nat) (lo hi x : Int), (hi + 1 - lo).toNat = d →
      (intervalo lo hi).find? p = some x → ∀ i, lo ≤ i → i < x → p i = false := by
  intro d
  induction d with
  | zero =>
    intro lo hi x hd h
    rw [intervalo_vazio (by omega)] at h
    simp at h
  | succ d ih =>
    intro lo hi x hd h i h1 h2
    rw [intervalo_cons (by omega)] at h
    by_cases hp : p lo = true
    · rw [List.find?_cons_of_pos _ hp] at h
      simp only [Option.some.injEq] at h
      omega
    · rw [List.find?_cons_of_neg _ hp] at h
      by_cases hil : i = lo
      · subst hil; simpa using hp
      · exact ih (lo + 1) hi x (by omega) h i (by omega) h2

/-- No variable before the one chosen by `proxima_variavel_nao_atribuida` is unassigned. -/
theorem proxima_minima (f : Formula) (I : Int → Int) (i : Int) (h1 : 1 ≤ i)
    (h2 : i < proxima_variavel_nao_atribuida f I) : I i ≠ 0 := by
  unfold proxima_variavel_nao_atribuida at h2
  cases hfind : (intervalo 1 f.num_literais).find? (fun i => decide (I i = 0)) with
  | none => rw [hfind] at h2; simp only [Option.getD_none] at h2; omega
  | some x =>
    rw [hfind] at h2
    simp only [Option.getD_some] at h2
    have := find_intervalo_minimo _ _ 1 f.num_literais x rfl hfind i h1 h2
    simpa using this

theorem proxima_prefixo (f : Formula) (I : Int → Int) (d : Int)
    (hp : prefixo f.num_literais I d) (hv : proxima_variavel_nao_atribuida f I ≠ 0) :
    proxima_variavel_nao_atribuida f I = d + 1 := by
  obtain ⟨h1, h2, h3⟩ := proxima_spec f I hv
  obtain ⟨hd0, hp⟩ := hp
  have hgt : d < proxima_variavel_nao_atribuida f I := by
    by_contra hle
    rcases (hp _ h1 h2).1 (by omega) with h | h <;> omega
  by_contra hne
  have hlt : d + 1 < proxima_variavel_nao_atribuida f I := by omega
  exact proxima_minima f I (d + 1) (by omega) hlt ((hp (d + 1) (by omega) (by omega)).2 (by omega))

theorem prefixo_atribuir (n : Int) (I : Int → Int) (d v : Int) (hp : prefixo n I d)
    (hv : v = 1 ∨ v = -1) : prefixo n (atribuir I (d + 1) v) (d + 1) := by
  obtain ⟨hd0, hp⟩ := hp
  refine ⟨by omega, ?_⟩
  intro i h1 h2
  by_cases hi : i = d + 1
  · subst hi
    rw [atribuir_mesmo]
    exact ⟨fun _ => hv, fun h => by omega⟩
  · rw [atribuir_outro _ _ _ _ hi]
    exact ⟨fun h => (hp i h1 h2).1 (by omega), fun h => (hp i h1 h2).2 (by omega)⟩

/-- Started on an array whose assigned variables are `1..d`, `SAT` leaves an array whose
assigned variables are `1..d'` for some `d' ≥ d`. -/
theorem SAT_fuel_prefixo (f : Formula) :
    ∀ fuel I no r, SAT_fuel fuel f I no = some r →
      ∀ d, prefixo f.num_literais I d →
        ∃ d', d ≤ d' ∧ (d' ≤ f.num_literais ∨ d' = d) ∧
          prefixo f.num_literais r.interpretacao d' := by
  apply SAT_fuel_inducao f (fun I _ r => ∀ d, prefixo f.num_literais I d →
        ∃ d', d ≤ d' ∧ (d' ≤ f.num_literais ∨ d' = d) ∧
          prefixo f.num_literais r.interpretacao d')
  · intro I no _ d hp; exact ⟨d, le_refl _, Or.inr rfl, hp⟩
  · intro I no _ _ d hp; exact ⟨d, le_refl _, Or.inr rfl, hp⟩
  · intro I no _ _ _ d hp; exact ⟨d, le_refl _, Or.inr rfl, hp⟩
  · intro fuel I valor variavel esq dir r1 _ _ hv _ p1 _ d hp
    have e := proxima_prefixo f I d hp hv
    obtain ⟨-, hle, -⟩ := proxima_spec f I hv
    rw [e] at p1 hle
    obtain ⟨d', h1, h2, h3⟩ := p1 (d + 1) (prefixo_atribuir _ I d 1 hp (Or.inl rfl))
    exact ⟨d', by omega, Or.inl (by omega), h3⟩
  · intro fuel I valor variavel esq dir r1 r2 _ _ hv h1 _ hr1 _ p2 _ d hp
    have e := proxima_prefixo f I d hp hv
    obtain ⟨-, hle, -⟩ := proxima_spec f I hv
    have e1 := SAT_fuel_restaura f _ _ _ _ h1 hr1
    rw [e1, atribuir_atribuir, e] at p2
    rw [e] at hle
    obtain ⟨d', h1, h2, h3⟩ := p2 (d + 1) (prefixo_atribuir _ I d (-1) hp (Or.inr rfl))
    exact ⟨d', by omega, Or.inl (by omega), h3⟩
  · intro fuel I valor variavel esq dir r1 r2 _ _ hv h1 _ hr1 h2 _ hr2 d hp
    have hz := (proxima_spec f I hv).2.2
    have e1 := SAT_fuel_restaura f _ _ _ _ h1 hr1
    have e2 := SAT_fuel_restaura f _ _ _ _ h2 hr2
    refine ⟨d, le_refl _, Or.inr rfl, ?_⟩
    simp only
    rw [e2, e1, atribuir_atribuir, atribuir_atribuir, atribuir_desfaz I _ hz]
    exact hp

theorem prefixo_inicial (n : Int) : prefixo n interpretacao_inicial 0 :=
  ⟨le_refl _, fun i _ _ => ⟨fun h => by omega, fun _ => rfl⟩⟩

/-- C11 (amended): called with the all-zero array, `SAT` returns; when it returns true
every clause is satisfied and, for some `d` with `0 ≤ d` and `d ≤ num_literais` or
`d = 0`, the variables `1..d` hold `1` or `-1` and the variables `d+1..num_literais`
are still `0`. -/
theorem SAT_true_prefixo (f : Formula) :
    ∃ r, SAT f interpretacao_inicial no_vazio = some r ∧
      (r.ret = true →
        formula_satisfativel f r.interpretacao = true ∧
        ∃ d, 0 ≤ d ∧ (d ≤ f.num_literais ∨ d = 0) ∧
          ∀ i, 1 ≤ i → i ≤ f.num_literais →
            (i ≤ d → r.interpretacao i = 1 ∨ r.interpretacao i = -1) ∧
            (d < i → r.interpretacao i = 0)) := by
  obtain ⟨r, hr⟩ := SAT_total f interpretacao_inicial no_vazio no_vazio_ne_NULL
  refine ⟨r, hr, fun hret => ⟨SAT_fuel_correto f _ _ _ _ hr hret, ?_⟩⟩
  obtain ⟨d, h1, h2, h3⟩ := SAT_fuel_prefixo f _ _ _ _ hr 0 (prefixo_inicial _)
  exact ⟨d, h1, h2, h3.2⟩

/-- C11 as stated fails: on the single clause `x1` over two variables `SAT` returns
true and leaves variable 2 unassigned. -/
theorem SAT_true_total_contraexemplo :
    ∃ r, SAT formula_um_literal interpretacao_inicial no_vazio = some r ∧ r.ret = true ∧
      ¬ (∀ i, 1 ≤ i → i ≤ formula_um_literal.num_literais →
          r.interpretacao i = 1 ∨ r.interpretacao i = -1) :=
  ⟨_, rfl, rfl, fun h => absurd (h 2 (by decide) (by decide)) (by decide)⟩

/-! ## Scenarios -/

/-- C12: on the triangle, `SAT` on the formula of `gerarCNF` returns false for `k = 1`
and `k = 2` and true for `k = 3`, where the decode loop prints the pairwise distinct
colours 1, 2, 3 for the vertices 1, 2, 3; the iterative driver stops at `k = 3`. -/
theorem triangulo_cenario :
    (∃ f r, ler_formula (gerarCNF grafo_triangulo 1) = some f ∧
      SAT f interpretacao_inicial no_vazio = some r ∧ r.ret = false) ∧
    (∃ f r, ler_formula (gerarCNF grafo_triangulo 2) = some f ∧
      SAT f interpretacao_inicial no_vazio = some r ∧ r.ret = false) ∧
    (∃ f r, ler_formula (gerarCNF grafo_triangulo 3) = some f ∧
      SAT f interpretacao_inicial no_vazio = some r ∧ r.ret = true ∧
      coloracao_encontrada grafo_triangulo.n_vertices 3 r.interpretacao =
        [(1, 1), (2, 2), (3, 3)]) ∧
    ((1 : Int) ≠ 2 ∧ (1 : Int) ≠ 3 ∧ (2 : Int) ≠ 3) ∧
    teste_iterativo grafo_triangulo =
      some (Resultado.coloracao 3 [(1, 1), (2, 2), (3, 3)]) :=
  ⟨⟨_, _, rfl, rfl, rfl⟩, ⟨_, _, rfl, rfl, rfl⟩, ⟨_, _, rfl, rfl, rfl, by decide⟩,
    by decide, by decide⟩

/-- C13: on two vertices without edges, `SAT` on the formula of `gerarCNF` for `k = 1`
returns true and the decode loop prints colour 1 for vertex 1 and colour 1 for
vertex 2. -/
theorem isolados_cenario :
    ∃ f r, ler_formula (gerarCNF grafo_isolados 1) = some f ∧
      SAT f interpretacao_inicial no_vazio = some r ∧ r.ret = true ∧
      coloracao_encontrada grafo_isolados.n_vertices 1 r.interpretacao =
        [(1, 1), (2, 1)] :=
  ⟨_, _, rfl, rfl, rfl, by decide⟩

/-! ## Rejection of out-of-range literals -/

theorem c_abs_eq_abs (x : Int) : c_abs x = |x| := by
  unfold c_abs
  split
  · rename_i h; rw [abs_of_neg h]
  · rename_i h; rw [abs_of_nonneg (by omega)]

theorem literal_valido_abs (l n : Int) :
    literal_valido l n = true ↔ 1 ≤ |l| ∧ |l| ≤ n := by
  rw [literal_valido_iff, c_abs_eq_abs]

/-! ## The variable of a vertex and a colour -/

theorem var_cor_injetiva (k v c v' c' : Int) (hk : 1 ≤ k) (hc1 : 1 ≤ c) (hc2 : c ≤ k)
    (hc1' : 1 ≤ c') (hc2' : c' ≤ k) (h : var_cor k v c = var_cor k v' c') :
    v = v' ∧ c = c' := by
  unfold var_cor at h
  obtain ⟨e1, e2⟩ := decodifica_var k v c hk hc1 hc2
  obtain ⟨e1', e2'⟩ := decodifica_var k v' c' hk hc1' hc2'
  rw [h] at e1 e2
  exact ⟨by rw [← e1, e1'], by rw [← e2, e2']⟩

theorem var_cor_sobrejetiva (n k x : Int) (hk : 1 ≤ k) (hx1 : 1 ≤ x) (hx2 : x ≤ n * k) :
    ∃ v c, 1 ≤ v ∧ v ≤ n ∧ 1 ≤ c ∧ c ≤ k ∧ var_cor k v c = x := by
  have hk0 : (0 : Int) < k := by omega
  have hq0 : 0 ≤ (x - 1) / k := Int.ediv_nonneg (by omega) (by omega)
  have hqn : (x - 1) / k < n := Int.ediv_lt_of_lt_mul hk0 (by omega)
  have hr0 : 0 ≤ (x - 1) % k := Int.emod_nonneg _ (by omega)
  have hrk : (x - 1) % k < k := Int.emod_lt_of_pos _ hk0
  refine ⟨(x - 1) / k + 1, (x - 1) % k + 1, by omega, by omega, by omega, by omega, ?_⟩
  unfold var_cor
  have := Int.ediv_add_emod (x - 1) k
  have e : ((x - 1) / k + 1 - 1) * k = k * ((x - 1) / k) := by ring
  rw [e]
  omega

/-- C15: for `k ≥ 1` the map `(v, c) ↦ (v - 1) * k + c` sends `{1..n} × {1..k}` into
`{1..n*k}`, is injective and reaches every variable of `1..n*k`; the three rules of
`gerarCNF` and the decode loop compute the variable with this same expression. -/
theorem var_cor_bijecao (n k : Int) (hk : 1 ≤ k) :
    (∀ v c, 1 ≤ v → v ≤ n → 1 ≤ c → c ≤ k → 1 ≤ var_cor k v c ∧ var_cor k v c ≤ n * k) ∧
    (∀ v c v' c', 1 ≤ v → v ≤ n → 1 ≤ c → c ≤ k → 1 ≤ v' → v' ≤ n → 1 ≤ c' → c' ≤ k →
      var_cor k v c = var_cor k v' c' → v = v' ∧ c = c') ∧
    (∀ x, 1 ≤ x → x ≤ n * k → ∃ v c, 1 ≤ v ∧ v ≤ n ∧ 1 ≤ c ∧ c ≤ k ∧ var_cor k v c = x) ∧
    regra1 n k =
      (intervalo 1 n).map (fun v => (intervalo 1 k).map (fun c => var_cor k v c) ++ [0]) ∧
    regra2 n k =
      (intervalo 1 n).flatMap (fun v => (intervalo 1 k).flatMap (fun c1 =>
        (intervalo (c1 + 1) k).map (fun c2 =>
          [menos (var_cor k v c1), menos (var_cor k v c2), 0]))) ∧
    (∀ g : Grafo, regra3 g k =
      (List.range g.m_arestas.toNat).flatMap (fun i => (intervalo 1 k).map (fun c =>
        [menos (var_cor k ((g.arestas i).1 + 1) c),
          menos (var_cor k ((g.arestas i).2 + 1) c), 0]))) ∧
    (∀ (I : Int → Int) (v : Int), cor_do_vertice k I v =
      (intervalo 1 k).find? (fun cor => decide (I (var_cor k v cor) = 1))) :=
  ⟨fun _ _ h1 h2 h3 h4 => ⟨var_pos hk h1 h3, var_le hk h2 h4⟩,
    fun v c v' c' _ _ h3 h4 _ _ h7 h8 h => var_cor_injetiva k v c v' c' hk h3 h4 h7 h8 h,
    fun x h1 h2 => var_cor_sobrejetiva n k x hk h1 h2,
    rfl, rfl, fun _ => rfl, fun _ _ => rfl⟩

theorem var_cor_bijecao_witness :
    (1 : Int) ≤ 3 ∧
    ((∀ v c, 1 ≤ v → v ≤ 3 → 1 ≤ c → c ≤ 3 → 1 ≤ var_cor 3 v c ∧ var_cor 3 v c ≤ 3 * 3) ∧
    (∀ v c v' c', 1 ≤ v → v ≤ 3 → 1 ≤ c → c ≤ 3 → 1 ≤ v' → v' ≤ 3 → 1 ≤ c' → c' ≤ 3 →
      var_cor 3 v c = var_cor 3 v' c' → v = v' ∧ c = c') ∧
    (∀ x, 1 ≤ x → x ≤ 3 * 3 → ∃ v c, 1 ≤ v ∧ v ≤ 3 ∧ 1 ≤ c ∧ c ≤ 3 ∧ var_cor 3 v c = x) ∧
    regra1 3 3 =
      (intervalo 1 3).map (fun v => (intervalo 1 3).map (fun c => var_cor 3 v c) ++ [0]) ∧
    regra2 3 3 =
      (intervalo 1 3).flatMap (fun v => (intervalo 1 3).flatMap (fun c1 =>
        (intervalo (c1 + 1) 3).map (fun c2 =>
          [menos (var_cor 3 v c1), menos (var_cor 3 v c2), 0]))) ∧
    (∀ g : Grafo, regra3 g 3 =
      (List.range g.m_arestas.toNat).flatMap (fun i => (intervalo 1 3).map (fun c =>
        [menos (var_cor 3 ((g.arestas i).1 + 1) c),
          menos (var_cor 3 ((g.arestas i).2 + 1) c), 0]))) ∧
    (∀ (I : Int → Int) (v : Int), cor_do_vertice 3 I v =
      (intervalo 1 3).find? (fun cor => decide (I (var_cor 3 v cor) = 1)))) :=
  ⟨by decide, var_cor_bijecao 3 3 (by decide)⟩

/-! ## The three families of clauses -/

theorem menos_pos {x : Int} (h : 1 ≤ x) : menos x = -x := by
  unfold menos
  rw [if_pos (by omega)]

theorem intervalo_nodup (lo hi : Int) : (intervalo lo hi).Nodup := by
  unfold intervalo
  apply List.Nodup.map_on _ (List.nodup_range _)
  intro x _ y _ h
  simp only [Int.ofNat_eq_coe] at h
  omega

theorem linhas_take_regra1 (g : Grafo) (k : Int) :
    (gerarCNF g k).linhas.take g.n_vertices.toNat = regra1 g.n_vertices k := by
  simp only [gerarCNF, List.append_assoc]
  exact List.take_left' (length_regra1 _ _)

theorem linhas_drop_regra1 (g : Grafo) (k : Int) :
    (gerarCNF g k).linhas.drop g.n_vertices.toNat = regra2 g.n_vertices k ++ regra3 g k := by
  simp only [gerarCNF, List.append_assoc]
  exact List.drop_left' (length_regra1 _ _)

theorem literais_regra1 (k v : Int) (hk : 1 ≤ k) (hv : 1 ≤ v) :
    literais ((intervalo 1 k).map (fun c => (v - 1) * k + c) ++ [0]) =
      (intervalo 1 k).map (fun c => (v - 1) * k + c) := by
  apply literais_append_zero
  intro l hl
  simp only [List.mem_map, mem_intervalo] at hl
  obtain ⟨c, ⟨h1, _⟩, rfl⟩ := hl
  have := var_pos hk hv h1
  omega

theorem clausula2_injetiva (k v c1 c2 v' c1' c2' : Int) (hk : 1 ≤ k) (hv : 1 ≤ v)
    (hv' : 1 ≤ v') (h1 : 1 ≤ c1) (h2 : c1 < c2) (h3 : c2 ≤ k) (h1' : 1 ≤ c1')
    (h2' : c1' < c2') (h3' : c2' ≤ k)
    (h : [menos ((v - 1) * k + c1), menos ((v - 1) * k + c2), 0] =
      [menos ((v' - 1) * k + c1'), menos ((v' - 1) * k + c2'), 0]) :
    v = v' ∧ c1 = c1' ∧ c2 = c2' := by
  rw [menos_pos (var_pos hk hv h1), menos_pos (var_pos hk hv (by omega)),
    menos_pos (var_pos hk hv' h1'), menos_pos (var_pos hk hv' (by omega))] at h
  simp only [List.cons.injEq, neg_inj, and_true] at h
  obtain ⟨e1, e2⟩ := h
  obtain ⟨a1, a2⟩ := var_cor_injetiva k v c1 v' c1' hk h1 (by omega) h1' (by omega) e1
  obtain ⟨-, b2⟩ := var_cor_injetiva k v c2 v' c2' hk (by omega) h3 (by omega) h3' e2
  exact ⟨a1, a2, b2⟩

theorem regra2_nodup (n k : Int) (hk : 1 ≤ k) : (regra2 n k).Nodup := by
  unfold regra2
  rw [List.nodup_flatMap]
  constructor
  · intro v hv
    have hv1 := (mem_intervalo.mp hv).1
    rw [List.nodup_flatMap]
    constructor
    · intro c1 hc1
      have hc := mem_intervalo.mp hc1
      apply List.Nodup.map_on _ (intervalo_nodup _ _)
      intro c2 hc2 c2' hc2' heq
      have q := mem_intervalo.mp hc2
      have q' := mem_intervalo.mp hc2'
      exact (clausula2_injetiva k v c1 c2 v c1 c2' hk hv1 hv1 hc.1 (by omega) q.2 hc.1
        (by omega) q'.2 heq).2.2
    · apply List.Pairwise.imp_of_mem _ (intervalo_nodup 1 k)
      intro a b ha hb hab
      simp only [Function.onFun]
      intro x hxa hxb
      simp only [List.mem_map, mem_intervalo] at hxa hxb
      obtain ⟨c2, ⟨p1, p2⟩, rfl⟩ := hxa
      obtain ⟨c2', ⟨p1', p2'⟩, heq⟩ := hxb
      have qa := mem_intervalo.mp ha
      have qb := mem_intervalo.mp hb
      exact hab (clausula2_injetiva k v b c2' v a c2 hk hv1 hv1 qb.1 (by omega) p2' qa.1
        (by omega) p2 heq).2.1.symm
  · apply List.Pairwise.imp_of_mem _ (intervalo_nodup 1 n)
    intro a b ha hb hab
    simp only [Function.onFun]
    intro x hxa hxb
    simp only [List.mem_flatMap, List.mem_map, mem_intervalo] at hxa hxb
    obtain ⟨c1, ⟨p1, _⟩, c2, ⟨p3, p4⟩, rfl⟩ := hxa
    obtain ⟨c1', ⟨p1', _⟩, c2', ⟨p3', p4'⟩, heq⟩ := hxb
    have qa := mem_intervalo.mp ha
    have qb := mem_intervalo.mp hb
    exact hab (clausula2_injetiva k b c1' c2' a c1 c2 hk qb.1 qa.1 p1' (by omega) p4' p1
      (by omega) p4 heq).1.symm

theorem mem_regra2_neg (n k : Int) (hk : 1 ≤ k) (linha : List Int) :
    linha ∈ regra2 n k ↔ ∃ v c1 c2, 1 ≤ v ∧ v ≤ n ∧ 1 ≤ c1 ∧ c1 < c2 ∧ c2 ≤ k ∧
      linha = [-((v - 1) * k + c1), -((v - 1) * k + c2), 0] := by
  rw [mem_regra2]
  constructor
  · rintro ⟨v, c1, c2, h1, h2, h3, h4, h5, rfl⟩
    refine ⟨v, c1, c2, h1, h2, h3, h4, h5, ?_⟩
    rw [menos_pos (var_pos hk h1 h3), menos_pos (var_pos hk h1 (by omega))]
  · rintro ⟨v, c1, c2, h1, h2, h3, h4, h5, rfl⟩
    refine ⟨v, c1, c2, h1, h2, h3, h4, h5, ?_⟩
    rw [menos_pos (var_pos hk h1 h3), menos_pos (var_pos hk h1 (by omega))]

theorem length_regra2_int (n k : Int) (hn : 0 ≤ n) (hk : 1 ≤ k) :
    (((regra2 n k).length : Nat) : Int) = n * k * (k - 1) / 2 := by
  have h2 := length_regra2 n k
  have e2 : (2 : Int) * ((regra2 n k).length : Int) = n * k * (k - 1) := by
    have : ((2 * (regra2 n k).length : Nat) : Int) =
        ((n.toNat * (k.toNat * (k.toNat - 1)) : Nat) : Int) := by rw [h2]
    have hk1 : ((k.toNat - 1 : Nat) : Int) = k - 1 := by omega
    simp only [Nat.cast_mul, Nat.cast_ofNat, hk1, Int.toNat_of_nonneg hn,
      Int.toNat_of_nonneg (by omega : (0 : Int) ≤ k)] at this
    rw [this]; ring
  rw [← e2, Int.mul_ediv_cancel_left _ (by decide : (2 : Int) ≠ 0)]

/-- C17: for `n ≥ 0` and `k ≥ 1` the lines written by rule 2 of `gerarCNF` (those after
the first `n`) are exactly, once each, the clauses `-((v-1)*k+c1) -((v-1)*k+c2) 0` for
`v` in `1..n` and `1 ≤ c1 < c2 ≤ k`; there are `n*k*(k-1)/2` of them, none when
`k = 1`. -/
theorem regra2_exclusividade (g : Grafo) (k : Int) (hn : 0 ≤ g.n_vertices) (hk : 1 ≤ k) :
    ((gerarCNF g k).linhas.drop g.n_vertices.toNat).take (regra2 g.n_vertices k).length =
        regra2 g.n_vertices k ∧
      (∀ linha, linha ∈ regra2 g.n_vertices k ↔
        ∃ v c1 c2, 1 ≤ v ∧ v ≤ g.n_vertices ∧ 1 ≤ c1 ∧ c1 < c2 ∧ c2 ≤ k ∧
          linha = [-((v - 1) * k + c1), -((v - 1) * k + c2), 0]) ∧
      (regra2 g.n_vertices k).Nodup ∧
      (((regra2 g.n_vertices k).length : Nat) : Int) =
        g.n_vertices * k * (k - 1) / 2 ∧
      regra2 g.n_vertices 1 = [] := by
  refine ⟨?_, mem_regra2_neg _ k hk, regra2_nodup _ k hk, length_regra2_int _ k hn hk, ?_⟩
  · rw [linhas_drop_regra1]
    exact List.take_left _ _
  · have := length_regra2 g.n_vertices 1
    simp only [Int.toNat_one, Nat.sub_self, Nat.mul_zero] at this
    exact List.length_eq_zero.mp (by omega)

theorem regra2_exclusividade_witness :
    (0 : Int) ≤ grafo_triangulo.n_vertices ∧ (1 : Int) ≤ 3 ∧
    (((gerarCNF grafo_triangulo 3).linhas.drop grafo_triangulo.n_vertices.toNat).take
          (regra2 grafo_triangulo.n_vertices 3).length =
        regra2 grafo_triangulo.n_vertices 3 ∧
      (∀ linha, linha ∈ regra2 grafo_triangulo.n_vertices 3 ↔
        ∃ v c1 c2, 1 ≤ v ∧ v ≤ grafo_triangulo.n_vertices ∧ 1 ≤ c1 ∧ c1 < c2 ∧ c2 ≤ 3 ∧
          linha = [-((v - 1) * 3 + c1), -((v - 1) * 3 + c2), 0]) ∧
      (regra2 grafo_triangulo.n_vertices 3).Nodup ∧
      (((regra2 grafo_triangulo.n_vertices 3).length : Nat) : Int) =
        grafo_triangulo.n_vertices * 3 * (3 - 1) / 2 ∧
      regra2 grafo_triangulo.n_vertices 1 = []) :=
  ⟨by decide, by decide, regra2_exclusividade grafo_triangulo 3 (by decide) (by decide)⟩

theorem flatMap_congr_mem {α β : Type} (l : List α) (f g : α → List β)
    (h : ∀ x ∈ l, f x = g x) : l.flatMap f = l.flatMap g := by
  induction l with
  | nil => rfl
  | cons x xs ih =>
    rw [List.flatMap_cons, List.flatMap_cons, h x (List.mem_cons_self _ _),
      ih (fun y hy => h y (List.mem_cons_of_mem _ hy))]

theorem regra3_lista (g : Grafo) (k : Int) (hk : 1 ≤ k)
    (hpos : ∀ e ∈ arestas_de g, 0 ≤ e.1 ∧ 0 ≤ e.2) :
    regra3 g k = (arestas_de g).flatMap (fun e => (intervalo 1 k).map (fun c =>
      [-(var_cor k (e.1 + 1) c), -(var_cor k (e.2 + 1) c), 0])) := by
  unfold regra3 arestas_de
  rw [List.flatMap_map]
  apply flatMap_congr_mem
  intro i hi
  obtain ⟨ha, hb⟩ := hpos (g.arestas i) (List.mem_map_of_mem _ hi)
  apply List.map_congr_left
  intro c hc
  have hc1 := (mem_intervalo.mp hc).1
  simp only [var_cor]
  rw [menos_pos (var_pos hk (by omega) hc1), menos_pos (var_pos hk (by omega) hc1)]

/-- C18: for `k ≥ 1` and stored edges `(a, b)` with `a ≥ 0` and `b ≥ 0` (so that
`u = a + 1` and `v = b + 1` are 1-indexed vertices), the lines written by rule 3 of
`gerarCNF` (the last ones of the file) are, in edge order then colour order, the clauses
`-var(u,c) -var(v,c) 0` for each stored edge and each colour `c` in `1..k`, with
`var(x,c) = (x-1)*k + c`; there are `m*k` of them, a repeated edge giving its clauses
again. -/
theorem regra3_adjacencia (g : Grafo) (k : Int) (hm : 0 ≤ g.m_arestas) (hk : 1 ≤ k)
    (hpos : ∀ e ∈ arestas_de g, 0 ≤ e.1 ∧ 0 ≤ e.2) :
    (gerarCNF g k).linhas.drop (g.n_vertices.toNat + (regra2 g.n_vertices k).length) =
        regra3 g k ∧
      regra3 g k = (arestas_de g).flatMap (fun e => (intervalo 1 k).map (fun c =>
        [-(var_cor k (e.1 + 1) c), -(var_cor k (e.2 + 1) c), 0])) ∧
      (∀ v c, var_cor k v c = (v - 1) * k + c) ∧
      (((regra3 g k).length : Nat) : Int) = g.m_arestas * k ∧
      (arestas_de g).length = g.m_arestas.toNat := by
  refine ⟨?_, regra3_lista g k hk hpos, fun _ _ => rfl, ?_, by simp [arestas_de]⟩
  · rw [← List.drop_drop, linhas_drop_regra1]
    exact List.drop_left _ _
  · rw [length_regra3, Nat.cast_mul, Int.toNat_of_nonneg hm,
      Int.toNat_of_nonneg (by omega : (0 : Int) ≤ k)]

theorem regra3_adjacencia_witness :
    (0 : Int) ≤ grafo_repetido.m_arestas ∧ (1 : Int) ≤ 2 ∧
    (∀ e ∈ arestas_de grafo_repetido, 0 ≤ e.1 ∧ 0 ≤ e.2) ∧
    regra3 grafo_repetido 2 = [[-1, -3, 0], [-2, -4, 0], [-1, -3, 0], [-2, -4, 0]] ∧
    ((gerarCNF grafo_repetido 2).linhas.drop
          (grafo_repetido.n_vertices.toNat + (regra2 grafo_repetido.n_vertices 2).length) =
        regra3 grafo_repetido 2 ∧
      regra3 grafo_repetido 2 =
        (arestas_de grafo_repetido).flatMap (fun e => (intervalo 1 2).map (fun c =>
          [-(var_cor 2 (e.1 + 1) c), -(var_cor 2 (e.2 + 1) c), 0])) ∧
      (∀ v c, var_cor 2 v c = (v - 1) * 2 + c) ∧
      (((regra3 grafo_repetido 2).length : Nat) : Int) = grafo_repetido.m_arestas * 2 ∧
      (arestas_de grafo_repetido).length = grafo_repetido.m_arestas.toNat) :=
  ⟨by decide, by decide, by decide, by decide,
    regra3_adjacencia grafo_repetido 2 (by decide) (by decide) (by decide)⟩

/-! ## The file of `gerarCNF` respects the declared variables -/

theorem linhas_gerarCNF_terminadas (g : Grafo) (k : Int) (hk : 1 ≤ k)
    (hd : arestas_dentro g) :
    ∀ linha ∈ (gerarCNF g k).linhas, linha = literais linha ++ [0] := by
  intro linha hl
  rw [mem_linhas_gerarCNF] at hl
  rcases hl with hl | hl | hl
  · obtain ⟨v, h1, h2, rfl⟩ := (mem_regra1 _ _ _).mp hl
    rw [literais_regra1 k v hk h1]
  · obtain ⟨v, c1, c2, h1, h2, h3, h4, h5, rfl⟩ := (mem_regra2 _ _ _).mp hl
    have p1 := var_pos hk h1 h3
    have p2 := var_pos hk h1 (by omega : 1 ≤ c2)
    rw [literais_negativa _ _ p1 p2, menos_pos p1, menos_pos p2]
    rfl
  · obtain ⟨i, c, hi, hc1, hc2, rfl⟩ := (mem_regra3 _ _ _).mp hl
    obtain ⟨ha1, -, hb1, -⟩ := hd _ ((mem_arestas_de g _).mpr ⟨i, hi, rfl⟩)
    have p1 := var_pos hk (by omega : 1 ≤ (g.arestas i).1 + 1) hc1
    have p2 := var_pos hk (by omega : 1 ≤ (g.arestas i).2 + 1) hc1
    rw [literais_negativa _ _ p1 p2, menos_pos p1, menos_pos p2]
    rfl

/-! ## Depth of the recursion -/

/-- A result obtained within some depth is obtained within every larger depth. -/
theorem SAT_fuel_estavel (f : Formula) :
    ∀ fuel I no r, SAT_fuel fuel f I no = some r →
      ∃ limite, ∀ fuel2, limite ≤ fuel2 → SAT_fuel fuel2 f I no = some r := by
  apply SAT_fuel_inducao f (fun I no r =>
      ∃ limite, ∀ fuel2, limite ≤ fuel2 → SAT_fuel fuel2 f I no = some r)
  · intro I no hs
    refine ⟨1, fun fuel2 h => ?_⟩
    obtain ⟨x, rfl⟩ : ∃ x, fuel2 = x + 1 := ⟨fuel2 - 1, by omega⟩
    rw [SAT_fuel]; simp [hs]
  · intro I no hs hi
    refine ⟨1, fun fuel2 h => ?_⟩
    obtain ⟨x, rfl⟩ : ∃ x, fuel2 = x + 1 := ⟨fuel2 - 1, by omega⟩
    rw [SAT_fuel]; simp [hs, hi]
  · intro I no hs hi hv
    refine ⟨1, fun fuel2 h => ?_⟩
    obtain ⟨x, rfl⟩ : ∃ x, fuel2 = x + 1 := ⟨fuel2 - 1, by omega⟩
    rw [SAT_fuel]; simp [hs, hi, hv]
  · intro fuel I valor variavel esq dir r1 hs hi hv _ p1 hr1
    obtain ⟨l1, hl1⟩ := p1
    refine ⟨l1 + 1, fun fuel2 h => ?_⟩
    obtain ⟨x, rfl⟩ : ∃ x, fuel2 = x + 1 := ⟨fuel2 - 1, by omega⟩
    rw [SAT_fuel]
    simp [hs, hi, hv, hl1 x (by omega), hr1]
  · intro fuel I valor variavel esq dir r1 r2 hs hi hv _ p1 hr1 _ p2 hr2
    obtain ⟨l1, hl1⟩ := p1
    obtain ⟨l2, hl2⟩ := p2
    refine ⟨max l1 l2 + 1, fun fuel2 h => ?_⟩
    obtain ⟨x, rfl⟩ : ∃ x, fuel2 = x + 1 := ⟨fuel2 - 1, by omega⟩
    have hx1 : l1 ≤ x := by have := le_max_left l1 l2; omega
    have hx2 : l2 ≤ x := by have := le_max_right l1 l2; omega
    rw [SAT_fuel]
    simp [hs, hi, hv, hl1 x hx1, hr1, hl2 x hx2, hr2]
  · intro fuel I valor variavel esq dir r1 r2 hs hi hv _ p1 hr1 _ p2 hr2
    obtain ⟨l1, hl1⟩ := p1
    obtain ⟨l2, hl2⟩ := p2
    refine ⟨max l1 l2 + 1, fun fuel2 h => ?_⟩
    obtain ⟨x, rfl⟩ : ∃ x, fuel2 = x + 1 := ⟨fuel2 - 1, by omega⟩
    have hx1 : l1 ≤ x := by have := le_max_left l1 l2; omega
    have hx2 : l2 ≤ x := by have := le_max_right l1 l2; omega
    rw [SAT_fuel]
    simp [hs, hi, hv, hl1 x hx1, hr1, hl2 x hx2, hr2]

/-- Two depths that both give a result give the same one. -/
theorem SAT_fuel_unico (f : Formula) (I : Int → Int) (no : BinaryTree) (a b : Nat)
    (ra rb : Saida) (ha : SAT_fuel a f I no = some ra) (hb : SAT_fuel b f I no = some rb) :
    ra = rb := by
  obtain ⟨la, hla⟩ := SAT_fuel_estavel f a I no ra ha
  obtain ⟨lb, hlb⟩ := SAT_fuel_estavel f b I no rb hb
  have h1 := hla (max la lb) (le_max_left _ _)
  have h2 := hlb (max la lb) (le_max_right _ _)
  rw [h1] at h2
  exact Option.some.inj h2

/-- C20: on every node that is not `NULL`, `SAT` terminates within a recursion depth
equal to the number of variables of `1..num_literais` that are `0` at the call (a depth
bound of that number plus one for the call itself already gives the result of `SAT`);
each of the two recursive calls (the second one on the array left by the first) is made
with strictly fewer such variables; that number is at most `num_literais`, which is
`n*k` for a formula read from `gerarCNF`. -/
theorem SAT_profundidade (f : Formula) (I : Int → Int) (valor variavel : Int)
    (esq dir : BinaryTree) :
    (∃ r, SAT_fuel (nao_atribuidas f I + 1) f I (BinaryTree.no valor variavel esq dir)
          = some r ∧
        SAT f I (BinaryTree.no valor variavel esq dir) = some r) ∧
      (proxima_variavel_nao_atribuida f I ≠ 0 →
        nao_atribuidas f (atribuir I (proxima_variavel_nao_atribuida f I) 1) <
            nao_atribuidas f I ∧
          ∀ fuel r1,
            SAT_fuel fuel f (atribuir I (proxima_variavel_nao_atribuida f I) 1) no_vazio
              = some r1 →
            r1.ret = false →
            nao_atribuidas f
                (atribuir r1.interpretacao (proxima_variavel_nao_atribuida f I) (-1)) <
              nao_atribuidas f I) ∧
      nao_atribuidas f I ≤ f.num_literais.toNat ∧
      (∀ (g : Grafo) (k : Int), ler_formula (gerarCNF g k) = some f →
        nao_atribuidas f I ≤ (g.n_vertices * k).toNat) := by
  have hno : BinaryTree.no valor variavel esq dir ≠ BinaryTree.NULL := by simp
  obtain ⟨r, hr⟩ := SAT_fuel_total f (nao_atribuidas f I + 1) I _ hno (by omega)
  obtain ⟨r2, hr2⟩ := SAT_total f I _ hno
  have e : r = r2 := SAT_fuel_unico f I _ _ _ r r2 hr hr2
  refine ⟨⟨r, hr, by rw [e]; exact hr2⟩, ?_, nao_atribuidas_le f I, ?_⟩
  · intro hv
    refine ⟨nao_atribuidas_atribuir f I 1 (by decide) hv, ?_⟩
    intro fuel r1 h1 hr1
    rw [SAT_fuel_restaura f _ _ _ _ h1 hr1, atribuir_atribuir]
    exact nao_atribuidas_atribuir f I (-1) (by decide) hv
  · intro g k hf
    have := nao_atribuidas_le f I
    rw [ler_formula_num_literais g k f hf] at this
    exact this

/-- The depth bound by the number of unassigned variables is reached: on `x1 ∧ ¬x1` one variable is
unassigned, a depth bound of one gives no result and a bound of two gives it. -/
theorem SAT_profundidade_exemplo :
    nao_atribuidas formula_contraditoria interpretacao_inicial = 1 ∧
      (SAT_fuel 1 formula_contraditoria interpretacao_inicial no_vazio).isNone = true ∧
      (SAT_fuel 2 formula_contraditoria interpretacao_inicial no_vazio).isSome = true := by
  decide

/-! ## The three checks of `SAT` -/

theorem valor_do_literal_igual (I : Int → Int) (l : Int) (hl : l ≠ 0) :
    I (c_abs l) = valor_do_literal l ↔ (0 < l ∧ I |l| = 1) ∨ (l < 0 ∧ I |l| = -1) := by
  rw [c_abs_eq_abs]
  unfold valor_do_literal
  by_cases h : l > 0
  · rw [if_pos h]
    constructor
    · intro e; exact Or.inl ⟨h, e⟩
    · rintro (⟨_, e⟩ | ⟨h2, _⟩)
      · exact e
      · omega
  · rw [if_neg h]
    constructor
    · intro e; exact Or.inr ⟨by omega, e⟩
    · rintro (⟨h2, _⟩ | ⟨_, e⟩)
      · omega
      · exact e

/-- C21: `formula_satisfativel` returns true exactly when every clause has a literal `l`
with `interpretacao[|l|]` equal to `1` when `l > 0` and to `-1` when `l < 0`; so it is
true on a formula without clauses and false as soon as some clause has no literal. -/
theorem formula_satisfativel_caracterizacao (f : Formula) (I : Int → Int) :
    (formula_satisfativel f I = true ↔
        ∀ c ∈ clausulas_de f, ∃ l ∈ literais c,
          (0 < l ∧ I |l| = 1) ∨ (l < 0 ∧ I |l| = -1)) ∧
      (clausulas_de f = [] → formula_satisfativel f I = true) ∧
      (∀ c ∈ clausulas_de f, literais c = [] → formula_satisfativel f I = false) := by
  have key : formula_satisfativel f I = true ↔
      ∀ c ∈ clausulas_de f, ∃ l ∈ literais c,
        (0 < l ∧ I |l| = 1) ∨ (l < 0 ∧ I |l| = -1) := by
    rw [formula_satisfativel_iff]
    unfold satisfaz
    constructor
    · intro h c hc
      obtain ⟨l, hl, hv⟩ := h c hc
      exact ⟨l, hl, (valor_do_literal_igual I l (literais_ne_zero c l hl)).mp hv⟩
    · intro h c hc
      obtain ⟨l, hl, hv⟩ := h c hc
      exact ⟨l, hl, (valor_do_literal_igual I l (literais_ne_zero c l hl)).mpr hv⟩
  refine ⟨key, ?_, ?_⟩
  · intro h
    rw [key, h]
    intro c hc
    cases hc
  · intro c hc hvazia
    cases hfs : formula_satisfativel f I with
    | false => rfl
    | true =>
      obtain ⟨l, hl, -⟩ := key.mp hfs c hc
      rw [hvazia] at hl
      cases hl

/-- C22: on an array holding only -1, 0 or 1, `formula_insatisfativel` returns true
exactly when some clause has every literal `l` falsified (`interpretacao[|l|]` is `-1`
when `l > 0` and `1` when `l < 0`); a clause with a literal whose variable is `0`, or
with a satisfied literal, leaves `todos_falsos` false. -/
theorem formula_insatisfativel_caracterizacao (f : Formula) (I : Int → Int)
    (hval : ∀ i, I i = -1 ∨ I i = 0 ∨ I i = 1) :
    (formula_insatisfativel f I = true ↔
        ∃ c ∈ clausulas_de f, ∀ l ∈ literais c,
          (0 < l ∧ I |l| = -1) ∨ (l < 0 ∧ I |l| = 1)) ∧
      (∀ c : List Int,
        (∃ l ∈ literais c, I |l| = 0 ∨ (0 < l ∧ I |l| = 1) ∨ (l < 0 ∧ I |l| = -1)) →
        todos_falsos c I = false) := by
  have lit : ∀ l : Int, l ≠ 0 →
      ((I (c_abs l) ≠ 0 ∧ I (c_abs l) ≠ valor_do_literal l) ↔
        ((0 < l ∧ I |l| = -1) ∨ (l < 0 ∧ I |l| = 1))) := by
    intro l hl
    rw [c_abs_eq_abs]
    unfold valor_do_literal
    have hv := hval |l|
    by_cases h : l > 0
    · rw [if_pos h]
      constructor
      · rintro ⟨h1, h2⟩; left; exact ⟨h, by omega⟩
      · rintro (⟨_, e⟩ | ⟨h2, _⟩)
        · rw [e]; decide
        · omega
    · rw [if_neg h]
      constructor
      · rintro ⟨h1, h2⟩; right; exact ⟨by omega, by omega⟩
      · rintro (⟨h2, _⟩ | ⟨_, e⟩)
        · omega
        · rw [e]; decide
  constructor
  · rw [formula_insatisfativel_iff]
    constructor
    · rintro ⟨c, hc, h⟩
      exact ⟨c, hc, fun l hl => (lit l (literais_ne_zero c l hl)).mp (h l hl)⟩
    · rintro ⟨c, hc, h⟩
      exact ⟨c, hc, fun l hl => (lit l (literais_ne_zero c l hl)).mpr (h l hl)⟩
  · rintro c ⟨l, hl, h⟩
    cases htf : todos_falsos c I with
    | false => rfl
    | true =>
      exfalso
      have hne := literais_ne_zero c l hl
      have := (lit l hne).mp ((todos_falsos_iff c I).mp htf l hl)
      rcases h with h | ⟨h1, h2⟩ | ⟨h1, h2⟩ <;> rcases this with ⟨t1, t2⟩ | ⟨t1, t2⟩ <;> omega

theorem formula_insatisfativel_caracterizacao_witness :
    (∀ i, atribuir interpretacao_inicial 1 1 i = -1 ∨
        atribuir interpretacao_inicial 1 1 i = 0 ∨ atribuir interpretacao_inicial 1 1 i = 1) ∧
    formula_insatisfativel formula_contraditoria (atribuir interpretacao_inicial 1 1) = true ∧
    ((formula_insatisfativel formula_contraditoria (atribuir interpretacao_inicial 1 1) = true ↔
        ∃ c ∈ clausulas_de formula_contraditoria, ∀ l ∈ literais c,
          (0 < l ∧ atribuir interpretacao_inicial 1 1 |l| = -1) ∨
            (l < 0 ∧ atribuir interpretacao_inicial 1 1 |l| = 1)) ∧
      (∀ c : List Int,
        (∃ l ∈ literais c, atribuir interpretacao_inicial 1 1 |l| = 0 ∨
          (0 < l ∧ atribuir interpretacao_inicial 1 1 |l| = 1) ∨
          (l < 0 ∧ atribuir interpretacao_inicial 1 1 |l| = -1)) →
        todos_falsos c (atribuir interpretacao_inicial 1 1) = false)) :=
  have hval : ∀ i, atribuir interpretacao_inicial 1 1 i = -1 ∨
      atribuir interpretacao_inicial 1 1 i = 0 ∨ atribuir interpretacao_inicial 1 1 i = 1 := by
    intro i
    by_cases h : i = 1
    · right; right; simp [atribuir, h]
    · right; left; simp [atribuir, h, interpretacao_inicial]
  ⟨hval, by decide,
    formula_insatisfativel_caracterizacao formula_contraditoria
      (atribuir interpretacao_inicial 1 1) hval⟩

/-- C23: `proxima_variavel_nao_atribuida` returns the smallest `i` in `1..num_literais`
with `interpretacao[i] == 0`, and returns `0` exactly when no variable of
`1..num_literais` is `0`. -/
theorem proxima_variavel_menor (f : Formula) (I : Int → Int) :
    (∀ i, i ≠ 0 →
        (proxima_variavel_nao_atribuida f I = i ↔
          1 ≤ i ∧ i ≤ f.num_literais ∧ I i = 0 ∧ ∀ j, 1 ≤ j → j < i → I j ≠ 0)) ∧
      (proxima_variavel_nao_atribuida f I = 0 ↔
        ∀ i, 1 ≤ i → i ≤ f.num_literais → I i ≠ 0) := by
  refine ⟨?_, proxima_zero_iff f I⟩
  intro i hi
  constructor
  · intro h
    have hne : proxima_variavel_nao_atribuida f I ≠ 0 := by rw [h]; exact hi
    obtain ⟨h1, h2, h3⟩ := proxima_spec f I hne
    rw [h] at h1 h2 h3
    exact ⟨h1, h2, h3, fun j hj1 hj2 => proxima_minima f I j hj1 (by rw [h]; exact hj2)⟩
  · rintro ⟨h1, h2, h3, h4⟩
    have hne : proxima_variavel_nao_atribuida f I ≠ 0 := by
      intro h0
      exact (proxima_zero_iff f I).mp h0 i h1 h2 h3
    obtain ⟨p1, p2, p3⟩ := proxima_spec f I hne
    by_contra hdif
    rcases lt_or_gt_of_ne hdif with hlt | hgt
    · exact h4 _ p1 hlt p3
    · exact proxima_minima f I i h1 hgt h3

/-- C24: on a well-formed formula, when every variable of `1..num_literais` is
assigned, `formula_satisfativel` or `formula_insatisfativel` returns true; so the three
conditions under which `SAT` executes `if (var == 0) return false` never hold
together. -/
theorem retorno_defensivo_inalcancavel (f : Formula) (I : Int → Int) (hwf : bem_formada f) :
    ((∀ i, 1 ≤ i → i ≤ f.num_literais → I i ≠ 0) →
        formula_satisfativel f I = true ∨ formula_insatisfativel f I = true) ∧
      ¬ (formula_satisfativel f I = false ∧ formula_insatisfativel f I = false ∧
          proxima_variavel_nao_atribuida f I = 0) := by
  have key : (∀ i, 1 ≤ i → i ≤ f.num_literais → I i ≠ 0) →
      formula_satisfativel f I = true ∨ formula_insatisfativel f I = true := by
    intro hall
    by_cases hs : formula_satisfativel f I = true
    · exact Or.inl hs
    · right
      have hns : ¬ satisfaz f I := by rw [← formula_satisfativel_iff]; exact hs
      unfold satisfaz at hns
      push_neg at hns
      obtain ⟨c, hc, hnone⟩ := hns
      rw [formula_insatisfativel_iff]
      refine ⟨c, hc, fun l hl => ⟨?_, hnone l hl⟩⟩
      obtain ⟨hr1, hr2⟩ := (literal_valido_iff _ _).mp (hwf c hc l hl)
      exact hall _ hr1 hr2
  refine ⟨key, ?_⟩
  rintro ⟨hs, hi, hv⟩
  rcases key ((proxima_zero_iff f I).mp hv) with h | h
  · rw [hs] at h; cases h
  · rw [hi] at h; cases h

theorem retorno_defensivo_inalcancavel_witness :
    bem_formada formula_contraditoria ∧
    (∀ i, 1 ≤ i → i ≤ formula_contraditoria.num_literais →
      atribuir interpretacao_inicial 1 1 i ≠ 0) ∧
    formula_satisfativel formula_contraditoria (atribuir interpretacao_inicial 1 1) = false ∧
    formula_insatisfativel formula_contraditoria (atribuir interpretacao_inicial 1 1) = true ∧
    (((∀ i, 1 ≤ i → i ≤ formula_contraditoria.num_literais →
          atribuir interpretacao_inicial 1 1 i ≠ 0) →
        formula_satisfativel formula_contraditoria (atribuir interpretacao_inicial 1 1) = true ∨
          formula_insatisfativel formula_contraditoria
            (atribuir interpretacao_inicial 1 1) = true) ∧
      ¬ (formula_satisfativel formula_contraditoria
            (atribuir interpretacao_inicial 1 1) = false ∧
          formula_insatisfativel formula_contraditoria
            (atribuir interpretacao_inicial 1 1) = false ∧
          proxima_variavel_nao_atribuida formula_contraditoria
            (atribuir interpretacao_inicial 1 1) = 0)) :=
  ⟨by unfold bem_formada; decide,
    fun i h1 h2 => by
      have h3 : i ≤ 1 := h2
      have h4 : i = 1 := by omega
      subst h4
      decide,
    by decide, by decide,
    retorno_defensivo_inalcancavel formula_contraditoria (atribuir interpretacao_inicial 1 1)
      (by unfold bem_formada; decide)⟩

/-- C26: on every node that is not `NULL`, `SAT` returns and every variable that held
`1` or `-1` at the call holds the same value afterwards; an entry that differs after the
call was `0` at the call, and the call returned true. -/
theorem SAT_nao_altera_decididas (f : Formula) (I : Int → Int) (valor variavel : Int)
    (esq dir : BinaryTree) :
    ∃ r, SAT f I (BinaryTree.no valor variavel esq dir) = some r ∧
      (∀ i, I i = 1 ∨ I i = -1 → r.interpretacao i = I i) ∧
      (∀ i, r.interpretacao i ≠ I i → I i = 0 ∧ r.ret = true) := by
  obtain ⟨r, hr⟩ := SAT_total f I (BinaryTree.no valor variavel esq dir) (by simp)
  refine ⟨r, hr, ?_, ?_⟩
  · intro i hi
    exact SAT_fuel_preserva f _ _ _ _ hr i (by rcases hi with h | h <;> omega)
  · intro i hdif
    constructor
    · by_contra hne
      exact hdif (SAT_fuel_preserva f _ _ _ _ hr i hne)
    · by_contra hret
      have hretf : r.ret = false := by simpa using hret
      exact hdif (by rw [SAT_fuel_restaura f _ _ _ _ hr hretf])

/-! ## The tree records the accepted path -/

theorem countP_chamada_fora (I F : Int → Int) (var v : Int) (l : List Int) (h : var ∉ l) :
    l.countP (fun i => decide (atribuir I var v i = 0) && decide (F i ≠ 0)) =
      l.countP (fun i => decide (I i = 0) && decide (F i ≠ 0)) := by
  apply List.countP_congr
  intro x hx
  have hne : x ≠ var := fun e => h (e ▸ hx)
  rw [atribuir_outro _ _ _ _ hne]

theorem countP_chamada_atribuir (I F : Int → Int) (var v : Int) (hv : v ≠ 0)
    (hz : I var = 0) (hF : F var ≠ 0) (l : List Int) (hnd : l.Nodup) (hm : var ∈ l) :
    l.countP (fun i => decide (I i = 0) && decide (F i ≠ 0)) =
      l.countP (fun i => decide (atribuir I var v i = 0) && decide (F i ≠ 0)) + 1 := by
  induction l with
  | nil => cases hm
  | cons x xs ih =>
    obtain ⟨hx, hxs⟩ := List.nodup_cons.mp hnd
    by_cases hxv : x = var
    · subst hxv
      rw [List.countP_cons, List.countP_cons, countP_chamada_fora I F x v xs hx]
      simp [atribuir_mesmo, hz, hF, hv]
    · have hmx : var ∈ xs := by
        rcases List.mem_cons.mp hm with h | h
        · exact absurd h.symm hxv
        · exact h
      rw [List.countP_cons, List.countP_cons, ih hxs hmx, atribuir_outro _ _ _ _ hxv]
      omega

theorem atribuidas_pela_chamada_atribuir (f : Formula) (I F : Int → Int) (v : Int)
    (hv : v ≠ 0) (hp : proxima_variavel_nao_atribuida f I ≠ 0)
    (hF : F (proxima_variavel_nao_atribuida f I) ≠ 0) :
    atribuidas_pela_chamada f.num_literais I F =
      atribuidas_pela_chamada f.num_literais
        (atribuir I (proxima_variavel_nao_atribuida f I) v) F + 1 := by
  obtain ⟨h1, h2, h3⟩ := proxima_spec f I hp
  exact countP_chamada_atribuir I F _ v hv h3 hF _ (intervalo_nodup _ _)
    (mem_intervalo.mpr ⟨h1, h2⟩)

theorem atribuidas_pela_chamada_zero (n : Int) (I : Int → Int) :
    atribuidas_pela_chamada n I I = 0 := by
  unfold atribuidas_pela_chamada
  rw [List.countP_eq_zero]
  intro x _
  by_cases h : I x = 0 <;> simp [h]

theorem registra_esquerda (f : Formula) (I F : Int → Int) (var : Int) (t : BinaryTree)
    (hvar : var = proxima_variavel_nao_atribuida f I) (hF : F var = 1)
    (h : registra f t (atribuir I var 1) F = true) :
    registra f (BinaryTree.no 1 var t BinaryTree.NULL) I F = true ∧
      nos_internos (BinaryTree.no 1 var t BinaryTree.NULL) = nos_internos t + 1 := by
  cases t with
  | NULL => simp [registra] at h
  | no a b c d =>
    constructor
    · simp only [registra, hF, ← hvar, decide_True, Bool.true_and]
      exact h
    · simp only [nos_internos]
      omega

theorem registra_direita (f : Formula) (I F : Int → Int) (var : Int) (t : BinaryTree)
    (hvar : var = proxima_variavel_nao_atribuida f I) (hF : F var = -1)
    (h : registra f t (atribuir I var (-1)) F = true) :
    registra f (BinaryTree.no (-1) var BinaryTree.NULL t) I F = true ∧
      nos_internos (BinaryTree.no (-1) var BinaryTree.NULL t) = nos_internos t + 1 := by
  cases t with
  | NULL => simp [registra] at h
  | no a b c d =>
    constructor
    · simp only [registra, hF, ← hvar, decide_True, Bool.true_and]
      exact h
    · simp only [nos_internos]
      omega

/-- On a fresh node, a successful call leaves a chain that records its decisions, with
as many nodes having a child as variables the call assigned. -/
theorem SAT_fuel_registra (f : Formula) :
    ∀ fuel I no r, SAT_fuel fuel f I no = some r → no = no_vazio → r.ret = true →
      registra f r.no I r.interpretacao = true ∧
      nos_internos r.no = atribuidas_pela_chamada f.num_literais I r.interpretacao := by
  apply SAT_fuel_inducao f (fun I no r => no = no_vazio → r.ret = true →
      registra f r.no I r.interpretacao = true ∧
      nos_internos r.no = atribuidas_pela_chamada f.num_literais I r.interpretacao)
  · intro I no _ hno _
    subst hno
    refine ⟨by simp [no_vazio, registra], ?_⟩
    rw [atribuidas_pela_chamada_zero]
    simp [no_vazio, nos_internos]
  · intro I no _ _ _ h; simp at h
  · intro I no _ _ _ _ h; simp at h
  · intro fuel I valor variavel esq dir r1 _ _ hv h1 p1 hr1 hno _
    simp only [no_vazio, BinaryTree.no.injEq] at hno
    obtain ⟨-, hvz, -, hd⟩ := hno
    subst hvz hd
    obtain ⟨pr, pn⟩ := p1 rfl hr1
    have hF : r1.interpretacao (proxima_variavel_nao_atribuida f I) = 1 := by
      rw [SAT_fuel_preserva f _ _ _ _ h1 _ (by rw [atribuir_mesmo]; decide), atribuir_mesmo]
    obtain ⟨q1, q2⟩ := registra_esquerda f I r1.interpretacao _ r1.no rfl hF pr
    simp only [if_true]
    refine ⟨q1, ?_⟩
    rw [q2, pn, atribuidas_pela_chamada_atribuir f I r1.interpretacao 1 (by decide) hv
      (by rw [hF]; decide)]
  · intro fuel I valor variavel esq dir r1 r2 _ _ hv h1 _ hr1 h2 p2 hr2 hno _
    simp only [no_vazio, BinaryTree.no.injEq] at hno
    obtain ⟨-, hvz, -, -⟩ := hno
    subst hvz
    have e1 := SAT_fuel_restaura f _ _ _ _ h1 hr1
    rw [e1, atribuir_atribuir] at h2 p2
    obtain ⟨pr, pn⟩ := p2 rfl hr2
    have hF : r2.interpretacao (proxima_variavel_nao_atribuida f I) = -1 := by
      rw [SAT_fuel_preserva f _ _ _ _ h2 _ (by rw [atribuir_mesmo]; decide), atribuir_mesmo]
    obtain ⟨q1, q2⟩ := registra_direita f I r2.interpretacao _ r2.no rfl hF pr
    simp only [if_true]
    refine ⟨q1, ?_⟩
    rw [q2, pn, atribuidas_pela_chamada_atribuir f I r2.interpretacao (-1) (by decide) hv
      (by rw [hF]; decide)]
  · intro fuel I valor variavel esq dir r1 r2 _ _ _ _ _ _ _ _ _ _ h; simp at h

/-- C25: `SAT` on a fresh node returns; when it returns true, every node of the chain
but the last holds in `variavel` the variable chosen at that call and in `valor` the
value (`1` or `-1`) of that variable in the final array, its only child is the left one
when `valor` is `1` and the right one when `valor` is `-1`, and the number of such
nodes is the number of variables the call assigned. -/
theorem SAT_arvore_registra (f : Formula) (I : Int → Int) :
    ∃ r, SAT f I no_vazio = some r ∧
      (r.ret = true →
        registra f r.no I r.interpretacao = true ∧
        nos_internos r.no = atribuidas_pela_chamada f.num_literais I r.interpretacao) := by
  obtain ⟨r, hr⟩ := SAT_total f I no_vazio no_vazio_ne_NULL
  exact ⟨r, hr, fun hret => SAT_fuel_registra f _ _ _ _ hr rfl hret⟩

/-- Example for the record of the path: on `(x1 ∨ x2) ∧ ¬x1` the search returns true,
the chain records `x1 = -1` then `x2 = 1`, and two variables were assigned. -/
theorem SAT_arvore_exemplo :
    ∃ r, SAT formula_exemplo interpretacao_inicial no_vazio = some r ∧ r.ret = true ∧
      r.no = BinaryTree.no (-1) 1 BinaryTree.NULL
        (BinaryTree.no 1 2 no_vazio BinaryTree.NULL) ∧
      registra formula_exemplo r.no interpretacao_inicial r.interpretacao = true ∧
      nos_internos r.no = 2 ∧
      atribuidas_pela_chamada 2 interpretacao_inicial r.interpretacao = 2 :=
  ⟨_, rfl, rfl, rfl, by decide, by decide, by decide⟩

/-! ## The assigned variables form a prefix -/

theorem chamada_prefixo_aux (f : Formula) :
    ∀ I, chamada f interpretacao_inicial I →
      ∃ d, (0 ≤ f.num_literais → d ≤ f.num_literais) ∧ prefixo f.num_literais I d := by
  intro I h
  induction h with
  | raiz => exact ⟨0, fun h => h, prefixo_inicial _⟩
  | esquerda I _ _ _ hv ih =>
    obtain ⟨d, _, hp⟩ := ih
    have e := proxima_prefixo f I d hp hv
    obtain ⟨-, hle, -⟩ := proxima_spec f I hv
    rw [e] at hle ⊢
    exact ⟨d + 1, fun _ => hle, prefixo_atribuir _ I d 1 hp (Or.inl rfl)⟩
  | direita I fuel r1 _ _ _ hv h1 hr1 ih =>
    obtain ⟨d, _, hp⟩ := ih
    have e := proxima_prefixo f I d hp hv
    obtain ⟨-, hle, -⟩ := proxima_spec f I hv
    rw [SAT_fuel_restaura f _ _ _ _ h1 hr1, atribuir_atribuir]
    rw [e] at hle ⊢
    exact ⟨d + 1, fun _ => hle, prefixo_atribuir _ I d (-1) hp (Or.inr rfl)⟩

/-- C27: in the run of `SAT` started from the all-zero array, at every call and at
every return, the final one included, the assigned variables are exactly `1..d` for
some `d ≥ 0` (with `d ≤ num_literais` when `num_literais ≥ 0`); the variable decided
at a call is `d + 1` and a call that returns false leaves `1..d` assigned again. -/
theorem chamada_prefixo (f : Formula) :
    (∀ I, chamada f interpretacao_inicial I →
        ∃ d, (0 ≤ f.num_literais → d ≤ f.num_literais) ∧ prefixo f.num_literais I d) ∧
      (∀ I fuel no r, chamada f interpretacao_inicial I → SAT_fuel fuel f I no = some r →
        ∃ d, (0 ≤ f.num_literais → d ≤ f.num_literais) ∧
          prefixo f.num_literais r.interpretacao d) ∧
      (∃ r, SAT f interpretacao_inicial no_vazio = some r ∧
        ∃ d, (0 ≤ f.num_literais → d ≤ f.num_literais) ∧
          prefixo f.num_literais r.interpretacao d) ∧
      (∀ I d, prefixo f.num_literais I d → proxima_variavel_nao_atribuida f I ≠ 0 →
        proxima_variavel_nao_atribuida f I = d + 1) ∧
      (∀ I d fuel no r, prefixo f.num_literais I d → SAT_fuel fuel f I no = some r →
        r.ret = false → prefixo f.num_literais r.interpretacao d) := by
  have retorno : ∀ I fuel no r, chamada f interpretacao_inicial I →
      SAT_fuel fuel f I no = some r →
      ∃ d, (0 ≤ f.num_literais → d ≤ f.num_literais) ∧
        prefixo f.num_literais r.interpretacao d := by
    intro I fuel no r hc hr
    obtain ⟨d, hd, hp⟩ := chamada_prefixo_aux f I hc
    obtain ⟨d', h1, h2, h3⟩ := SAT_fuel_prefixo f _ _ _ _ hr d hp
    refine ⟨d', fun hn => ?_, h3⟩
    rcases h2 with h | h
    · exact h
    · rw [h]; exact hd hn
  refine ⟨chamada_prefixo_aux f, retorno, ?_, fun I d hp hv => proxima_prefixo f I d hp hv, ?_⟩
  · obtain ⟨r, hr⟩ := SAT_total f interpretacao_inicial no_vazio no_vazio_ne_NULL
    exact ⟨r, hr, retorno _ _ _ _ chamada.raiz hr⟩
  · intro I d fuel no r hp hr hret
    rw [SAT_fuel_restaura f _ _ _ _ hr hret]
    exact hp

/-! ## The colouring found is the first in lexicographic order -/

/-- The array left by a successful `SAT` on a well-formed formula comes first among the
total satisfying assignments that extend the initial array, true before false in the
order of the variables: where the result says false and such an assignment says true,
an earlier variable has true in the result and false in the assignment. -/
theorem SAT_fuel_lex (f : Formula) (hwf : bem_formada f) :
    ∀ fuel I no r, SAT_fuel fuel f I no = some r → r.ret = true →
      ∀ T, atribuicao_total f.num_literais T → estende f.num_literais I T → satisfaz f T →
        ∀ i, 1 ≤ i → i ≤ f.num_literais → r.interpretacao i = -1 → T i = 1 →
          ∃ j, 1 ≤ j ∧ j < i ∧ r.interpretacao j = 1 ∧ T j = -1 := by
  apply SAT_fuel_inducao f (fun I _ r => r.ret = true →
      ∀ T, atribuicao_total f.num_literais T → estende f.num_literais I T → satisfaz f T →
        ∀ i, 1 ≤ i → i ≤ f.num_literais → r.interpretacao i = -1 → T i = 1 →
          ∃ j, 1 ≤ j ∧ j < i ∧ r.interpretacao j = 1 ∧ T j = -1)
  · intro I no _ _ T _ hext _ i h1 h2 hF hT
    have hI : I i = -1 := hF
    have := hext i h1 h2 (by rw [hI]; decide)
    rw [hI, hT] at this
    omega
  · intro I no _ _ h; simp at h
  · intro I no _ _ _ h; simp at h
  · intro fuel I valor variavel esq dir r1 _ _ hv h1 p1 hr1 _ T htot hext hsat i hi1 hi2 hF hT
    obtain ⟨hv1, hv2, hv3⟩ := proxima_spec f I hv
    have hFv : r1.interpretacao (proxima_variavel_nao_atribuida f I) = 1 := by
      rw [SAT_fuel_preserva f _ _ _ _ h1 _ (by rw [atribuir_mesmo]; decide), atribuir_mesmo]
    rcases htot _ hv1 hv2 with ht | ht
    · apply p1 hr1 T htot _ hsat i hi1 hi2 hF hT
      intro x hx1 hx2 hne
      by_cases hxv : x = proxima_variavel_nao_atribuida f I
      · rw [hxv, atribuir_mesmo, ht]
      · rw [atribuir_outro _ _ _ _ hxv] at hne ⊢
        exact hext x hx1 hx2 hne
    · refine ⟨_, hv1, ?_, hFv, ht⟩
      by_contra hnlt
      have hne : i ≠ proxima_variavel_nao_atribuida f I := by
        intro e
        simp only at hF
        rw [e, hFv] at hF
        omega
      have hlt : i < proxima_variavel_nao_atribuida f I := by omega
      have hIi := proxima_minima f I i hi1 hlt
      have e1 : r1.interpretacao i = I i := by
        rw [SAT_fuel_preserva f _ _ _ _ h1 i (by rw [atribuir_outro _ _ _ _ hne]; exact hIi),
          atribuir_outro _ _ _ _ hne]
      have e2 := hext i hi1 hi2 hIi
      simp only at hF
      rw [e1] at hF
      rw [e2, hF] at hT
      omega
  · intro fuel I valor variavel esq dir r1 r2 _ _ hv h1 _ hr1 _ p2 hr2 _ T htot hext hsat
      i hi1 hi2 hF hT
    obtain ⟨hv1, hv2, hv3⟩ := proxima_spec f I hv
    have e1 := SAT_fuel_restaura f _ _ _ _ h1 hr1
    rw [e1, atribuir_atribuir] at p2
    rcases htot _ hv1 hv2 with ht | ht
    · exfalso
      apply SAT_fuel_completo f hwf _ _ _ _ h1 hr1 T htot _ hsat
      intro x hx1 hx2 hne
      by_cases hxv : x = proxima_variavel_nao_atribuida f I
      · rw [hxv, atribuir_mesmo, ht]
      · rw [atribuir_outro _ _ _ _ hxv] at hne ⊢
        exact hext x hx1 hx2 hne
    · apply p2 hr2 T htot _ hsat i hi1 hi2 hF hT
      intro x hx1 hx2 hne
      by_cases hxv : x = proxima_variavel_nao_atribuida f I
      · rw [hxv, atribuir_mesmo, ht]
      · rw [atribuir_outro _ _ _ _ hxv] at hne ⊢
        exact hext x hx1 hx2 hne
  · intro fuel I valor variavel esq dir r1 r2 _ _ _ _ _ _ _ _ _ h; simp at h

theorem var_ordem (k u e v c : Int) (hk : 1 ≤ k) (he : 1 ≤ e) (hc : c ≤ k)
    (h : (u - 1) * k + e < (v - 1) * k + c) : u ≤ v := by
  by_contra hgt
  have h1 : v * k ≤ (u - 1) * k :=
    mul_le_mul_of_nonneg_right (by omega) (by omega)
  have h2 : (v - 1) * k = v * k - k := by ring
  omega

/-- With the exclusivity clauses satisfied, a vertex has at most one variable at `1`. -/
theorem cor_unica (k : Int) (F : Int → Int) (v a b : Int)
    (exc : ∀ c1 c2, 1 ≤ c1 → c1 < c2 → c2 ≤ k →
      F ((v - 1) * k + c1) = -1 ∨ F ((v - 1) * k + c2) = -1)
    (ha1 : 1 ≤ a) (ha2 : a ≤ k) (hb1 : 1 ≤ b) (hb2 : b ≤ k)
    (hFa : F ((v - 1) * k + a) = 1) (hFb : F ((v - 1) * k + b) = 1) : a = b := by
  by_contra hne
  rcases lt_or_gt_of_ne hne with hlt | hgt
  · rcases exc a b ha1 hlt hb2 with h | h
    · rw [hFa] at h; omega
    · rw [hFb] at h; omega
  · rcases exc b a hb1 hgt ha2 with h | h
    · rw [hFb] at h; omega
    · rw [hFa] at h; omega

/-- The decoded colour of a vertex is at most the colour any proper colouring gives it,
when that colouring agrees with the decoded colours on the earlier vertices. -/
theorem cor_do_vertice_minima (g : Grafo) (k : Int) (f : Formula) (r : Saida)
    (hn : 0 ≤ g.n_vertices) (hm : 0 ≤ g.m_arestas) (hk : 1 ≤ k) (hd : arestas_dentro g)
    (hf : ler_formula (gerarCNF g k) = some f)
    (hr : SAT f interpretacao_inicial no_vazio = some r) (hret : r.ret = true)
    (cor : Int → Int) (hcor : coloracao_propria g k cor)
    (v c : Int) (hv1 : 1 ≤ v) (hv2 : v ≤ g.n_vertices)
    (hc : cor_do_vertice k r.interpretacao v = some c)
    (hant : ∀ u, 1 ≤ u → u < v → cor_do_vertice k r.interpretacao u = some (cor u)) :
    c ≤ cor v := by
  by_contra hgt
  obtain ⟨cob, exc, -⟩ := regras_apos_SAT g k f r hn hm hk hf hr hret
  obtain ⟨hsat, htot⟩ := satisfaz_de_coloracao g k f cor hn hm hk hd hf hcor
  have hN := ler_formula_num_literais g k f hf
  obtain ⟨hc1, hc2, hFc⟩ := cor_do_vertice_some _ _ _ _ hc
  obtain ⟨hp1, hp2⟩ := hcor.1 v hv1 hv2
  have hFi : r.interpretacao ((v - 1) * k + cor v) = -1 := by
    rcases exc v hv1 hv2 (cor v) c hp1 (by omega) hc2 with h | h
    · exact h
    · rw [hFc] at h; omega
  have hTi : interpretacao_de k cor ((v - 1) * k + cor v) = 1 := by
    rw [interpretacao_de_var k cor v _ hk hp1 hp2]; simp
  have hi1 := var_pos hk hv1 hp1
  have hi2 := var_le hk hv2 hp2
  obtain ⟨j, hj1, hj2, hFj, hTj⟩ := SAT_fuel_lex f (ler_formula_bem_formada _ f hf) _ _ _ _ hr
    hret (interpretacao_de k cor) htot (fun x _ _ hne => absurd rfl hne) hsat
    ((v - 1) * k + cor v) hi1 (by rw [hN]; exact hi2) hFi hTi
  obtain ⟨u, e, hu1, hu2, he1, he2, hje⟩ := var_cor_sobrejetiva g.n_vertices k j hk hj1
    (by omega)
  unfold var_cor at hje
  subst hje
  have huv : u ≤ v := var_ordem k u e v (cor v) hk he1 hp2 hj2
  rw [interpretacao_de_var k cor u e hk he1 he2] at hTj
  have hcu : cor u ≠ e := by
    intro h; rw [if_pos h] at hTj; omega
  rcases lt_or_eq_of_le huv with hlt | heq
  · obtain ⟨q1, q2, q3⟩ := cor_do_vertice_some _ _ _ _ (hant u hu1 hlt)
    exact hcu (cor_unica k _ u (cor u) e (exc u hu1 hu2) q1 q2 he1 he2 q3 hFj)
  · subst heq
    have := cor_unica k _ u e c (exc u hu1 hu2) he1 he2 hc1 hc2 hFj hFc
    omega

/-- Exchanging the colours `a` and `1`. -/
theorem troca_injetiva (a x y : Int) (h : x ≠ y) :
    (if x = a then 1 else if x = 1 then a else x) ≠
      (if y = a then 1 else if y = 1 then a else y) := by
  split_ifs <;> omega

/-- For a graph with edges inside the vertex range and `k ≥ 1` at which `SAT` succeeds
from the all-zero array on the formula the token-level reader makes of the file, the
decoded colours are the first in lexicographic order among the proper colourings with
`k` colours; in particular vertex 1 is printed with colour 1. -/
theorem coloracao_encontrada_lex (g : Grafo) (k : Int) (f : Formula) (r : Saida)
    (hn : 0 ≤ g.n_vertices) (hm : 0 ≤ g.m_arestas) (hk : 1 ≤ k) (hd : arestas_dentro g)
    (hf : ler_formula (gerarCNF g k) = some f)
    (hr : SAT f interpretacao_inicial no_vazio = some r) (hret : r.ret = true) :
    (∀ cor, coloracao_propria g k cor →
        ∀ v c, (v, c) ∈ coloracao_encontrada g.n_vertices k r.interpretacao →
          (∀ u cu, u < v →
            (u, cu) ∈ coloracao_encontrada g.n_vertices k r.interpretacao → cor u = cu) →
          c ≤ cor v) ∧
      (1 ≤ g.n_vertices →
        (1, 1) ∈ coloracao_encontrada g.n_vertices k r.interpretacao) := by
  obtain ⟨cob, -, -⟩ := regras_apos_SAT g k f r hn hm hk hf hr hret
  have geral : ∀ cor, coloracao_propria g k cor →
      ∀ v c, (v, c) ∈ coloracao_encontrada g.n_vertices k r.interpretacao →
        (∀ u cu, u < v →
          (u, cu) ∈ coloracao_encontrada g.n_vertices k r.interpretacao → cor u = cu) →
        c ≤ cor v := by
    intro cor hcor v c hvc hant
    obtain ⟨hv1, hv2, hc⟩ := (mem_coloracao_encontrada _ _ _ _ _).mp hvc
    apply cor_do_vertice_minima g k f r hn hm hk hd hf hr hret cor hcor v c hv1 hv2 hc
    intro u hu1 hu2
    obtain ⟨cu, hcu⟩ := cor_do_vertice_existe k _ u (cob u hu1 (by omega))
    have := hant u cu hu2 ((mem_coloracao_encontrada _ _ _ _ _).mpr ⟨hu1, by omega, hcu⟩)
    rw [this]; exact hcu
  refine ⟨geral, ?_⟩
  intro hn1
  obtain ⟨c, hc⟩ := cor_do_vertice_existe k _ 1 (cob 1 (le_refl _) hn1)
  obtain ⟨hc1, hc2, -⟩ := cor_do_vertice_some _ _ _ _ hc
  have hmem : (1, c) ∈ coloracao_encontrada g.n_vertices k r.interpretacao :=
    (mem_coloracao_encontrada _ _ _ _ _).mpr ⟨le_refl _, hn1, hc⟩
  have hprop := coloracao_de_satisfaz g k f r.interpretacao hn hm hk hd hf
    ((formula_satisfativel_iff f _).mp (SAT_fuel_correto f _ _ _ _ hr hret))
  have htroca : coloracao_propria g k (fun v =>
      if (cor_do_vertice k r.interpretacao v).getD 1 = c then 1
      else if (cor_do_vertice k r.interpretacao v).getD 1 = 1 then c
      else (cor_do_vertice k r.interpretacao v).getD 1) := by
    constructor
    · intro v h1 h2
      have := hprop.1 v h1 h2
      simp only at this ⊢
      split_ifs <;> omega
    · intro e he
      exact troca_injetiva c _ _ (hprop.2 e he)
  have hle := geral _ htroca 1 c hmem (fun u cu hu hmu => by
    have := ((mem_coloracao_encontrada _ _ _ _ _).mp hmu).1
    omega)
  simp only [hc, Option.getD_some, if_true] at hle
  have : c = 1 := by omega
  rw [this] at hmem
  exact hmem

/-! ## Self-loops and edges outside the vertex range -/

/-- The loop started at `k0` ends with the final message when `SAT` fails at every
`k` in `k0..n`. -/
theorem teste_iterativo_laco_nenhuma (g : Grafo)
    (hfalha : ∀ k, 1 ≤ k → k ≤ g.n_vertices → ∃ f r, ler_formula (gerarCNF g k) = some f ∧
      SAT f interpretacao_inicial no_vazio = some r ∧ r.ret = false) :
    ∀ (d : Nat) (fuel : Nat) (k0 : Int), 1 ≤ k0 →
      (g.n_vertices + 1 - k0).toNat = d → d < fuel →
      teste_iterativo_laco fuel g k0 = some Resultado.nenhuma := by
  intro d
  induction d with
  | zero =>
    intro fuel k0 _ hd hfuel
    obtain ⟨x, rfl⟩ : ∃ x, fuel = x + 1 := ⟨fuel - 1, by omega⟩
    rw [teste_iterativo_laco, if_neg (by omega)]
  | succ d ih =>
    intro fuel k0 h1 hd hfuel
    obtain ⟨x, rfl⟩ : ∃ x, fuel = x + 1 := ⟨fuel - 1, by omega⟩
    obtain ⟨f, r, hf, hr, hret⟩ := hfalha k0 h1 (by omega)
    rw [teste_iterativo_laco, if_pos (by omega)]
    simp only [hf, hr, hret, Bool.false_eq_true, if_false]
    exact ih x (k0 + 1) (by omega) (by omega) (by omega)

/-- For a graph with `n ≥ 1` vertices whose stored edges all have both endpoints in
`0..n-1` and that stores a self-loop `(a, a)`, `SAT` on the formula the token-level
reader makes of the file of `gerarCNF g k` returns false for every `k ≥ 1`, and the
driver on the token-level file ends with the final message. -/
theorem laco_sem_coloracao (g : Grafo) (hn : 1 ≤ g.n_vertices) (hm : 0 ≤ g.m_arestas)
    (hd : arestas_dentro g) (hlaco : ∃ e ∈ arestas_de g, e.1 = e.2) :
    (∀ k, 1 ≤ k → ∃ f r, ler_formula (gerarCNF g k) = some f ∧
        SAT f interpretacao_inicial no_vazio = some r ∧ r.ret = false) ∧
      teste_iterativo g = some Resultado.nenhuma := by
  have hfalha : ∀ k, 1 ≤ k → ∃ f r, ler_formula (gerarCNF g k) = some f ∧
      SAT f interpretacao_inicial no_vazio = some r ∧ r.ret = false := by
    intro k hk
    obtain ⟨f, r, hf, hr, hiff⟩ := SAT_gerarCNF g k (by omega) hm hd hk
    refine ⟨f, r, hf, hr, ?_⟩
    cases hret : r.ret with
    | false => rfl
    | true =>
      exfalso
      obtain ⟨cor, hcor⟩ := hiff.mp hret
      obtain ⟨e, he, heq⟩ := hlaco
      exact hcor.2 e he (by rw [heq])
  refine ⟨hfalha, ?_⟩
  unfold teste_iterativo
  exact teste_iterativo_laco_nenhuma g (fun k h1 _ => hfalha k h1) _ _ 1 (le_refl _) rfl
    (by omega)

/-- A stored edge with an endpoint `≥ n` makes `ler_formula` refuse the file. -/
theorem ler_formula_aresta_fora (g : Grafo) (k : Int) (hk : 1 ≤ k) (i : Nat)
    (ha : 0 ≤ (g.arestas i).1) (hb : 0 ≤ (g.arestas i).2)
    (hfora : g.n_vertices ≤ (g.arestas i).1 ∨ g.n_vertices ≤ (g.arestas i).2) :
    ∀ c, 1 ≤ c → c ≤ k →
      ∃ x, (x = (g.arestas i).1 ∨ x = (g.arestas i).2) ∧ g.n_vertices ≤ x ∧
        g.n_vertices * k < x * k + c ∧
        -(x * k + c) ∈ literais [menos (((g.arestas i).1 + 1 - 1) * k + c),
          menos (((g.arestas i).2 + 1 - 1) * k + c), 0] ∧
        literal_valido (-(x * k + c)) (gerarCNF g k).num_vars = false := by
  intro c hc1 hc2
  have p1 := var_pos hk (by omega : 1 ≤ (g.arestas i).1 + 1) hc1
  have p2 := var_pos hk (by omega : 1 ≤ (g.arestas i).2 + 1) hc1
  have e1 : ((g.arestas i).1 + 1 - 1) * k = (g.arestas i).1 * k := by ring
  have e2 : ((g.arestas i).2 + 1 - 1) * k = (g.arestas i).2 * k := by ring
  rw [literais_negativa _ _ p1 p2, e1, e2]
  rw [e1] at p1
  rw [e2] at p2
  have grande : ∀ x, g.n_vertices ≤ x → g.n_vertices * k < x * k + c := by
    intro x hx
    have : g.n_vertices * k ≤ x * k := mul_le_mul_of_nonneg_right hx (by omega)
    omega
  have invalido : ∀ x, 1 ≤ x * k + c → g.n_vertices * k < x * k + c →
      literal_valido (-(x * k + c)) (gerarCNF g k).num_vars = false := by
    intro x hpos hgr
    cases hv : literal_valido (-(x * k + c)) (gerarCNF g k).num_vars with
    | false => rfl
    | true =>
      exfalso
      obtain ⟨-, h2⟩ := (literal_valido_iff _ _).mp hv
      have hnv : (gerarCNF g k).num_vars = g.n_vertices * k := rfl
      rw [hnv] at h2
      simp only [c_abs, show (-(x * k + c) < 0) by omega, if_true, neg_neg] at h2
      omega
  rcases hfora with h | h
  · exact ⟨_, Or.inl rfl, h, grande _ h, by simp, invalido _ p1 (grande _ h)⟩
  · exact ⟨_, Or.inr rfl, h, grande _ h, by simp, invalido _ p2 (grande _ h)⟩

/-! ## The file as text: printing and reading back -/

theorem digitChar_digito (d : Nat) (h : d < 10) :
    (Nat.digitChar d).isDigit = true ∧ (Nat.digitChar d).toNat - 48 = d := by
  interval_cases d <;> decide

theorem isDigit_outros (c : Char) (h : c.isDigit = true) :
    delimitador c = false ∧ isspace c = false ∧ c ≠ '-' ∧ c ≠ '+' ∧ c ≠ 'c' ∧ c ≠ 'p' := by
  have h1 : c ≠ ' ' := by rintro rfl; revert h; decide
  have h2 : c ≠ '\t' := by rintro rfl; revert h; decide
  have h3 : c ≠ '\n' := by rintro rfl; revert h; decide
  have h4 : c ≠ '\x0b' := by rintro rfl; revert h; decide
  have h5 : c ≠ '\x0c' := by rintro rfl; revert h; decide
  have h6 : c ≠ '\r' := by rintro rfl; revert h; decide
  have h7 : c ≠ '-' := by rintro rfl; revert h; decide
  have h8 : c ≠ '+' := by rintro rfl; revert h; decide
  have h9 : c ≠ 'c' := by rintro rfl; revert h; decide
  have h10 : c ≠ 'p' := by rintro rfl; revert h; decide
  refine ⟨?_, ?_, h7, h8, h9, h10⟩
  · simp [delimitador, h1, h2, h3]
  · simp [isspace, h1, h2, h3, h4, h5, h6]

theorem valor_digitos_append (a b : List Char) (acc : Nat) (ha : so_digitos a) :
    valor_digitos acc (a ++ b) = valor_digitos (valor_digitos acc a) b := by
  induction a generalizing acc with
  | nil => rfl
  | cons c a ih =>
    have hc : c.isDigit = true := ha c (List.mem_cons_self _ _)
    simp only [List.cons_append, valor_digitos, hc, if_true]
    exact ih _ (fun x hx => ha x (List.mem_cons_of_mem _ hx))

theorem valor_digitos_mono (s : List Char) (acc acc2 : Nat) (h : acc ≤ acc2) :
    valor_digitos acc s ≤ valor_digitos acc2 s := by
  induction s generalizing acc acc2 with
  | nil => exact h
  | cons c s ih =>
    simp only [valor_digitos]
    split
    · exact ih _ _ (by omega)
    · exact h

theorem valor_digitos_ge (s : List Char) (acc : Nat) : acc ≤ valor_digitos acc s := by
  induction s generalizing acc with
  | nil => exact Nat.le_refl _
  | cons c s ih =>
    simp only [valor_digitos]
    split
    · exact Nat.le_trans (by omega) (ih _)
    · exact Nat.le_refl _

theorem valor_digitos_map (ds : List Nat) (acc : Nat) (h : ∀ d ∈ ds, d < 10) :
    valor_digitos acc (ds.map Nat.digitChar) = ds.foldl (fun a d => a * 10 + d) acc := by
  induction ds generalizing acc with
  | nil => rfl
  | cons d ds ih =>
    have hd := digitChar_digito d (h d (List.mem_cons_self _ _))
    simp only [List.map_cons, valor_digitos, hd.1, hd.2, if_true, List.foldl_cons]
    exact ih _ (fun x hx => h x (List.mem_cons_of_mem _ hx))

theorem digitos_rev_lt (fuel x : Nat) : ∀ d ∈ digitos_rev fuel x, d < 10 := by
  induction fuel generalizing x with
  | zero => intro d hd; simp [digitos_rev] at hd
  | succ fuel ih =>
    intro d hd
    simp only [digitos_rev] at hd
    split at hd
    · simp only [List.mem_singleton] at hd; omega
    · rcases List.mem_cons.1 hd with h | h
      · omega
      · exact ih _ d h

theorem digitos_rev_valor (fuel x : Nat) (h : x < fuel) :
    (digitos_rev fuel x).foldr (fun d a => a * 10 + d) 0 = x := by
  induction fuel generalizing x with
  | zero => omega
  | succ fuel ih =>
    simp only [digitos_rev]
    split
    · simp
    · simp only [List.foldr_cons]
      rw [ih (x / 10) (by omega)]
      omega

theorem digitos_rev_ne_nil (fuel x : Nat) : digitos_rev (fuel + 1) x ≠ [] := by
  simp only [digitos_rev]
  split <;> simp

theorem so_digitos_digitos (x : Nat) : so_digitos (digitos x) := by
  intro c hc
  simp only [digitos, List.mem_map, List.mem_reverse] at hc
  obtain ⟨d, hd, rfl⟩ := hc
  exact (digitChar_digito d (digitos_rev_lt _ _ d hd)).1

theorem digitos_ne_nil (x : Nat) : digitos x ≠ [] := by
  simp only [digitos, ne_eq, List.map_eq_nil_iff, List.reverse_eq_nil_iff]
  exact digitos_rev_ne_nil x x

theorem valor_digitos_digitos (x : Nat) : valor_digitos 0 (digitos x) = x := by
  unfold digitos
  rw [valor_digitos_map _ _ (fun d hd => digitos_rev_lt _ _ d (List.mem_reverse.1 hd)),
    List.foldl_reverse]
  exact digitos_rev_valor _ _ (Nat.lt_succ_self x)

theorem atoi_so_digitos (s : List Char) (hs : so_digitos s) :
    atoi s = Int.ofNat (valor_digitos 0 s) := by
  cases s with
  | nil => rfl
  | cons c r =>
    have hc := isDigit_outros c (hs c (List.mem_cons_self _ _))
    simp only [atoi, List.dropWhile_cons, hc.2.1, Bool.false_eq_true, if_false, hc.2.2.1,
      hc.2.2.2.1]

theorem atoi_menos (s : List Char) : atoi ('-' :: s) = -Int.ofNat (valor_digitos 0 s) := by
  have h : isspace '-' = false := by decide
  simp only [atoi, List.dropWhile_cons, h, Bool.false_eq_true, if_false, if_true]

theorem atoi_imprime (x : Int) : atoi (imprime x) = x := by
  unfold imprime
  split
  · rw [atoi_menos, valor_digitos_digitos]
    simp only [Int.ofNat_eq_coe]
    omega
  · rw [atoi_so_digitos _ (so_digitos_digitos _), valor_digitos_digitos]
    simp only [Int.ofNat_eq_coe]
    omega

theorem atoi_menos_imprime (x : Int) : atoi ('-' :: imprime x) = menos x := by
  rw [atoi_menos]
  unfold imprime menos
  by_cases hx : x < 0
  · have h : ¬ (x > 0) := by omega
    have hd : ('-' : Char).isDigit = false := by decide
    simp only [hx, if_true, h, if_false, valor_digitos, hd, Bool.false_eq_true]
    rfl
  · rw [if_neg hx, valor_digitos_digitos]
    simp only [Int.ofNat_eq_coe]
    split <;> omega

theorem strtok_aux_token (p : List Char) (d : Char) (resto atual : List Char)
    (hp : sem_delimitador p) (hd : delimitador d = true) (hne : atual ++ p ≠ []) :
    strtok_aux (p ++ d :: resto) atual = (atual ++ p) :: strtok_aux resto [] := by
  induction p generalizing atual with
  | nil =>
    have h : atual ≠ [] := by simpa using hne
    simp only [List.nil_append, strtok_aux, hd, if_true, h, if_false, List.append_nil]
  | cons c p ih =>
    have hc : delimitador c = false := hp c (List.mem_cons_self _ _)
    have h : strtok_aux (c :: p ++ d :: resto) atual
        = strtok_aux (p ++ d :: resto) (atual ++ [c]) := by
      simp only [List.cons_append, strtok_aux, hc, Bool.false_eq_true, if_false]
      rfl
    rw [h, ih (atual ++ [c]) (fun x hx => hp x (List.mem_cons_of_mem _ hx)) (by simp)]
    simp

theorem strtok_token (p : List Char) (d : Char) (resto : List Char)
    (hp : sem_delimitador p) (hd : delimitador d = true) (hne : p ≠ []) :
    strtok (p ++ d :: resto) = p :: strtok resto := by
  unfold strtok
  rw [strtok_aux_token p d resto [] hp hd (by simpa using hne)]
  simp

theorem sem_delimitador_digitos (x : Nat) : sem_delimitador (digitos x) :=
  fun c hc => (isDigit_outros c (so_digitos_digitos x c hc)).1

theorem sem_delimitador_imprime (x : Int) : sem_delimitador (imprime x) := by
  unfold imprime
  split
  · intro c hc
    rcases List.mem_cons.1 hc with h | h
    · subst h; decide
    · exact sem_delimitador_digitos _ c h
  · exact sem_delimitador_digitos _

theorem imprime_ne_nil (x : Int) : imprime x ≠ [] := by
  unfold imprime
  split
  · simp
  · exact digitos_ne_nil _

theorem sem_delimitador_menos (x : Int) : sem_delimitador ('-' :: imprime x) := by
  intro c hc
  rcases List.mem_cons.1 hc with h | h
  · subst h; decide
  · exact sem_delimitador_imprime x c h

/-- The first character of a printed number is a digit or the sign. -/
theorem imprime_cabeca (x : Int) :
    ∃ c r, imprime x = c :: r ∧ c ≠ 'c' ∧ c ≠ 'p' := by
  unfold imprime
  split
  · exact ⟨'-', _, rfl, by decide, by decide⟩
  · cases h : digitos x.toNat with
    | nil => exact absurd h (digitos_ne_nil _)
    | cons c r =>
      have hc := isDigit_outros c (so_digitos_digitos x.toNat c (by rw [h]; exact List.mem_cons_self _ _))
      exact ⟨c, r, rfl, hc.2.2.2.2.1, hc.2.2.2.2.2⟩

/-- The line of rule 1 read back: the numbers printed, then the terminator. -/
theorem valores_linha_regra1 (vars : List Int) :
    valores_da_linha (vars.flatMap (fun x => imprime x ++ [' ']) ++ ['0', '\n'])
      = vars ++ [0] := by
  induction vars with
  | nil => decide
  | cons x vars ih =>
    unfold valores_da_linha at ih ⊢
    rw [List.flatMap_cons, List.append_assoc, List.append_assoc, List.singleton_append,
      strtok_token _ _ _ (sem_delimitador_imprime x) (by decide) (imprime_ne_nil x),
      List.map_cons, ih, atoi_imprime]
    rfl

/-- The line `"-%d -%d 0\n"` read back. -/
theorem valores_texto_par (var1 var2 : Int) :
    valores_da_linha (texto_par var1 var2) = [menos var1, menos var2, 0] := by
  have h : texto_par var1 var2
      = ('-' :: imprime var1) ++ ' ' :: (('-' :: imprime var2) ++ ' ' :: ['0', '\n']) := by
    simp [texto_par]
  unfold valores_da_linha
  rw [h, strtok_token _ _ _ (sem_delimitador_menos var1) (by decide) (by simp),
    strtok_token _ _ _ (sem_delimitador_menos var2) (by decide) (by simp)]
  have h0 : strtok ['0', '\n'] = [['0']] := by decide
  rw [h0]
  simp only [List.map_cons, List.map_nil, atoi_menos_imprime]
  have h1 : atoi ['0'] = 0 := by decide
  rw [h1]

/-- A line that `fgets` returns whole: not empty and shorter than the buffer. -/
theorem fgets_cabe (linha : List Char) (hne : linha ≠ []) (h : linha.length < TAMANHO_LINHA) :
    fgets linha = [linha] := by
  cases linha with
  | nil => exact absurd rfl hne
  | cons c s =>
    have hlen : (c :: s).length ≤ TAMANHO_LINHA - 1 := by
      have := h
      simp only [TAMANHO_LINHA] at this ⊢
      omega
    unfold fgets
    simp only [List.length_cons, fgets_aux]
    rw [List.take_of_length_le hlen, List.drop_of_length_le hlen]
    cases s.length <;> rfl

theorem ler_pedacos_cons (N : Int) (linha : List Char) (resto : List (List Char))
    (h : linha_de_clausula linha) :
    ler_pedacos N (linha :: resto) =
      match ler_clausula N (valores_da_linha linha) with
      | none => none
      | some c => (ler_pedacos N resto).map (fun cs => c :: cs) := by
  obtain ⟨c, r, rfl, h1, h2⟩ := h
  simp only [ler_pedacos, List.head?_cons, Option.some.injEq, h1, h2, if_false, valores_da_linha]

/-- On lines that fit the buffer the reader of the text stores, for each line, the row
the token loop makes of the values of its tokens. -/
theorem ler_pedacos_cabem (N : Int) (linhas : List (List Char))
    (hc : ∀ linha ∈ linhas, linha_de_clausula linha)
    (hl : ∀ linha ∈ linhas, linha.length < TAMANHO_LINHA) :
    ler_pedacos N (linhas.flatMap fgets) = ler_linhas N (linhas.map valores_da_linha) := by
  induction linhas with
  | nil => rfl
  | cons linha resto ih =>
    have h1 := hc linha (List.mem_cons_self _ _)
    have hne : linha ≠ [] := by
      obtain ⟨c, r, rfl, _⟩ := h1
      simp
    rw [List.flatMap_cons, fgets_cabe linha hne (hl linha (List.mem_cons_self _ _)),
      List.singleton_append, ler_pedacos_cons N linha _ h1, List.map_cons, ler_linhas,
      ih (fun x hx => hc x (List.mem_cons_of_mem _ hx))
        (fun x hx => hl x (List.mem_cons_of_mem _ hx))]

theorem linha_de_clausula_regra1 (vars : List Int) :
    linha_de_clausula (vars.flatMap (fun x => imprime x ++ [' ']) ++ ['0', '\n']) := by
  cases vars with
  | nil => exact ⟨'0', ['\n'], rfl, by decide, by decide⟩
  | cons x vars =>
    obtain ⟨c, r, hcr, h1, h2⟩ := imprime_cabeca x
    refine ⟨c, r ++ [' '] ++ vars.flatMap (fun x => imprime x ++ [' ']) ++ ['0', '\n'], ?_, h1, h2⟩
    simp [List.flatMap_cons, hcr]

theorem linha_de_clausula_par (var1 var2 : Int) : linha_de_clausula (texto_par var1 var2) :=
  ⟨'-', _, rfl, by decide, by decide⟩

/-- The lines of the text of `gerarCNF`, read back token by token, are the lines of
the token-level file. -/
theorem valores_gerarCNF_texto (g : Grafo) (k : Int) :
    (gerarCNF_texto g k).linhas.map valores_da_linha = (gerarCNF g k).linhas := by
  simp only [gerarCNF_texto, gerarCNF, texto_regra1, texto_regra2, texto_regra3, regra1, regra2,
    regra3, List.map_append, List.map_map, List.map_flatMap]
  congr 1
  · congr 1
    · apply List.map_congr_left
      intro v _
      simp only [Function.comp]
      rw [← valores_linha_regra1, List.flatMap_map]
    · congr 1
      funext v
      congr 1
      funext c1
      apply List.map_congr_left
      intro c2 _
      exact valores_texto_par _ _
  · congr 1
    funext i
    apply List.map_congr_left
    intro c _
    exact valores_texto_par _ _

theorem linha_de_clausula_gerarCNF_texto (g : Grafo) (k : Int) :
    ∀ linha ∈ (gerarCNF_texto g k).linhas, linha_de_clausula linha := by
  intro linha h
  simp only [gerarCNF_texto, texto_regra1, texto_regra2, texto_regra3, List.mem_append,
    List.mem_map, List.mem_flatMap] at h
  rcases h with (⟨v, _, rfl⟩ | ⟨v, _, c1, _, c2, _, rfl⟩) | ⟨i, _, c, _, rfl⟩
  · have := linha_de_clausula_regra1 ((intervalo 1 k).map (fun c => (v - 1) * k + c))
    rw [List.flatMap_map] at this
    exact this
  · exact linha_de_clausula_par _ _
  · exact linha_de_clausula_par _ _

/-- When every line `gerarCNF` writes fits the buffer, `ler_formula` on the text
returns what the token-level reader returns on the token-level file. -/
theorem ler_formula_texto_cabe (g : Grafo) (k : Int) (h : linhas_cabem (gerarCNF_texto g k)) :
    ler_formula_texto (gerarCNF_texto g k) = ler_formula (gerarCNF g k) := by
  unfold ler_formula_texto ler_formula
  rw [ler_pedacos_cabem _ _ (linha_de_clausula_gerarCNF_texto g k) h, valores_gerarCNF_texto]
  rfl

theorem limitado_trecho (N : Int) (s u : List Char) (h : limitado N s) (hu : u <:+: s) :
    limitado N u :=
  fun t ht hd => h t (List.IsInfix.trans ht hu) hd

theorem prefix_sem_delimitador (a : List Char) (d : Char) (b t : List Char)
    (hd : delimitador d = true) (ht : sem_delimitador t) (h : t <+: a ++ d :: b) :
    t <+: a := by
  induction a generalizing t with
  | nil =>
    cases t with
    | nil => exact List.nil_prefix
    | cons c t =>
      rw [List.nil_append, List.cons_prefix_cons] at h
      have := ht c (List.mem_cons_self _ _)
      rw [h.1, hd] at this
      exact absurd this (by decide)
  | cons x a ih =>
    cases t with
    | nil => exact List.nil_prefix
    | cons c t =>
      rw [List.cons_append, List.cons_prefix_cons] at h
      rw [List.cons_prefix_cons]
      exact ⟨h.1, ih t (fun y hy => ht y (List.mem_cons_of_mem _ hy)) h.2⟩

theorem infix_sem_delimitador (a : List Char) (d : Char) (b t : List Char)
    (hd : delimitador d = true) (ht : sem_delimitador t) (h : t <:+: a ++ d :: b) :
    t <:+: a ∨ t <:+: b := by
  induction a with
  | nil =>
    rw [List.nil_append, List.infix_cons_iff] at h
    rcases h with h | h
    · left
      exact (prefix_sem_delimitador [] d b t hd ht (by simpa using h)).isInfix
    · right; exact h
  | cons x a ih =>
    rw [List.cons_append, List.infix_cons_iff] at h
    rcases h with h | h
    · left
      exact (prefix_sem_delimitador (x :: a) d b t hd ht (by simpa using h)).isInfix
    · rcases ih h with h2 | h2
      · left; exact List.infix_cons h2
      · right; exact h2

/-- Two strings joined by a delimiter: a run without delimiter lies in one of them. -/
theorem limitado_junta (N : Int) (a : List Char) (d : Char) (b : List Char)
    (hd : delimitador d = true) (ha : limitado N a) (hb : limitado N b) :
    limitado N (a ++ d :: b) := by
  intro t ht hs
  rcases infix_sem_delimitador a d b t hd hs ht with h | h
  · exact ha t h hs
  · exact hb t h hs

theorem limitado_nil (N : Int) : limitado N [] := by
  intro t ht _
  rw [List.infix_nil] at ht
  subst ht
  left; rfl

theorem valor_digitos_trecho (s t : List Char) (hs : so_digitos s) (h : t <:+: s) :
    so_digitos t ∧ valor_digitos 0 t ≤ valor_digitos 0 s := by
  obtain ⟨p, q, rfl⟩ := h
  have hp : so_digitos p := fun c hc => hs c (by simp [hc])
  have ht : so_digitos t := fun c hc => hs c (by simp [hc])
  refine ⟨ht, ?_⟩
  rw [valor_digitos_append (p ++ t) q 0 (fun c hc => hs c (by
      rcases List.mem_append.1 hc with h | h <;> simp [h])),
    valor_digitos_append p t 0 hp]
  exact Nat.le_trans (valor_digitos_mono t 0 _ (Nat.zero_le _)) (valor_digitos_ge q _)

/-- A natural number read by `atoi` that lies in `0..N` is `0` or a valid literal. -/
theorem valido_de_limite (N : Int) (v : Nat) (h : (v : Int) ≤ N) :
    Int.ofNat v = 0 ∨ literal_valido (Int.ofNat v) N = true := by
  by_cases h0 : v = 0
  · left; subst h0; rfl
  · right
    have hc : ¬ ((v : Int) < 0) := by omega
    simp only [literal_valido, c_abs, Int.ofNat_eq_coe, hc, if_false, ge_iff_le,
      Bool.and_eq_true, decide_eq_true_eq]
    omega

theorem valido_de_limite_neg (N : Int) (v : Nat) (h : (v : Int) ≤ N) :
    -Int.ofNat v = 0 ∨ literal_valido (-Int.ofNat v) N = true := by
  by_cases h0 : v = 0
  · left; subst h0; rfl
  · right
    have hc : (-(v : Int) < 0) := by omega
    simp only [literal_valido, c_abs, Int.ofNat_eq_coe, hc, if_true, ge_iff_le,
      Bool.and_eq_true, decide_eq_true_eq]
    omega

theorem limitado_digitos (N : Int) (x : Nat) (h : (x : Int) ≤ N ∨ x = 0) :
    limitado N (digitos x) := by
  intro t ht _
  obtain ⟨hd, hv⟩ := valor_digitos_trecho _ t (so_digitos_digitos x) ht
  rw [valor_digitos_digitos] at hv
  rw [atoi_so_digitos t hd]
  by_cases h0 : valor_digitos 0 t = 0
  · left; rw [h0]; rfl
  · apply valido_de_limite
    rcases h with h | h <;> omega

theorem valor_digitos_de_atoi (N : Int) (p : List Char)
    (h : atoi p = 0 ∨ literal_valido (atoi p) N = true) :
    valor_digitos 0 p = 0 ∨ (Int.ofNat (valor_digitos 0 p) ≤ N) := by
  cases p with
  | nil => left; rfl
  | cons c r =>
    by_cases hc : c.isDigit = true
    · have hc2 := isDigit_outros c hc
      have ha : atoi (c :: r) = Int.ofNat (valor_digitos 0 (c :: r)) := by
        simp only [atoi, List.dropWhile_cons, hc2.2.1, Bool.false_eq_true, if_false, hc2.2.2.1,
          hc2.2.2.2.1]
      rw [ha] at h
      rcases h with h | h
      · left
        simp only [Int.ofNat_eq_coe] at h
        omega
      · right
        simp only [literal_valido, c_abs, Int.ofNat_eq_coe, ge_iff_le, Bool.and_eq_true,
          decide_eq_true_eq] at h
        simp only [Int.ofNat_eq_coe]
        have h2 := h.2
        split at h2 <;> omega
    · left
      simp only [valor_digitos, hc, Bool.false_eq_true, if_false]

/-- A sign written before a string keeps every run readable. -/
theorem limitado_menos (N : Int) (s : List Char) (h : limitado N s) :
    limitado N ('-' :: s) := by
  intro t ht hs
  rw [List.infix_cons_iff] at ht
  rcases ht with ht | ht
  · cases t with
    | nil => left; rfl
    | cons c p =>
      rw [List.cons_prefix_cons] at ht
      obtain ⟨rfl, hp⟩ := ht
      rw [atoi_menos]
      have hp2 := h p hp.isInfix (fun y hy => hs y (List.mem_cons_of_mem _ hy))
      rcases valor_digitos_de_atoi N p hp2 with h0 | h0
      · left; rw [h0]; rfl
      · exact valido_de_limite_neg N _ (by simpa using h0)
  · exact h t ht hs

theorem limitado_imprime (N : Int) (x : Int) (h1 : -N ≤ x) (h2 : x ≤ N) :
    limitado N (imprime x) := by
  unfold imprime
  split
  · exact limitado_menos N _ (limitado_digitos N _ (by left; omega))
  · exact limitado_digitos N _ (by left; omega)

theorem limitado_fim (N : Int) : limitado N ['0', '\n'] := by
  have h : (['0', '\n'] : List Char) = digitos 0 ++ '\n' :: [] := by decide
  rw [h]
  exact limitado_junta N _ _ _ (by decide) (limitado_digitos N 0 (Or.inr rfl)) (limitado_nil N)

theorem limitado_linha_regra1 (N : Int) (vars : List Int)
    (h : ∀ x ∈ vars, -N ≤ x ∧ x ≤ N) :
    limitado N (vars.flatMap (fun x => imprime x ++ [' ']) ++ ['0', '\n']) := by
  induction vars with
  | nil => exact limitado_fim N
  | cons x vars ih =>
    rw [List.flatMap_cons, List.append_assoc, List.append_assoc, List.singleton_append]
    have hx := h x (List.mem_cons_self _ _)
    exact limitado_junta N _ _ _ (by decide) (limitado_imprime N x hx.1 hx.2)
      (ih (fun y hy => h y (List.mem_cons_of_mem _ hy)))

theorem limitado_texto_par (N : Int) (var1 var2 : Int)
    (h1 : -N ≤ var1 ∧ var1 ≤ N) (h2 : -N ≤ var2 ∧ var2 ≤ N) :
    limitado N (texto_par var1 var2) := by
  have h : texto_par var1 var2
      = ('-' :: imprime var1) ++ ' ' :: (('-' :: imprime var2) ++ ' ' :: ['0', '\n']) := by
    simp [texto_par]
  rw [h]
  exact limitado_junta N _ _ _ (by decide)
    (limitado_menos N _ (limitado_imprime N _ h1.1 h1.2))
    (limitado_junta N _ _ _ (by decide)
      (limitado_menos N _ (limitado_imprime N _ h2.1 h2.2)) (limitado_fim N))

theorem strtok_aux_trecho (s atual : List Char) (ha : sem_delimitador atual) :
    ∀ t ∈ strtok_aux s atual, t <:+: atual ++ s ∧ sem_delimitador t := by
  induction s generalizing atual with
  | nil =>
    intro t ht
    simp only [strtok_aux] at ht
    split at ht
    · simp at ht
    · simp only [List.mem_singleton] at ht
      subst ht
      exact ⟨by simp, ha⟩
  | cons c s ih =>
    intro t ht
    simp only [strtok_aux] at ht
    by_cases hc : delimitador c = true
    · simp only [hc, if_true] at ht
      have hrec : t ∈ strtok_aux s [] → t <:+: atual ++ c :: s ∧ sem_delimitador t := by
        intro h
        obtain ⟨h1, h2⟩ := ih [] (fun _ hy => by simp at hy) t h
        refine ⟨?_, h2⟩
        rw [List.nil_append] at h1
        exact List.IsInfix.trans h1 ((List.suffix_cons c s).isInfix.trans
          (List.suffix_append atual (c :: s)).isInfix)
      split at ht
      · exact hrec ht
      · rcases List.mem_cons.1 ht with h | h
        · subst h
          exact ⟨(List.prefix_append _ _).isInfix, ha⟩
        · exact hrec h
    · simp only [hc, if_false] at ht
      have hc2 : delimitador c = false := by simpa using hc
      obtain ⟨h1, h2⟩ := ih (atual ++ [c]) (by
        intro y hy
        rcases List.mem_append.1 hy with h | h
        · exact ha y h
        · simp only [List.mem_singleton] at h; subst h; exact hc2) t ht
      refine ⟨?_, h2⟩
      simpa using h1

theorem fgets_aux_trecho (tam fuel : Nat) (s : List Char) :
    ∀ p ∈ fgets_aux tam fuel s, p <:+: s := by
  induction fuel generalizing s with
  | zero => intro p hp; simp [fgets_aux] at hp
  | succ fuel ih =>
    intro p hp
    cases s with
    | nil => simp [fgets_aux] at hp
    | cons c s =>
      simp only [fgets_aux] at hp
      rcases List.mem_cons.1 hp with h | h
      · subst h
        exact ( List.take_prefix _ _).isInfix
      · exact List.IsInfix.trans (ih _ p h) ( List.drop_suffix _ _).isInfix

theorem ler_clausula_aceita (N : Int) (vs : List Int)
    (h : ∀ v ∈ vs, v = 0 ∨ literal_valido v N = true) :
    ∃ c, ler_clausula N vs = some c := by
  induction vs with
  | nil => exact ⟨[0], rfl⟩
  | cons v vs ih =>
    simp only [ler_clausula]
    by_cases h0 : v = 0
    · exact ⟨[0], by simp [h0]⟩
    · have hv : literal_valido v N = true := by
        rcases h v (List.mem_cons_self _ _) with h1 | h1
        · exact absurd h1 h0
        · exact h1
      obtain ⟨c, hc⟩ := ih (fun y hy => h y (List.mem_cons_of_mem _ hy))
      exact ⟨v :: c, by simp [h0, hv, hc]⟩

/-- On pieces in which every run without delimiter is `0` or a valid literal, the line
loop of `ler_formula` never reaches `return NULL`. -/
theorem ler_pedacos_aceita (N : Int) (ps : List (List Char)) (h : ∀ p ∈ ps, limitado N p) :
    ∃ cs, ler_pedacos N ps = some cs := by
  induction ps with
  | nil => exact ⟨[], rfl⟩
  | cons p ps ih =>
    obtain ⟨cs, hcs⟩ := ih (fun y hy => h y (List.mem_cons_of_mem _ hy))
    simp only [ler_pedacos]
    split
    · exact ⟨cs, hcs⟩
    · split
      · exact ⟨cs, hcs⟩
      · have hp := h p (List.mem_cons_self _ _)
        obtain ⟨c, hc⟩ := ler_clausula_aceita N ((strtok p).map atoi) (by
          intro v hv
          obtain ⟨t, ht, rfl⟩ := List.mem_map.1 hv
          obtain ⟨h1, h2⟩ := strtok_aux_trecho p [] (fun _ hy => by simp at hy) t ht
          rw [List.nil_append] at h1
          exact hp t h1 h2)
        exact ⟨c :: cs, by simp [hc, hcs]⟩

/-- When every line of the text is made of readable runs, `ler_formula` accepts the
file, whatever the length of its lines. -/
theorem ler_formula_texto_aceita (a : ArquivoTexto)
    (h : ∀ linha ∈ a.linhas, limitado a.num_vars linha) :
    ∃ f, ler_formula_texto a = some f := by
  obtain ⟨cs, hcs⟩ := ler_pedacos_aceita a.num_vars (a.linhas.flatMap fgets) (by
    intro p hp
    obtain ⟨linha, hl, hp2⟩ := List.mem_flatMap.1 hp
    exact limitado_trecho _ _ _ (h linha hl) (fgets_aux_trecho _ _ _ p hp2))
  exact ⟨⟨cs, a.num_clauses, a.num_vars⟩, by simp [ler_formula_texto, hcs]⟩

/-- While every line written fits the buffer, the driver on the text does what the
driver on the token-level file does. -/
theorem teste_iterativo_texto_laco_cabe (g : Grafo) :
    ∀ (fuel : Nat) (k0 : Int),
      (∀ k, k0 ≤ k → k ≤ g.n_vertices → linhas_cabem (gerarCNF_texto g k)) →
      teste_iterativo_texto_laco fuel g k0 = teste_iterativo_laco fuel g k0 := by
  intro fuel
  induction fuel with
  | zero => intro k0 _; rfl
  | succ fuel ih =>
    intro k0 h
    rw [teste_iterativo_texto_laco, teste_iterativo_laco]
    by_cases hle : k0 ≤ g.n_vertices
    · rw [if_pos hle, if_pos hle, ler_formula_texto_cabe g k0 (h k0 (le_refl _) hle),
        ih (k0 + 1) (fun k h1 h2 => h k (by omega) h2)]
    · rw [if_neg hle, if_neg hle]

theorem length_digitos_rev (fuel : Nat) :
    ∀ (x d : Nat), x < 10 ^ (d + 1) → (digitos_rev fuel x).length ≤ d + 1 := by
  induction fuel with
  | zero => intro x d _; simp [digitos_rev]
  | succ fuel ih =>
    intro x d h
    simp only [digitos_rev]
    split
    · simp
    · cases d with
      | zero => simp at h; omega
      | succ d =>
        have h2 : x / 10 < 10 ^ (d + 1) := by
          rw [Nat.div_lt_iff_lt_mul (by decide)]
          rw [pow_succ] at h
          exact h
        have := ih (x / 10) d h2
        simp only [List.length_cons]
        omega

/-- A value of a C `int` that is not negative is printed with at most ten characters. -/
theorem length_imprime (x : Int) (h0 : 0 ≤ x) (h1 : x ≤ INT_MAX) :
    (imprime x).length ≤ 10 := by
  unfold imprime digitos
  rw [if_neg (by omega), List.length_map, List.length_reverse]
  apply length_digitos_rev _ _ 9
  have : x.toNat ≤ 2147483647 := by
    unfold INT_MAX at h1
    omega
  omega

theorem length_texto_par (var1 var2 : Int) (h1 : 0 ≤ var1) (h2 : var1 ≤ INT_MAX)
    (h3 : 0 ≤ var2) (h4 : var2 ≤ INT_MAX) :
    (texto_par var1 var2).length < TAMANHO_LINHA := by
  have a := length_imprime var1 h1 h2
  have b := length_imprime var2 h3 h4
  simp only [texto_par, List.length_cons, List.length_append, List.length_nil, TAMANHO_LINHA]
  omega

/-! ## Lines that fit the buffer -/

theorem length_linha_regra1 (vars : List Int) (h : ∀ x ∈ vars, 0 ≤ x ∧ x ≤ INT_MAX) :
    (vars.flatMap (fun x => imprime x ++ [' ']) ++ ['0', '\n']).length
      ≤ 11 * vars.length + 2 := by
  induction vars with
  | nil => simp
  | cons x vars ih =>
    have hx := h x (List.mem_cons_self _ _)
    have a := length_imprime x hx.1 hx.2
    have b := ih (fun y hy => h y (List.mem_cons_of_mem _ hy))
    simp only [List.flatMap_cons, List.length_append, List.length_cons, List.length_nil] at b ⊢
    omega

/-- With at most 90 colours and variables that are values of a C `int`, every line
`gerarCNF` writes fits the buffer of `ler_formula`: a number takes at most ten
characters, so a line of rule 1 has at most `11 * 90 + 2` characters. -/
theorem linhas_cabem_gerarCNF_texto (g : Grafo) (k : Int) (hk : 1 ≤ k) (hk90 : k ≤ 90)
    (hint : g.n_vertices * k ≤ INT_MAX) (hd : arestas_dentro g) :
    linhas_cabem (gerarCNF_texto g k) := by
  intro linha h
  have lim : ∀ v c, 1 ≤ v → v ≤ g.n_vertices → 1 ≤ c → c ≤ k →
      0 ≤ (v - 1) * k + c ∧ (v - 1) * k + c ≤ INT_MAX := by
    intro v c hv1 hv2 hc1 hc2
    have p := var_pos hk hv1 hc1
    have q := var_le hk hv2 hc2
    exact ⟨by omega, by omega⟩
  simp only [gerarCNF_texto, texto_regra1, texto_regra2, texto_regra3, List.mem_append,
    List.mem_map, List.mem_flatMap, mem_intervalo, List.mem_range] at h
  rcases h with (⟨v, ⟨hv1, hv2⟩, rfl⟩ | ⟨v, ⟨hv1, hv2⟩, c1, ⟨h1, h2⟩, c2, ⟨h3, h4⟩, rfl⟩) |
    ⟨i, hi, c, ⟨hc1, hc2⟩, rfl⟩
  · have := length_linha_regra1 ((intervalo 1 k).map (fun c => (v - 1) * k + c)) (by
        intro x hx
        simp only [List.mem_map, mem_intervalo] at hx
        obtain ⟨c, ⟨hc1, hc2⟩, rfl⟩ := hx
        exact lim v c hv1 hv2 hc1 hc2)
    rw [List.flatMap_map, List.length_map, length_intervalo] at this
    have hl : (k + 1 - 1).toNat ≤ 90 := by omega
    simp only [TAMANHO_LINHA]
    omega
  · exact length_texto_par _ _ (lim v c1 hv1 hv2 h1 h2).1 (lim v c1 hv1 hv2 h1 h2).2
      (lim v c2 hv1 hv2 (by omega) h4).1 (lim v c2 hv1 hv2 (by omega) h4).2
  · obtain ⟨ha1, ha2, hb1, hb2⟩ := hd _ ((mem_arestas_de g _).mpr ⟨i, hi, rfl⟩)
    exact length_texto_par _ _ (lim _ c (by omega) (by omega) hc1 hc2).1
      (lim _ c (by omega) (by omega) hc1 hc2).2 (lim _ c (by omega) (by omega) hc1 hc2).1
      (lim _ c (by omega) (by omega) hc1 hc2).2

theorem linhas_cabem_pequeno (g : Grafo) (hn : g.n_vertices ≤ 90) (hd : arestas_dentro g) :
    ∀ k, 1 ≤ k → k ≤ g.n_vertices → linhas_cabem (gerarCNF_texto g k) := by
  intro k h1 h2
  apply linhas_cabem_gerarCNF_texto g k h1 (by omega) ?_ hd
  have : g.n_vertices * k ≤ 90 * 90 := mul_le_mul hn (by omega) (by omega) (by omega)
  unfold INT_MAX
  omega

set_option maxRecDepth 1000000 in
/-- With five vertices and 223 colours the fifth line of rule 1 has 1010 characters. -/
theorem texto_regra1_comprimentos :
    (texto_regra1 5 223).map List.length = [786, 894, 894, 894, 1010] := by
  decide

set_option maxRecDepth 1000000 in
/-- The line loop of `ler_formula` on the fifth line of rule 1 for five vertices and 223
colours: `fgets` cuts the line after the first `1` of `1114`, and two rows are stored,
the variables 893 to 1113 followed by the literal `1`, and the literals `114` and
`1115`, instead of the one row with the variables 893 to 1115. -/
theorem ler_pedacos_corte :
    ler_pedacos 1115 (((texto_regra1 5 223).drop 4).flatMap fgets) =
      some linhas_cortadas := by
  rfl


/-! ## The encoder's file: text, rows and the reduction -/

/-- Every row the line loop of `ler_formula` stores holds only literals accepted by
`literal_valido`. -/
theorem ler_pedacos_some (N : Int) (ps : List (List Char)) :
    ∀ cs, ler_pedacos N ps = some cs →
      ∀ c ∈ cs, ∀ l ∈ literais c, literal_valido l N = true := by
  induction ps with
  | nil =>
    intro cs h c hc
    simp only [ler_pedacos, Option.some.injEq] at h
    subst h
    simp at hc
  | cons p ps ih =>
    intro cs h
    simp only [ler_pedacos] at h
    split at h
    · exact ih cs h
    · split at h
      · exact ih cs h
      · cases hc : ler_clausula N ((strtok p).map atoi) with
        | none => rw [hc] at h; simp at h
        | some c0 =>
          rw [hc] at h
          simp only [Option.map_eq_some'] at h
          obtain ⟨cs0, hcs0, rfl⟩ := h
          obtain ⟨rfl, hv⟩ := ler_clausula_some N _ c0 hc
          intro c hmem l hl
          rcases List.mem_cons.1 hmem with h1 | h1
          · subst h1
            rw [literais_normal] at hl
            exact hv l hl
          · exact ih cs0 hcs0 c h1 l hl

/-- What `ler_formula` returns on a text: the two numbers of the header, and rows whose
literals all pass `literal_valido`. -/
theorem ler_formula_texto_some (a : ArquivoTexto) (f : Formula)
    (h : ler_formula_texto a = some f) :
    f.num_literais = a.num_vars ∧ f.num_clausulas = a.num_clauses ∧ bem_formada f ∧
      ∀ c ∈ f.clausulas, ∀ l ∈ literais c, literal_valido l f.num_literais = true := by
  unfold ler_formula_texto at h
  simp only [Option.map_eq_some'] at h
  obtain ⟨cs, hcs, rfl⟩ := h
  have hv := ler_pedacos_some _ _ cs hcs
  refine ⟨rfl, rfl, ?_, hv⟩
  intro c hc l hl
  exact hv c (List.mem_of_mem_take hc) l hl

theorem limitado_gerarCNF_texto (g : Grafo) (k : Int) (hk : 1 ≤ k) (hd : arestas_dentro g) :
    ∀ linha ∈ (gerarCNF_texto g k).linhas, limitado (g.n_vertices * k) linha := by
  intro linha h
  have lim : ∀ v c, 1 ≤ v → v ≤ g.n_vertices → 1 ≤ c → c ≤ k →
      -(g.n_vertices * k) ≤ (v - 1) * k + c ∧ (v - 1) * k + c ≤ g.n_vertices * k := by
    intro v c hv1 hv2 hc1 hc2
    have p := var_pos hk hv1 hc1
    have q := var_le hk hv2 hc2
    exact ⟨by omega, q⟩
  simp only [gerarCNF_texto, texto_regra1, texto_regra2, texto_regra3, List.mem_append,
    List.mem_map, List.mem_flatMap, mem_intervalo, List.mem_range] at h
  rcases h with (⟨v, ⟨hv1, hv2⟩, rfl⟩ | ⟨v, ⟨hv1, hv2⟩, c1, ⟨h1, h2⟩, c2, ⟨h3, h4⟩, rfl⟩) |
    ⟨i, hi, c, ⟨hc1, hc2⟩, rfl⟩
  · have := limitado_linha_regra1 (g.n_vertices * k)
      ((intervalo 1 k).map (fun c => (v - 1) * k + c)) (by
        intro x hx
        simp only [List.mem_map, mem_intervalo] at hx
        obtain ⟨c, ⟨hc1, hc2⟩, rfl⟩ := hx
        exact lim v c hv1 hv2 hc1 hc2)
    rw [List.flatMap_map] at this
    exact this
  · exact limitado_texto_par _ _ _ (lim v c1 hv1 hv2 h1 h2) (lim v c2 hv1 hv2 (by omega) h4)
  · obtain ⟨ha1, ha2, hb1, hb2⟩ := hd _ ((mem_arestas_de g _).mpr ⟨i, hi, rfl⟩)
    exact limitado_texto_par _ _ _ (lim _ c (by omega) (by omega) hc1 hc2)
      (lim _ c (by omega) (by omega) hc1 hc2)

theorem satisfaz_formula_do_arquivo (a : ArquivoCNF) (I : Int → Int)
    (hcount : a.num_clauses.toNat = a.linhas.length) :
    satisfaz (formula_do_arquivo a) I ↔
      ∀ linha ∈ a.linhas, clausula_satisfeita linha I = true := by
  unfold satisfaz clausulas_de formula_do_arquivo
  simp only [hcount]
  rw [List.take_of_length_le (le_refl _)]
  simp only [clausula_satisfeita_iff]

/-- The formula of the file of `gerarCNF g k` is satisfiable exactly when the graph has
a proper colouring with `k` colours. -/
theorem formula_do_arquivo_reducao (g : Grafo) (k : Int) (hn : 0 ≤ g.n_vertices)
    (hm : 0 ≤ g.m_arestas) (hd : arestas_dentro g) (hk : 1 ≤ k) :
    (∃ I, formula_satisfativel (formula_do_arquivo (gerarCNF g k)) I = true) ↔
      ∃ cor, coloracao_propria g k cor := by
  have hcount := gerarCNF_contagem_toNat g k hn hm hk
  obtain ⟨f, hf⟩ := ler_formula_gerarCNF g k hk hd
  have igual : ∀ I, satisfaz (formula_do_arquivo (gerarCNF g k)) I ↔ satisfaz f I := by
    intro I
    rw [satisfaz_formula_do_arquivo _ I hcount, satisfaz_ler_formula _ f I hf hcount]
  constructor
  · rintro ⟨I, hI⟩
    exact ⟨_, coloracao_de_satisfaz g k f I hn hm hk hd hf
      ((igual I).mp ((formula_satisfativel_iff _ I).mp hI))⟩
  · rintro ⟨cor, hcor⟩
    exact ⟨_, (formula_satisfativel_iff _ _).mpr
      ((igual _).mpr (satisfaz_de_coloracao g k f cor hn hm hk hd hf hcor).1)⟩

/-- C3: for a graph with `n ≥ 0` vertices, `m ≥ 0` edges stored with endpoints in
`0..n-1`, and `k ≥ 1`: the clause lines `gerarCNF` writes, read token by token, are the
rows of the formula of the file, the header counts exactly these rows, and this formula
is satisfiable exactly when the graph has a proper colouring with `k` colours. -/
theorem gerarCNF_reducao_arquivo (g : Grafo) (k : Int) (hn : 0 ≤ g.n_vertices)
    (hm : 0 ≤ g.m_arestas) (hd : arestas_dentro g) (hk : 1 ≤ k) :
    (gerarCNF_texto g k).linhas.map valores_da_linha =
        (formula_do_arquivo (gerarCNF g k)).clausulas ∧
      clausulas_de (formula_do_arquivo (gerarCNF g k)) =
        (formula_do_arquivo (gerarCNF g k)).clausulas ∧
      ((∃ I, formula_satisfativel (formula_do_arquivo (gerarCNF g k)) I = true) ↔
        ∃ cor, coloracao_propria g k cor) := by
  have hcount := gerarCNF_contagem_toNat g k hn hm hk
  refine ⟨valores_gerarCNF_texto g k, ?_, formula_do_arquivo_reducao g k hn hm hd hk⟩
  unfold clausulas_de formula_do_arquivo
  simp only [hcount]
  exact List.take_of_length_le (le_refl _)

theorem gerarCNF_reducao_arquivo_witness :
    (0 : Int) ≤ grafo_triangulo.n_vertices ∧ (0 : Int) ≤ grafo_triangulo.m_arestas ∧
    arestas_dentro grafo_triangulo ∧ (1 : Int) ≤ 3 ∧
    ((gerarCNF_texto grafo_triangulo 3).linhas.map valores_da_linha =
        (formula_do_arquivo (gerarCNF grafo_triangulo 3)).clausulas ∧
      clausulas_de (formula_do_arquivo (gerarCNF grafo_triangulo 3)) =
        (formula_do_arquivo (gerarCNF grafo_triangulo 3)).clausulas ∧
      ((∃ I, formula_satisfativel (formula_do_arquivo (gerarCNF grafo_triangulo 3)) I = true) ↔
        ∃ cor, coloracao_propria grafo_triangulo 3 cor)) :=
  ⟨by decide, by decide, arestas_dentro_triangulo, by decide,
    gerarCNF_reducao_arquivo grafo_triangulo 3 (by decide) (by decide)
      arestas_dentro_triangulo (by decide)⟩

/-- C16: for `k ≥ 1` the first `n` lines written by `gerarCNF` are, for `v = 1..n` in
order, the `k` positive literals `(v-1)*k+1, ..., (v-1)*k+k` in increasing colour order
followed by the terminator; this holds of the token-level file and of the text read
token by token. -/
theorem regra1_cobertura_texto (g : Grafo) (k : Int) (hk : 1 ≤ k) :
    (gerarCNF g k).linhas.take g.n_vertices.toNat =
        (intervalo 1 g.n_vertices).map
          (fun v => (intervalo 1 k).map (fun c => (v - 1) * k + c) ++ [0]) ∧
      ((gerarCNF g k).linhas.take g.n_vertices.toNat).map literais =
        (intervalo 1 g.n_vertices).map
          (fun v => (intervalo 1 k).map (fun c => (v - 1) * k + c)) ∧
      (∀ v, 1 ≤ v → v ≤ g.n_vertices →
        ((intervalo 1 k).map (fun c => (v - 1) * k + c)).length = k.toNat ∧
        ∀ l ∈ (intervalo 1 k).map (fun c => (v - 1) * k + c), 0 < l) ∧
      ((gerarCNF_texto g k).linhas.take g.n_vertices.toNat).map valores_da_linha =
        (intervalo 1 g.n_vertices).map
          (fun v => (intervalo 1 k).map (fun c => (v - 1) * k + c) ++ [0]) := by
  have hlit : (regra1 g.n_vertices k).map literais =
      (intervalo 1 g.n_vertices).map
        (fun v => (intervalo 1 k).map (fun c => (v - 1) * k + c)) := by
    unfold regra1
    rw [List.map_map]
    apply List.map_congr_left
    intro v hv
    exact literais_regra1 k v hk (mem_intervalo.mp hv).1
  refine ⟨linhas_take_regra1 g k, ?_, ?_, ?_⟩
  · rw [linhas_take_regra1]; exact hlit
  · intro v hv _
    constructor
    · rw [List.length_map, length_intervalo]; congr 1; omega
    · intro l hl
      simp only [List.mem_map, mem_intervalo] at hl
      obtain ⟨c, ⟨h1, _⟩, rfl⟩ := hl
      have := var_pos hk hv h1
      omega
  · rw [List.map_take, valores_gerarCNF_texto]
    exact linhas_take_regra1 g k

theorem regra1_cobertura_texto_witness :
    (1 : Int) ≤ 3 ∧
    ((gerarCNF grafo_triangulo 3).linhas.take grafo_triangulo.n_vertices.toNat =
        (intervalo 1 grafo_triangulo.n_vertices).map
          (fun v => (intervalo 1 3).map (fun c => (v - 1) * 3 + c) ++ [0]) ∧
      ((gerarCNF grafo_triangulo 3).linhas.take grafo_triangulo.n_vertices.toNat).map literais =
        (intervalo 1 grafo_triangulo.n_vertices).map
          (fun v => (intervalo 1 3).map (fun c => (v - 1) * 3 + c)) ∧
      (∀ v, 1 ≤ v → v ≤ grafo_triangulo.n_vertices →
        ((intervalo 1 3).map (fun c => (v - 1) * 3 + c)).length = (3 : Int).toNat ∧
        ∀ l ∈ (intervalo 1 3).map (fun c => (v - 1) * 3 + c), 0 < l) ∧
      ((gerarCNF_texto grafo_triangulo 3).linhas.take grafo_triangulo.n_vertices.toNat).map
          valores_da_linha =
        (intervalo 1 grafo_triangulo.n_vertices).map
          (fun v => (intervalo 1 3).map (fun c => (v - 1) * 3 + c) ++ [0])) :=
  ⟨by decide, regra1_cobertura_texto grafo_triangulo 3 (by decide)⟩

/-- C19: for a graph whose stored edges have endpoints in `0..n-1` and `k ≥ 1`, every
line written by `gerarCNF` is a list of literals followed by the terminator, every
literal `l` is non-zero with `1 ≤ |l| ≤ n*k`, `literal_valido` accepts it against the
declared variable count, and `ler_formula` does not reject the text, whatever the
length of its lines: the formula it returns has only literals that `literal_valido`
accepts, and when every line fits the buffer its rows are the lines written. -/
theorem gerarCNF_texto_invariante (g : Grafo) (k : Int) (hk : 1 ≤ k)
    (hd : arestas_dentro g) :
    (gerarCNF_texto g k).linhas.map valores_da_linha = (gerarCNF g k).linhas ∧
      (∀ linha ∈ (gerarCNF g k).linhas,
        linha = literais linha ++ [0] ∧
        ∀ l ∈ literais linha, l ≠ 0 ∧ 1 ≤ |l| ∧ |l| ≤ g.n_vertices * k ∧
          literal_valido l (gerarCNF_texto g k).num_vars = true) ∧
      (gerarCNF_texto g k).num_vars = g.n_vertices * k ∧
      (∃ f, ler_formula_texto (gerarCNF_texto g k) = some f) ∧
      (∀ f, ler_formula_texto (gerarCNF_texto g k) = some f →
        f.num_literais = g.n_vertices * k ∧ bem_formada f ∧
        (∀ c ∈ f.clausulas, ∀ l ∈ literais c, literal_valido l f.num_literais = true) ∧
        (linhas_cabem (gerarCNF_texto g k) → f.clausulas = (gerarCNF g k).linhas)) := by
  obtain ⟨f0, hf0⟩ := ler_formula_gerarCNF g k hk hd
  obtain ⟨-, hv⟩ := ler_formula_some _ f0 hf0
  have hterm := linhas_gerarCNF_terminadas g k hk hd
  refine ⟨valores_gerarCNF_texto g k, ?_, rfl,
    ler_formula_texto_aceita _ (limitado_gerarCNF_texto g k hk hd), ?_⟩
  · intro linha hl
    refine ⟨hterm linha hl, ?_⟩
    intro l hlit
    have hval := hv linha hl l hlit
    obtain ⟨h1, h2⟩ := (literal_valido_abs _ _).mp hval
    exact ⟨literais_ne_zero linha l hlit, h1, h2, hval⟩
  · intro f hf
    obtain ⟨e1, -, hb, hl⟩ := ler_formula_texto_some _ f hf
    refine ⟨e1, hb, hl, ?_⟩
    intro hcabe
    rw [ler_formula_texto_cabe g k hcabe, hf0] at hf
    obtain ⟨rfl, -⟩ := ler_formula_some _ f0 hf0
    cases hf
    simp only
    conv_rhs => rw [← List.map_id (gerarCNF g k).linhas]
    apply List.map_congr_left
    intro linha hlin
    exact (hterm linha hlin).symm

theorem gerarCNF_texto_invariante_witness :
    (1 : Int) ≤ 3 ∧ arestas_dentro grafo_triangulo ∧
    ((gerarCNF_texto grafo_triangulo 3).linhas.map valores_da_linha =
        (gerarCNF grafo_triangulo 3).linhas ∧
      (∀ linha ∈ (gerarCNF grafo_triangulo 3).linhas,
        linha = literais linha ++ [0] ∧
        ∀ l ∈ literais linha, l ≠ 0 ∧ 1 ≤ |l| ∧ |l| ≤ grafo_triangulo.n_vertices * 3 ∧
          literal_valido l (gerarCNF_texto grafo_triangulo 3).num_vars = true) ∧
      (gerarCNF_texto grafo_triangulo 3).num_vars = grafo_triangulo.n_vertices * 3 ∧
      (∃ f, ler_formula_texto (gerarCNF_texto grafo_triangulo 3) = some f) ∧
      (∀ f, ler_formula_texto (gerarCNF_texto grafo_triangulo 3) = some f →
        f.num_literais = grafo_triangulo.n_vertices * 3 ∧ bem_formada f ∧
        (∀ c ∈ f.clausulas, ∀ l ∈ literais c, literal_valido l f.num_literais = true) ∧
        (linhas_cabem (gerarCNF_texto grafo_triangulo 3) →
          f.clausulas = (gerarCNF grafo_triangulo 3).linhas))) :=
  ⟨by decide, arestas_dentro_triangulo,
    gerarCNF_texto_invariante grafo_triangulo 3 (by decide) arestas_dentro_triangulo⟩

/-! ## The decoded colouring when the text fits the buffer -/

/-- Adjacency-safety on the text that fits: when every line `gerarCNF` writes for `k`
fits the buffer of `ler_formula` and
`SAT` succeeds on the formula read from the text, the pairs printed by the decode loop
never give the same colour to the two endpoints `a + 1`, `b + 1` of a stored edge
`(a, b)`. -/
theorem coloracao_encontrada_adjacencia_texto (g : Grafo) (k : Int) (f : Formula)
    (r : Saida) (hm : 0 ≤ g.m_arestas) (hcabe : linhas_cabem (gerarCNF_texto g k))
    (hf : ler_formula_texto (gerarCNF_texto g k) = some f)
    (hr : SAT f interpretacao_inicial no_vazio = some r) (hret : r.ret = true) :
    ∀ e ∈ arestas_de g, ∀ c1 c2,
      (e.1 + 1, c1) ∈ coloracao_encontrada g.n_vertices k r.interpretacao →
      (e.2 + 1, c2) ∈ coloracao_encontrada g.n_vertices k r.interpretacao → c1 ≠ c2 := by
  rw [ler_formula_texto_cabe g k hcabe] at hf
  exact coloracao_encontrada_adjacencia g k f r hm hf hr hret

theorem linhas_cabem_aresta : linhas_cabem (gerarCNF_texto grafo_aresta 2) := by
  unfold linhas_cabem; decide

theorem coloracao_encontrada_adjacencia_texto_witness :
    ∃ f r, (0 : Int) ≤ grafo_aresta.m_arestas ∧
      linhas_cabem (gerarCNF_texto grafo_aresta 2) ∧
      ler_formula_texto (gerarCNF_texto grafo_aresta 2) = some f ∧
      SAT f interpretacao_inicial no_vazio = some r ∧ r.ret = true ∧
      coloracao_encontrada grafo_aresta.n_vertices 2 r.interpretacao = [(1, 1), (2, 2)] ∧
      ∀ e ∈ arestas_de grafo_aresta, ∀ c1 c2,
        (e.1 + 1, c1) ∈ coloracao_encontrada grafo_aresta.n_vertices 2 r.interpretacao →
        (e.2 + 1, c2) ∈ coloracao_encontrada grafo_aresta.n_vertices 2 r.interpretacao →
        c1 ≠ c2 :=
  ⟨_, _, by decide, linhas_cabem_aresta, rfl, rfl, rfl, by decide,
    coloracao_encontrada_adjacencia_texto grafo_aresta 2 _ _ (by decide)
      linhas_cabem_aresta rfl rfl rfl⟩

/-- Totality and exclusivity on the text that fits: when every line `gerarCNF` writes
for `k ≥ 1` fits the buffer of `ler_formula`
and `SAT` succeeds on the formula read from the text starting from the all-zero array,
every vertex `v` in `1..n` has exactly one colour `c` in `1..k` with
`interpretacao[(v-1)*k+c] == 1`, and the decode loop prints exactly one pair for each
vertex `1..n`, in order. -/
theorem coloracao_encontrada_total_texto (g : Grafo) (k : Int) (f : Formula) (r : Saida)
    (hm : 0 ≤ g.m_arestas) (hk : 1 ≤ k) (hcabe : linhas_cabem (gerarCNF_texto g k))
    (hf : ler_formula_texto (gerarCNF_texto g k) = some f)
    (hr : SAT f interpretacao_inicial no_vazio = some r) (hret : r.ret = true) :
    (∀ v, 1 ≤ v → v ≤ g.n_vertices →
        ∃! c, (1 ≤ c ∧ c ≤ k) ∧ r.interpretacao ((v - 1) * k + c) = 1) ∧
      (coloracao_encontrada g.n_vertices k r.interpretacao).map Prod.fst =
        intervalo 1 g.n_vertices := by
  rw [ler_formula_texto_cabe g k hcabe] at hf
  exact coloracao_encontrada_total g k f r hm hk hf hr hret

theorem coloracao_encontrada_total_texto_witness :
    ∃ f r, (0 : Int) ≤ grafo_aresta.m_arestas ∧ (1 : Int) ≤ 2 ∧
      linhas_cabem (gerarCNF_texto grafo_aresta 2) ∧
      ler_formula_texto (gerarCNF_texto grafo_aresta 2) = some f ∧
      SAT f interpretacao_inicial no_vazio = some r ∧ r.ret = true ∧
      ((∀ v, 1 ≤ v → v ≤ grafo_aresta.n_vertices →
          ∃! c, (1 ≤ c ∧ c ≤ 2) ∧ r.interpretacao ((v - 1) * 2 + c) = 1) ∧
        (coloracao_encontrada grafo_aresta.n_vertices 2 r.interpretacao).map Prod.fst =
          intervalo 1 grafo_aresta.n_vertices) :=
  ⟨_, _, by decide, by decide, linhas_cabem_aresta, rfl, rfl, rfl,
    coloracao_encontrada_total_texto grafo_aresta 2 _ _ (by decide) (by decide)
      linhas_cabem_aresta rfl rfl rfl⟩

/-- Lexicographic minimality on the text that fits: for a graph with edges inside the
vertex range and `k ≥ 1` such that every
line `gerarCNF` writes fits the buffer of `ler_formula` and `SAT` succeeds from the
all-zero array on the formula read from the text, the decoded colours are the first in
lexicographic order among the proper colourings with `k` colours: for every proper
colouring that agrees with the printed colours on all vertices before `v`, the printed
colour of `v` is at most the colour it gives to `v`; in particular vertex 1 is printed
with colour 1. -/
theorem coloracao_encontrada_lex_texto (g : Grafo) (k : Int) (f : Formula) (r : Saida)
    (hn : 0 ≤ g.n_vertices) (hm : 0 ≤ g.m_arestas) (hk : 1 ≤ k) (hd : arestas_dentro g)
    (hcabe : linhas_cabem (gerarCNF_texto g k))
    (hf : ler_formula_texto (gerarCNF_texto g k) = some f)
    (hr : SAT f interpretacao_inicial no_vazio = some r) (hret : r.ret = true) :
    (∀ cor, coloracao_propria g k cor →
        ∀ v c, (v, c) ∈ coloracao_encontrada g.n_vertices k r.interpretacao →
          (∀ u cu, u < v →
            (u, cu) ∈ coloracao_encontrada g.n_vertices k r.interpretacao → cor u = cu) →
          c ≤ cor v) ∧
      (1 ≤ g.n_vertices →
        (1, 1) ∈ coloracao_encontrada g.n_vertices k r.interpretacao) := by
  rw [ler_formula_texto_cabe g k hcabe] at hf
  exact coloracao_encontrada_lex g k f r hn hm hk hd hf hr hret

theorem coloracao_encontrada_lex_texto_witness :
    ∃ f r, (0 : Int) ≤ grafo_aresta.n_vertices ∧ (0 : Int) ≤ grafo_aresta.m_arestas ∧
      (1 : Int) ≤ 2 ∧ arestas_dentro grafo_aresta ∧
      linhas_cabem (gerarCNF_texto grafo_aresta 2) ∧
      ler_formula_texto (gerarCNF_texto grafo_aresta 2) = some f ∧
      SAT f interpretacao_inicial no_vazio = some r ∧ r.ret = true ∧
      coloracao_encontrada grafo_aresta.n_vertices 2 r.interpretacao = [(1, 1), (2, 2)] ∧
      ((∀ cor, coloracao_propria grafo_aresta 2 cor →
          ∀ v c, (v, c) ∈ coloracao_encontrada grafo_aresta.n_vertices 2 r.interpretacao →
            (∀ u cu, u < v →
              (u, cu) ∈ coloracao_encontrada grafo_aresta.n_vertices 2 r.interpretacao →
              cor u = cu) →
            c ≤ cor v) ∧
        (1 ≤ grafo_aresta.n_vertices →
          (1, 1) ∈ coloracao_encontrada grafo_aresta.n_vertices 2 r.interpretacao)) :=
  ⟨_, _, by decide, by decide, by decide, arestas_dentro_aresta, linhas_cabem_aresta, rfl,
    rfl, rfl, by decide,
    coloracao_encontrada_lex_texto grafo_aresta 2 _ _ (by decide) (by decide) (by decide)
      arestas_dentro_aresta linhas_cabem_aresta rfl rfl rfl⟩

/-! ## The colouring the iterative driver prints -/

theorem ler_clausula_rejeita (N : Int) (vs : List Int) (l : Int) (hl : l ∈ literais vs)
    (hinv : literal_valido l N = false) : ler_clausula N vs = none := by
  cases h : ler_clausula N vs with
  | none => rfl
  | some c =>
    obtain ⟨-, hv⟩ := ler_clausula_some N vs c h
    rw [hv l hl] at hinv
    cases hinv

/-- One piece whose token loop reaches `return NULL` makes the whole reading fail. -/
theorem ler_pedacos_rejeita (N : Int) (ps : List (List Char)) (p : List Char)
    (hp : p ∈ ps) (hc : linha_de_clausula p)
    (hr : ler_clausula N (valores_da_linha p) = none) : ler_pedacos N ps = none := by
  induction ps with
  | nil => simp at hp
  | cons q ps ih =>
    rcases List.mem_cons.1 hp with h | h
    · subst h
      rw [ler_pedacos_cons N p ps hc, hr]
    · have hrec := ih h
      simp only [ler_pedacos, hrec, Option.map_none']
      split
      · rfl
      · split
        · rfl
        · split <;> rfl

/-- A clause line that fits the buffer and has an invalid literal before its first `0`
makes `ler_formula` return `NULL`. -/
theorem ler_formula_texto_none (a : ArquivoTexto) (linha : List Char) (l : Int)
    (hlinha : linha ∈ a.linhas) (hcl : linha_de_clausula linha)
    (hcabe : linha.length < TAMANHO_LINHA)
    (hl : l ∈ literais (valores_da_linha linha))
    (hinv : literal_valido l a.num_vars = false) : ler_formula_texto a = none := by
  have hne : linha ≠ [] := by
    obtain ⟨c, r, rfl, _⟩ := hcl
    simp
  have hmem : linha ∈ a.linhas.flatMap fgets :=
    List.mem_flatMap.2 ⟨linha, hlinha, by rw [fgets_cabe linha hne hcabe]; simp⟩
  unfold ler_formula_texto
  rw [ler_pedacos_rejeita _ _ linha hmem hcl (ler_clausula_rejeita _ _ l hl hinv)]
  rfl

/-- C29 (amended): for a graph with `n ≥ 1` vertices whose stored edges all have both
endpoints in `0..n-1` and that stores a self-loop `(a, a)`: the formula of the file
`gerarCNF` writes is unsatisfiable for every `k ≥ 1`; at every `k ≥ 1` whose lines all
fit the buffer of `ler_formula`, `SAT` on the formula read from the text returns false;
and when this holds of every `k` in `1..n`, as it does for `n ≤ 90`, the iterative
driver ends with the final message, without a colouring. -/
theorem laco_sem_coloracao_texto (g : Grafo) (hn : 1 ≤ g.n_vertices)
    (hm : 0 ≤ g.m_arestas) (hd : arestas_dentro g)
    (hlaco : ∃ e ∈ arestas_de g, e.1 = e.2) :
    (∀ k, 1 ≤ k →
        ¬ ∃ I, formula_satisfativel (formula_do_arquivo (gerarCNF g k)) I = true) ∧
      (∀ k, 1 ≤ k → linhas_cabem (gerarCNF_texto g k) →
        ∃ f r, ler_formula_texto (gerarCNF_texto g k) = some f ∧
          SAT f interpretacao_inicial no_vazio = some r ∧ r.ret = false) ∧
      ((∀ k, 1 ≤ k → k ≤ g.n_vertices → linhas_cabem (gerarCNF_texto g k)) →
        teste_iterativo_texto g = some Resultado.nenhuma) ∧
      (g.n_vertices ≤ 90 → teste_iterativo_texto g = some Resultado.nenhuma) := by
  obtain ⟨hfalha, hdriver⟩ := laco_sem_coloracao g hn hm hd hlaco
  have final : (∀ k, 1 ≤ k → k ≤ g.n_vertices → linhas_cabem (gerarCNF_texto g k)) →
      teste_iterativo_texto g = some Resultado.nenhuma := by
    intro hcabe
    unfold teste_iterativo_texto
    rw [teste_iterativo_texto_laco_cabe g _ 1 hcabe]
    exact hdriver
  refine ⟨?_, ?_, final, fun h90 => final (linhas_cabem_pequeno g h90 hd)⟩
  · rintro k hk hsat
    obtain ⟨cor, hcor⟩ := (formula_do_arquivo_reducao g k (by omega) hm hd hk).mp hsat
    obtain ⟨e, he, heq⟩ := hlaco
    exact hcor.2 e he (by rw [heq])
  · intro k hk hcabe
    rw [ler_formula_texto_cabe g k hcabe]
    exact hfalha k hk

theorem linhas_cabem_laco :
    ∀ k, 1 ≤ k → k ≤ grafo_laco.n_vertices → linhas_cabem (gerarCNF_texto grafo_laco k) := by
  intro k h1 h2
  have h3 : k ≤ 2 := h2
  have hk : k = 1 ∨ k = 2 := by omega
  rcases hk with rfl | rfl <;> (unfold linhas_cabem; decide)

theorem laco_sem_coloracao_texto_witness :
    (1 : Int) ≤ grafo_laco.n_vertices ∧ (0 : Int) ≤ grafo_laco.m_arestas ∧
    arestas_dentro grafo_laco ∧ (∃ e ∈ arestas_de grafo_laco, e.1 = e.2) ∧
    (∀ k, 1 ≤ k → k ≤ grafo_laco.n_vertices → linhas_cabem (gerarCNF_texto grafo_laco k)) ∧
    teste_iterativo_texto grafo_laco = some Resultado.nenhuma ∧
    ((∀ k, 1 ≤ k →
        ¬ ∃ I, formula_satisfativel (formula_do_arquivo (gerarCNF grafo_laco k)) I = true) ∧
      (∀ k, 1 ≤ k → linhas_cabem (gerarCNF_texto grafo_laco k) →
        ∃ f r, ler_formula_texto (gerarCNF_texto grafo_laco k) = some f ∧
          SAT f interpretacao_inicial no_vazio = some r ∧ r.ret = false) ∧
      ((∀ k, 1 ≤ k → k ≤ grafo_laco.n_vertices →
          linhas_cabem (gerarCNF_texto grafo_laco k)) →
        teste_iterativo_texto grafo_laco = some Resultado.nenhuma) ∧
      (grafo_laco.n_vertices ≤ 90 →
        teste_iterativo_texto grafo_laco = some Resultado.nenhuma)) :=
  ⟨by decide, by decide, by unfold arestas_dentro; decide, by decide, linhas_cabem_laco,
    by decide,
    laco_sem_coloracao_texto grafo_laco (by decide) (by decide)
      (by unfold arestas_dentro; decide) (by decide)⟩

/-- C29 as stated fails: the graph with two vertices, the self-loop (0,0) and the edge
(0,2) has `n ≥ 1` and a self-loop `(a, a)` with `0 ≤ a < n`, but `ler_formula` refuses
the text of `k = 1`, whose four lines are short, `SAT` is not run, and the driver stops
with the read error instead of the final message. -/
theorem laco_sem_coloracao_texto_contraexemplo :
    (1 : Int) ≤ grafo_laco_fora.n_vertices ∧
      (∃ e ∈ arestas_de grafo_laco_fora,
        e.1 = e.2 ∧ 0 ≤ e.1 ∧ e.1 < grafo_laco_fora.n_vertices) ∧
      linhas_cabem (gerarCNF_texto grafo_laco_fora 1) ∧
      ler_formula_texto (gerarCNF_texto grafo_laco_fora 1) = none ∧
      teste_iterativo_texto grafo_laco_fora = some Resultado.erro ∧
      teste_iterativo_texto grafo_laco_fora ≠ some Resultado.nenhuma := by
  refine ⟨by decide, by decide, by unfold linhas_cabem; decide, rfl, by decide, by decide⟩

/-- C30 (amended): for a graph with `n` vertices, `k ≥ 1` and a stored edge `(a, b)` with
`a ≥ 0`, `b ≥ 0` and `a ≥ n` or `b ≥ n`, whose variables `a*k + k` and `b*k + k` are
values of a C `int`: every line rule 3 writes for that edge is read back with the
literal `-(x*k + c)`, `x` the endpoint `≥ n`, of magnitude `x*k + c > n*k`, which
`literal_valido` rejects against the declared `n*k` variables; `ler_formula` returns
`NULL` on the text, and for `n ≥ 1` the iterative driver stops with the read error at
`k = 1`. -/
theorem aresta_fora_rejeitada_texto (g : Grafo) (k : Int) (hk : 1 ≤ k)
    (i : Nat) (hi : i < g.m_arestas.toNat)
    (ha : 0 ≤ (g.arestas i).1) (hb : 0 ≤ (g.arestas i).2)
    (hfora : g.n_vertices ≤ (g.arestas i).1 ∨ g.n_vertices ≤ (g.arestas i).2)
    (hint : (g.arestas i).1 * k + k ≤ INT_MAX ∧ (g.arestas i).2 * k + k ≤ INT_MAX) :
    (∀ c, 1 ≤ c → c ≤ k →
        texto_par (((g.arestas i).1 + 1 - 1) * k + c) (((g.arestas i).2 + 1 - 1) * k + c)
          ∈ (gerarCNF_texto g k).linhas ∧
        valores_da_linha (texto_par (((g.arestas i).1 + 1 - 1) * k + c)
            (((g.arestas i).2 + 1 - 1) * k + c)) =
          [-((g.arestas i).1 * k + c), -((g.arestas i).2 * k + c), 0] ∧
        ∃ x, (x = (g.arestas i).1 ∨ x = (g.arestas i).2) ∧ g.n_vertices ≤ x ∧
          g.n_vertices * k < x * k + c ∧
          literal_valido (-(x * k + c)) (gerarCNF_texto g k).num_vars = false) ∧
      ler_formula_texto (gerarCNF_texto g k) = none ∧
      (1 ≤ g.n_vertices → teste_iterativo_texto g = some Resultado.erro) := by
  have linha : ∀ k c, 1 ≤ c → c ≤ k →
      texto_par (((g.arestas i).1 + 1 - 1) * k + c) (((g.arestas i).2 + 1 - 1) * k + c)
        ∈ (gerarCNF_texto g k).linhas := by
    intro k c hc1 hc2
    simp only [gerarCNF_texto, texto_regra3, List.mem_append, List.mem_flatMap, List.mem_map,
      List.mem_range, mem_intervalo]
    exact Or.inr ⟨i, hi, c, ⟨hc1, hc2⟩, rfl⟩
  have recusa : ∀ k, 1 ≤ k → (g.arestas i).1 * k + k ≤ INT_MAX →
      (g.arestas i).2 * k + k ≤ INT_MAX → ler_formula_texto (gerarCNF_texto g k) = none := by
    intro k hk h1 h2
    obtain ⟨x, -, -, -, hmem, hinv⟩ :=
      ler_formula_aresta_fora g k hk i ha hb hfora 1 (le_refl _) hk
    have e1 : ((g.arestas i).1 + 1 - 1) * k = (g.arestas i).1 * k := by ring
    have e2 : ((g.arestas i).2 + 1 - 1) * k = (g.arestas i).2 * k := by ring
    have p1 : 0 ≤ (g.arestas i).1 * k := mul_nonneg ha (by omega)
    have p2 : 0 ≤ (g.arestas i).2 * k := mul_nonneg hb (by omega)
    apply ler_formula_texto_none _ _ _ (linha k 1 (le_refl _) hk)
      (linha_de_clausula_par _ _)
      (length_texto_par _ _ (by rw [e1]; omega) (by rw [e1]; omega) (by rw [e2]; omega)
        (by rw [e2]; omega))
      (by rw [valores_texto_par]; exact hmem) hinv
  refine ⟨fun c hc1 hc2 => ⟨linha k c hc1 hc2, ?_, ?_⟩, recusa k hk hint.1 hint.2, ?_⟩
  · have p1 := var_pos hk (by omega : 1 ≤ (g.arestas i).1 + 1) hc1
    have p2 := var_pos hk (by omega : 1 ≤ (g.arestas i).2 + 1) hc1
    rw [valores_texto_par, menos_pos p1, menos_pos p2]
    have e1 : ((g.arestas i).1 + 1 - 1) * k = (g.arestas i).1 * k := by ring
    have e2 : ((g.arestas i).2 + 1 - 1) * k = (g.arestas i).2 * k := by ring
    rw [e1, e2]
  · obtain ⟨x, h1, h2, h3, -, h5⟩ := ler_formula_aresta_fora g k hk i ha hb hfora c hc1 hc2
    exact ⟨x, h1, h2, h3, h5⟩
  · intro hn1
    have q1 : (g.arestas i).1 ≤ (g.arestas i).1 * k := le_mul_of_one_le_right ha hk
    have q2 : (g.arestas i).2 ≤ (g.arestas i).2 * k := le_mul_of_one_le_right hb hk
    have r1 : (g.arestas i).1 * 1 + 1 ≤ INT_MAX := by
      rw [mul_one]
      omega
    have r2 : (g.arestas i).2 * 1 + 1 ≤ INT_MAX := by
      rw [mul_one]
      omega
    unfold teste_iterativo_texto
    rw [teste_iterativo_texto_laco, if_pos hn1, recusa 1 (le_refl _) r1 r2]

theorem aresta_fora_rejeitada_texto_witness :
    (1 : Int) ≤ 1 ∧ 0 < grafo_fora.m_arestas.toNat ∧
    0 ≤ (grafo_fora.arestas 0).1 ∧ 0 ≤ (grafo_fora.arestas 0).2 ∧
    (grafo_fora.n_vertices ≤ (grafo_fora.arestas 0).1 ∨
      grafo_fora.n_vertices ≤ (grafo_fora.arestas 0).2) ∧
    ((grafo_fora.arestas 0).1 * 1 + 1 ≤ INT_MAX ∧ (grafo_fora.arestas 0).2 * 1 + 1 ≤ INT_MAX) ∧
    ((∀ c, 1 ≤ c → c ≤ 1 →
        texto_par (((grafo_fora.arestas 0).1 + 1 - 1) * 1 + c)
            (((grafo_fora.arestas 0).2 + 1 - 1) * 1 + c)
          ∈ (gerarCNF_texto grafo_fora 1).linhas ∧
        valores_da_linha (texto_par (((grafo_fora.arestas 0).1 + 1 - 1) * 1 + c)
            (((grafo_fora.arestas 0).2 + 1 - 1) * 1 + c)) =
          [-((grafo_fora.arestas 0).1 * 1 + c), -((grafo_fora.arestas 0).2 * 1 + c), 0] ∧
        ∃ x, (x = (grafo_fora.arestas 0).1 ∨ x = (grafo_fora.arestas 0).2) ∧
          grafo_fora.n_vertices ≤ x ∧
          grafo_fora.n_vertices * 1 < x * 1 + c ∧
          literal_valido (-(x * 1 + c)) (gerarCNF_texto grafo_fora 1).num_vars = false) ∧
      ler_formula_texto (gerarCNF_texto grafo_fora 1) = none ∧
      (1 ≤ grafo_fora.n_vertices → teste_iterativo_texto grafo_fora = some Resultado.erro)) :=
  ⟨by decide, by decide, by decide, by decide, by decide, by decide,
    aresta_fora_rejeitada_texto grafo_fora 1 (by decide) 0 (by decide) (by decide)
      (by decide) (by decide) (by decide)⟩

/-- C30 as stated fails: with two vertices and the stored edge `(-1, 2)`, whose second
endpoint is `2 ≥ n`, rule 3 writes for `k = 1` the line `-0 -3 0`; its first token is
read as `0`, the literal `-3` is never seen, `ler_formula` accepts the text with an
empty row, and the iterative driver ends with the final message instead of the read
error. -/
theorem aresta_fora_rejeitada_texto_contraexemplo :
    0 < grafo_negativo.m_arestas.toNat ∧
      grafo_negativo.n_vertices ≤ (grafo_negativo.arestas 0).2 ∧
      (gerarCNF_texto grafo_negativo 1).linhas =
        [['1', ' ', '0', '\n'], ['2', ' ', '0', '\n'],
          ['-', '0', ' ', '-', '3', ' ', '0', '\n']] ∧
      ler_formula_texto (gerarCNF_texto grafo_negativo 1) =
        some ⟨[[1, 0], [2, 0], [0]], 3, 2⟩ ∧
      teste_iterativo_texto grafo_negativo = some Resultado.nenhuma ∧
      teste_iterativo_texto grafo_negativo ≠ some Resultado.erro := by
  refine ⟨by decide, by decide, by decide, rfl, by decide, by decide⟩

/-! ## Five vertices and 223 colours: what `ler_formula` stores -/

theorem ler_pedacos_append (N : Int) (A B : List (List Char)) :
    ler_pedacos N (A ++ B) =
      match ler_pedacos N A with
      | none => none
      | some ca => (ler_pedacos N B).map (fun cb => ca ++ cb) := by
  induction A with
  | nil =>
    simp only [List.nil_append, ler_pedacos]
    cases ler_pedacos N B <;> rfl
  | cons p A ih =>
    simp only [List.cons_append, ler_pedacos]
    split
    · exact ih
    · split
      · exact ih
      · have ih2 : ler_pedacos N (A.append B) =
            match ler_pedacos N A with
            | none => none
            | some ca => (ler_pedacos N B).map (fun cb => ca ++ cb) := ih
        rw [ih2]
        cases ler_clausula N ((strtok p).map atoi) <;> cases ler_pedacos N A <;>
          cases ler_pedacos N B <;> simp

theorem ler_linhas_terminadas (N : Int) (ls : List (List Int))
    (h : ∀ l ∈ ls, l = literais l ++ [0] ∧ ∀ x ∈ literais l, literal_valido x N = true) :
    ler_linhas N ls = some ls := by
  rw [ler_linhas_ok N ls (fun l hl => (h l hl).2)]
  congr 1
  conv_rhs => rw [← List.map_id ls]
  apply List.map_congr_left
  intro l hl
  exact ((h l hl).1).symm

theorem valores_texto_regra1 (n k : Int) :
    (texto_regra1 n k).map valores_da_linha = regra1 n k := by
  simp only [texto_regra1, regra1, List.map_map]
  apply List.map_congr_left
  intro v _
  simp only [Function.comp]
  rw [← valores_linha_regra1, List.flatMap_map]

theorem valores_texto_regras23 (g : Grafo) (n k : Int) :
    (texto_regra2 n k ++ texto_regra3 g k).map valores_da_linha =
      regra2 n k ++ regra3 g k := by
  simp only [texto_regra2, texto_regra3, regra2, regra3, List.map_append, List.map_map,
    List.map_flatMap]
  congr 1
  · congr 1
    funext v
    congr 1
    funext c1
    apply List.map_congr_left
    intro c2 _
    exact valores_texto_par _ _
  · congr 1
    funext i
    apply List.map_congr_left
    intro c _
    exact valores_texto_par _ _

/-- Lines that fit the buffer and whose values are rows of valid literals ending with
the terminator are stored as they are. -/
theorem ler_pedacos_linhas (N : Int) (textos : List (List Char)) (ls : List (List Int))
    (hv : textos.map valores_da_linha = ls)
    (hc : ∀ t ∈ textos, linha_de_clausula t)
    (hl : ∀ t ∈ textos, t.length < TAMANHO_LINHA)
    (h : ∀ l ∈ ls, l = literais l ++ [0] ∧ ∀ x ∈ literais l, literal_valido x N = true) :
    ler_pedacos N (textos.flatMap fgets) = some ls := by
  rw [ler_pedacos_cabem N textos hc hl, hv, ler_linhas_terminadas N ls h]

set_option maxRecDepth 1000000 in
theorem texto_regra1_quatro_cabem : ∀ t ∈ texto_regra1 4 223, t.length < TAMANHO_LINHA := by
  decide

theorem texto_regra1_cinco :
    texto_regra1 5 223 = texto_regra1 4 223 ++ (texto_regra1 5 223).drop 4 := by
  have h : (texto_regra1 5 223).take 4 = texto_regra1 4 223 := by
    unfold texto_regra1
    rw [← List.map_take]
    have h4 : (intervalo 1 5).take 4 = intervalo 1 4 := by decide
    rw [h4]
  rw [← h, List.take_append_drop]

/-- The lines of rules 2 and 3 fit the buffer when the variables are values of a C
`int`. -/
theorem texto_regras23_cabem (g : Grafo) (k : Int) (hk : 1 ≤ k)
    (hint : g.n_vertices * k ≤ INT_MAX) (hd : arestas_dentro g) :
    ∀ t ∈ texto_regra2 g.n_vertices k ++ texto_regra3 g k,
      linha_de_clausula t ∧ t.length < TAMANHO_LINHA := by
  intro t h
  have lim : ∀ v c, 1 ≤ v → v ≤ g.n_vertices → 1 ≤ c → c ≤ k →
      0 ≤ (v - 1) * k + c ∧ (v - 1) * k + c ≤ INT_MAX := by
    intro v c hv1 hv2 hc1 hc2
    have p := var_pos hk hv1 hc1
    have q := var_le hk hv2 hc2
    exact ⟨by omega, by omega⟩
  simp only [texto_regra2, texto_regra3, List.mem_append, List.mem_map, List.mem_flatMap,
    mem_intervalo, List.mem_range] at h
  rcases h with ⟨v, ⟨hv1, hv2⟩, c1, ⟨h1, h2⟩, c2, ⟨h3, h4⟩, rfl⟩ | ⟨i, hi, c, ⟨hc1, hc2⟩, rfl⟩
  · exact ⟨linha_de_clausula_par _ _,
      length_texto_par _ _ (lim v c1 hv1 hv2 h1 h2).1 (lim v c1 hv1 hv2 h1 h2).2
        (lim v c2 hv1 hv2 (by omega) h4).1 (lim v c2 hv1 hv2 (by omega) h4).2⟩
  · obtain ⟨ha1, ha2, hb1, hb2⟩ := hd _ ((mem_arestas_de g _).mpr ⟨i, hi, rfl⟩)
    exact ⟨linha_de_clausula_par _ _,
      length_texto_par _ _ (lim _ c (by omega) (by omega) hc1 hc2).1
        (lim _ c (by omega) (by omega) hc1 hc2).2 (lim _ c (by omega) (by omega) hc1 hc2).1
        (lim _ c (by omega) (by omega) hc1 hc2).2⟩

/-- What `ler_formula` returns on the text `gerarCNF` writes for a graph with five
vertices and 223 colours: the rows of the vertices 1 to 4, the two rows made of the
line of vertex 5, and the rows of rules 2 and 3: one row more than the header counts. -/
theorem ler_formula_texto_cinco (g : Grafo) (hn : g.n_vertices = 5) (hd : arestas_dentro g) :
    ler_formula_texto (gerarCNF_texto g 223) =
      some ⟨regra1 4 223 ++ (linhas_cortadas ++ (regra2 5 223 ++ regra3 g 223)),
        (gerarCNF g 223).num_clauses, 1115⟩ := by
  obtain ⟨f0, hf0⟩ := ler_formula_gerarCNF g 223 (by decide) hd
  obtain ⟨-, hval⟩ := ler_formula_some _ f0 hf0
  have hterm := linhas_gerarCNF_terminadas g 223 (by decide) hd
  have hnum : (gerarCNF g 223).num_vars = 1115 := by
    show g.n_vertices * 223 = 1115
    rw [hn]; rfl
  rw [hnum] at hval
  have bom : ∀ l ∈ (gerarCNF g 223).linhas,
      l = literais l ++ [0] ∧ ∀ x ∈ literais l, literal_valido x 1115 = true :=
    fun l hl => ⟨hterm l hl, hval l hl⟩
  have parte1 : ler_pedacos 1115 ((texto_regra1 4 223).flatMap fgets) = some (regra1 4 223) := by
    apply ler_pedacos_linhas 1115 _ _ (valores_texto_regra1 4 223) ?_ texto_regra1_quatro_cabem
    · intro l hl
      apply bom l
      rw [mem_linhas_gerarCNF]
      left
      obtain ⟨v, h1, h2, rfl⟩ := (mem_regra1 _ _ _).mp hl
      exact (mem_regra1 _ _ _).mpr ⟨v, h1, by omega, rfl⟩
    · intro t ht
      simp only [texto_regra1, List.mem_map] at ht
      obtain ⟨v, -, rfl⟩ := ht
      have := linha_de_clausula_regra1 ((intervalo 1 223).map (fun c => (v - 1) * 223 + c))
      rw [List.flatMap_map] at this
      exact this
  have h23 := texto_regras23_cabem g 223 (by decide) (by rw [hn]; decide) hd
  rw [hn] at h23
  have parte3 : ler_pedacos 1115 ((texto_regra2 5 223 ++ texto_regra3 g 223).flatMap fgets) =
      some (regra2 5 223 ++ regra3 g 223) := by
    apply ler_pedacos_linhas 1115 _ _ (valores_texto_regras23 g 5 223)
      (fun t ht => (h23 t ht).1) (fun t ht => (h23 t ht).2)
    intro l hl
    apply bom l
    rw [mem_linhas_gerarCNF, hn]
    rcases List.mem_append.1 hl with h | h
    · exact Or.inr (Or.inl h)
    · exact Or.inr (Or.inr h)
  have linhas : (gerarCNF_texto g 223).linhas =
      texto_regra1 4 223 ++ ((texto_regra1 5 223).drop 4 ++
        (texto_regra2 5 223 ++ texto_regra3 g 223)) := by
    show texto_regra1 g.n_vertices 223 ++ texto_regra2 g.n_vertices 223 ++ texto_regra3 g 223 = _
    rw [hn]
    conv_lhs => rw [texto_regra1_cinco]
    simp only [List.append_assoc]
  have hnv : (gerarCNF_texto g 223).num_vars = 1115 := hnum
  unfold ler_formula_texto
  rw [hnv, linhas, List.flatMap_append, List.flatMap_append, ler_pedacos_append, parte1,
    ler_pedacos_append, ler_pedacos_corte, parte3]
  rfl

theorem clausulas_de_sem_ultima (X : List (List Int)) (x : List Int) (C V : Int)
    (h : C.toNat = X.length) : clausulas_de ⟨X ++ [x], C, V⟩ = X := by
  unfold clausulas_de
  simp only [h]
  exact List.take_left' rfl

theorem intervalo_snoc {lo hi : Int} (h : lo ≤ hi) :
    intervalo lo hi = intervalo lo (hi - 1) ++ [hi] := by
  unfold intervalo
  have e : (hi + 1 - lo).toNat = (hi - 1 + 1 - lo).toNat + 1 := by omega
  rw [e, List.range_succ, List.map_append, List.map_singleton]
  congr 2
  simp only [Int.ofNat_eq_coe]
  omega

/-- The last line of rule 2 for five vertices and 223 colours forbids the colours 222
and 223 of vertex 5 together. -/
theorem regra2_cinco_ultima : ∃ P, regra2 5 223 = P ++ [[-1114, -1115, 0]] := by
  have h5 : intervalo 1 5 = intervalo 1 4 ++ [5] := intervalo_snoc (by decide)
  have h223 : intervalo 1 223 = intervalo 1 221 ++ [222, 223] := by
    have a : intervalo 1 223 = intervalo 1 222 ++ [223] := intervalo_snoc (by decide)
    have b : intervalo 1 222 = intervalo 1 221 ++ [222] := intervalo_snoc (by decide)
    rw [a, b, List.append_assoc]
    rfl
  have hF : (intervalo 1 223).flatMap (fun c1 => (intervalo (c1 + 1) 223).map (fun c2 =>
        [menos ((5 - 1) * 223 + c1), menos ((5 - 1) * 223 + c2), 0])) =
      (intervalo 1 221).flatMap (fun c1 => (intervalo (c1 + 1) 223).map (fun c2 =>
        [menos ((5 - 1) * 223 + c1), menos ((5 - 1) * 223 + c2), 0])) ++
        [[-1114, -1115, 0]] := by
    rw [h223, List.flatMap_append]
    congr 1
  unfold regra2
  rw [h5, List.flatMap_append]
  simp only [List.flatMap_cons, List.flatMap_nil, List.append_nil]
  rw [hF, ← List.append_assoc]
  exact ⟨_, rfl⟩

theorem total_interpretacao_de (n k : Int) (cor : Int → Int) :
    atribuicao_total n (interpretacao_de k cor) := by
  intro i _ _
  unfold interpretacao_de
  split
  · left; rfl
  · right; rfl

/-- A row of positive literals satisfied by an array has a literal whose variable
holds `1`. -/
theorem satisfaz_linha_positiva (f : Formula) (I : Int → Int) (hs : satisfaz f I)
    (ls : List Int) (hpos : ∀ l ∈ ls, 1 ≤ l) (hmem : ls ++ [0] ∈ clausulas_de f) :
    ∃ l ∈ ls, I l = 1 :=
  (clausula_positiva I ls hpos).mp ((clausula_satisfeita_iff _ I).mpr (hs _ hmem))

theorem satisfaz_linha_negativa (f : Formula) (I : Int → Int) (hs : satisfaz f I)
    (x y : Int) (hx : 1 ≤ x) (hy : 1 ≤ y)
    (hmem : [menos x, menos y, 0] ∈ clausulas_de f) : I x = -1 ∨ I y = -1 :=
  (clausula_negativa I x y hx hy).mp ((clausula_satisfeita_iff _ I).mpr (hs _ hmem))

/-- The run of `SAT` on a formula over 1115 variables that the colouring `cor_cinco`
satisfies and that has, among the rows visited, the row of vertex 1, the row that
forbids the colours 1 and 114 of vertex 1 together, and the row `114 1115`: `SAT`
returns true with variable 1 at `1`, variable 114 at `-1` and variable 1115 at `1`. -/
theorem SAT_nucleo (f : Formula) (hnl : f.num_literais = 1115) (hwf : bem_formada f)
    (hsat : satisfaz f (interpretacao_de 223 cor_cinco))
    (h1 : (intervalo 1 223).map (fun c => (1 - 1) * 223 + c) ++ [0] ∈ clausulas_de f)
    (h2 : [menos ((1 - 1) * 223 + 1), menos ((1 - 1) * 223 + 114), 0] ∈ clausulas_de f)
    (h3 : [114, 1115] ++ [0] ∈ clausulas_de f) :
    ∃ r, SAT f interpretacao_inicial no_vazio = some r ∧ r.ret = true ∧
      satisfaz f r.interpretacao ∧
      r.interpretacao 1115 = 1 ∧
      (∀ i, 1 ≤ i → i ≤ 1115 → r.interpretacao i = 1 ∨ r.interpretacao i = -1) ∧
      (∀ T, atribuicao_total 1115 T → satisfaz f T →
        ∀ i, 1 ≤ i → i ≤ 1115 → r.interpretacao i = -1 → T i = 1 →
          ∃ j, 1 ≤ j ∧ j < i ∧ r.interpretacao j = 1 ∧ T j = -1) := by
  have hest : ∀ T, estende f.num_literais interpretacao_inicial T :=
    fun T i _ _ h => absurd rfl h
  obtain ⟨r, hr, hiff⟩ := SAT_decide f interpretacao_inicial hwf
    (fun _ _ _ => Or.inr (Or.inl rfl))
  have hret : r.ret = true :=
    hiff.mpr ⟨_, total_interpretacao_de _ _ _, hest _, hsat⟩
  have hsF : satisfaz f r.interpretacao :=
    (formula_satisfativel_iff f _).mp (SAT_fuel_correto f _ _ _ _ hr hret)
  obtain ⟨d, -, -, hd0, hp⟩ := SAT_fuel_prefixo f _ _ _ _ hr 0 (prefixo_inicial _)
  rw [hnl] at hp
  have lex : ∀ T, atribuicao_total 1115 T → satisfaz f T →
      ∀ i, 1 ≤ i → i ≤ 1115 → r.interpretacao i = -1 → T i = 1 →
        ∃ j, 1 ≤ j ∧ j < i ∧ r.interpretacao j = 1 ∧ T j = -1 := by
    intro T ht hs i hi1 hi2 hF hT
    have := SAT_fuel_lex f hwf _ _ _ _ hr hret T (by rw [hnl]; exact ht) (hest T) hs i hi1
      (by rw [hnl]; exact hi2) hF hT
    exact this
  -- some colour of vertex 1 holds 1, so variable 1 is assigned
  obtain ⟨l, hl, hFl⟩ := satisfaz_linha_positiva f _ hsF _ (by
    intro l hl
    simp only [List.mem_map, mem_intervalo] at hl
    obtain ⟨c, ⟨hc1, hc2⟩, rfl⟩ := hl
    omega) h1
  simp only [List.mem_map, mem_intervalo] at hl
  obtain ⟨c, ⟨hc1, hc2⟩, rfl⟩ := hl
  have hd1 : (1 - 1) * 223 + c ≤ d := by
    by_contra hgt
    have := (hp ((1 - 1) * 223 + c) (by omega) (by omega)).2 (by omega)
    rw [this] at hFl
    omega
  have hF1 : r.interpretacao 1 = 1 := by
    rcases (hp 1 (by omega) (by omega)).1 (by omega) with h | h
    · exact h
    · exfalso
      obtain ⟨j, hj1, hj2, -, -⟩ := lex _ (total_interpretacao_de _ _ _) hsat 1 (by omega)
        (by omega) h (by decide)
      omega
  have hF114 : r.interpretacao 114 = -1 := by
    rcases satisfaz_linha_negativa f _ hsF _ _ (by omega) (by omega) h2 with h | h
    · have e : ((1 : Int) - 1) * 223 + 1 = 1 := by norm_num
      rw [e, hF1] at h
      omega
    · have e : ((1 : Int) - 1) * 223 + 114 = 114 := by norm_num
      rw [e] at h
      exact h
  have hF1115 : r.interpretacao 1115 = 1 := by
    obtain ⟨l, hl, hFl⟩ := satisfaz_linha_positiva f _ hsF [114, 1115] (by
      intro l hl
      simp only [List.mem_cons, List.mem_singleton, List.not_mem_nil, or_false] at hl
      omega) h3
    simp only [List.mem_cons, List.mem_singleton, List.not_mem_nil, or_false] at hl
    rcases hl with rfl | rfl
    · rw [hF114] at hFl; omega
    · exact hFl
  have hd2 : 1115 ≤ d := by
    by_contra hgt
    have := (hp 1115 (by omega) (by omega)).2 (by omega)
    rw [this] at hF1115
    omega
  exact ⟨r, hr, hret, hsF, hF1115, fun i hi1 hi2 => (hp i hi1 hi2).1 (by omega), lex⟩

/-! ## Five vertices without edges and 223 colours: the run -/

theorem arestas_dentro_cinco : arestas_dentro grafo_cinco := by
  unfold arestas_dentro; decide

theorem coloracao_cor_cinco : coloracao_propria grafo_cinco 223 cor_cinco := by
  constructor
  · intro v _ _
    unfold cor_cinco
    split <;> omega
  · intro e he
    have : arestas_de grafo_cinco = [] := by decide
    rw [this] at he
    simp at he

/-- The colouring `cor_cinco` satisfies every line of rules 1 and 2 for five vertices
and 223 colours. -/
theorem regras_cor_cinco :
    (∀ linha ∈ regra1 5 223,
        clausula_satisfeita linha (interpretacao_de 223 cor_cinco) = true) ∧
      (∀ linha ∈ regra2 5 223,
        clausula_satisfeita linha (interpretacao_de 223 cor_cinco) = true) := by
  obtain ⟨f, hf⟩ := ler_formula_gerarCNF grafo_cinco 223 (by decide) arestas_dentro_cinco
  have hs := (satisfaz_de_coloracao grafo_cinco 223 f cor_cinco (by decide) (by decide)
    (by decide) arestas_dentro_cinco hf coloracao_cor_cinco).1
  obtain ⟨r1, r2, -⟩ := (satisfaz_gerarCNF grafo_cinco 223 f _ (by decide) (by decide)
    (by decide) hf).mp hs
  exact ⟨r1, r2⟩

theorem satisfaz_de_linha (c : List Int) (I : Int → Int)
    (h : clausula_satisfeita c I = true) :
    ∃ l ∈ literais c, I (c_abs l) = valor_do_literal l :=
  (clausula_satisfeita_iff c I).mp h

theorem linhas_cortadas_cor_cinco :
    ∀ c ∈ linhas_cortadas, clausula_satisfeita c (interpretacao_de 223 cor_cinco) = true := by
  intro c hc
  simp only [linhas_cortadas, List.mem_cons, List.mem_singleton, List.not_mem_nil,
    or_false] at hc
  rcases hc with rfl | rfl
  · have e : intervalo 893 1113 ++ [1, 0] = (intervalo 893 1113 ++ [1]) ++ [0] := by simp
    rw [e, clausula_positiva]
    · exact ⟨1, by simp, by decide⟩
    · intro l hl
      rcases List.mem_append.1 hl with h | h
      · have := mem_intervalo.mp h; omega
      · simp only [List.mem_singleton] at h; omega
  · have e : ([114, 1115, 0] : List Int) = [114, 1115] ++ [0] := rfl
    rw [e, clausula_positiva]
    · exact ⟨1115, by simp, by decide⟩
    · intro l hl
      simp only [List.mem_cons, List.mem_singleton, List.not_mem_nil, or_false] at hl
      omega

/-- What `ler_formula` hands to `SAT` for five vertices without edges and 223 colours:
the rows visited are the rows of the vertices 1 to 4, the two rows made of the line of
vertex 5 and the lines of rule 2 without the last one, `-1114 -1115 0`. -/
theorem leitura_cinco :
    ∃ f P, ler_formula_texto (gerarCNF_texto grafo_cinco 223) = some f ∧
      f.num_literais = 1115 ∧ regra2 5 223 = P ++ [[-1114, -1115, 0]] ∧
      clausulas_de f = regra1 4 223 ++ (linhas_cortadas ++ P) ∧
      [-1114, -1115, 0] ∉ P := by
  obtain ⟨P, hP⟩ := regra2_cinco_ultima
  have hf := ler_formula_texto_cinco grafo_cinco rfl arestas_dentro_cinco
  have h3 : regra3 grafo_cinco 223 = [] := by rfl
  have hrows : regra1 4 223 ++ (linhas_cortadas ++ (regra2 5 223 ++ regra3 grafo_cinco 223)) =
      (regra1 4 223 ++ (linhas_cortadas ++ P)) ++ [[-1114, -1115, 0]] := by
    rw [h3, hP]
    simp only [List.append_assoc, List.append_nil]
  rw [hrows] at hf
  have hcount : (gerarCNF grafo_cinco 223).num_clauses.toNat =
      (regra1 4 223 ++ (linhas_cortadas ++ P)).length := by
    rw [gerarCNF_contagem_toNat grafo_cinco 223 (by decide) (by decide) (by decide)]
    show (regra1 5 223 ++ regra2 5 223 ++ regra3 grafo_cinco 223).length = _
    rw [h3, hP]
    simp only [List.length_append, length_regra1, List.length_cons, List.length_nil,
      linhas_cortadas]
    have a : (5 : Int).toNat = 5 := rfl
    have b : (4 : Int).toNat = 4 := rfl
    omega
  refine ⟨_, P, hf, rfl, hP, clausulas_de_sem_ultima _ _ _ _ hcount, ?_⟩
  intro hmem
  have hnd := regra2_nodup 5 223 (by decide)
  rw [hP] at hnd
  exact (List.nodup_append.mp hnd).2.2 hmem (List.mem_singleton_self _)

/-- The run on five vertices without edges and 223 colours: `ler_formula` accepts the
text, `SAT` returns true, and it leaves the colours 1 to 221 of vertex 5 at `-1` and the
colours 222 and 223 of vertex 5 both at `1`. -/
theorem SAT_cinco :
    ∃ f r, ler_formula_texto (gerarCNF_texto grafo_cinco 223) = some f ∧
      SAT f interpretacao_inicial no_vazio = some r ∧ r.ret = true ∧
      r.interpretacao 1114 = 1 ∧ r.interpretacao 1115 = 1 ∧
      ∀ j, 893 ≤ j → j ≤ 1113 → r.interpretacao j = -1 := by
  obtain ⟨f, P, hf, hnl, hP, hV, hx⟩ := leitura_cinco
  obtain ⟨-, -, hwf, -⟩ := ler_formula_texto_some _ f hf
  obtain ⟨r1, r2⟩ := regras_cor_cinco
  have em1 : ∀ c ∈ regra1 4 223, c ∈ regra1 5 223 := by
    intro c hc
    obtain ⟨v, h1, h2, rfl⟩ := (mem_regra1 _ _ _).mp hc
    exact (mem_regra1 _ _ _).mpr ⟨v, h1, by omega, rfl⟩
  have emP : ∀ c ∈ P, c ∈ regra2 5 223 := by
    intro c hc
    rw [hP]
    exact List.mem_append_left _ hc
  have hsat : satisfaz f (interpretacao_de 223 cor_cinco) := by
    intro c hc
    rw [hV] at hc
    apply satisfaz_de_linha
    rcases List.mem_append.1 hc with h | h
    · exact r1 c (em1 c h)
    · rcases List.mem_append.1 h with h | h
      · exact linhas_cortadas_cor_cinco c h
      · exact r2 c (emP c h)
  have deP : ∀ c, c ∈ regra2 5 223 → c ≠ [-1114, -1115, 0] → c ∈ clausulas_de f := by
    intro c hc hne
    rw [hV]
    rw [hP] at hc
    rcases List.mem_append.1 hc with h | h
    · exact List.mem_append_right _ (List.mem_append_right _ h)
    · simp only [List.mem_singleton] at h
      exact absurd h hne
  have h1 : (intervalo 1 223).map (fun c => (1 - 1) * 223 + c) ++ [0] ∈ clausulas_de f := by
    rw [hV]
    exact List.mem_append_left _ ((mem_regra1 _ _ _).mpr ⟨1, by omega, by omega, rfl⟩)
  have h2 : [menos ((1 - 1) * 223 + 1), menos ((1 - 1) * 223 + 114), 0] ∈ clausulas_de f := by
    apply deP
    · exact (mem_regra2 _ _ _).mpr ⟨1, 1, 114, by omega, by omega, by omega, by omega,
        by omega, rfl⟩
    · decide
  have h3 : [114, 1115] ++ [0] ∈ clausulas_de f := by
    rw [hV]
    apply List.mem_append_right
    apply List.mem_append_left
    simp [linhas_cortadas]
  obtain ⟨r, hr, hret, hsF, hF1115, hval, lex⟩ := SAT_nucleo f hnl hwf hsat h1 h2 h3
  have hbaixo : ∀ j, 893 ≤ j → j ≤ 1113 → r.interpretacao j = -1 := by
    intro j hj1 hj2
    have hrow : [menos ((5 - 1) * 223 + (j - 892)), menos ((5 - 1) * 223 + 223), 0] ∈
        clausulas_de f := by
      apply deP
      · exact (mem_regra2 _ _ _).mpr ⟨5, j - 892, 223, by omega, by omega, by omega, by omega,
          by omega, rfl⟩
      · intro heq
        rw [menos_pos (by omega), menos_pos (by omega)] at heq
        simp only [List.cons.injEq, neg_inj, and_true] at heq
        omega
    rcases satisfaz_linha_negativa f _ hsF _ _ (by omega) (by omega) hrow with h | h
    · have e : ((5 : Int) - 1) * 223 + (j - 892) = j := by omega
      rw [e] at h
      exact h
    · have e : ((5 : Int) - 1) * 223 + 223 = 1115 := by norm_num
      rw [e, hF1115] at h
      omega
  refine ⟨f, r, hf, hr, hret, ?_, hF1115, hbaixo⟩
  rcases hval 1114 (by omega) (by omega) with h | h
  · exact h
  · exfalso
    -- the array with variable 1114 set to 1 satisfies every row visited as well
    have htot : atribuicao_total 1115 (atribuir r.interpretacao 1114 1) := by
      intro i hi1 hi2
      by_cases hi : i = 1114
      · left; rw [hi]; exact atribuir_mesmo _ _ _
      · rw [atribuir_outro _ _ _ _ hi]
        exact hval i hi1 hi2
    have hsT : satisfaz f (atribuir r.interpretacao 1114 1) := by
      intro c hc
      obtain ⟨l, hl, hv⟩ := hsF c hc
      by_cases hlv : c_abs l = 1114
      · -- the literal is -1114, and the row is a line of rule 2 with another literal
        have hneg : l = -1114 := by
          rw [hlv, h] at hv
          unfold valor_do_literal at hv
          unfold c_abs at hlv
          split at hv
          · omega
          · split at hlv <;> omega
        subst hneg
        rw [hV] at hc
        rcases List.mem_append.1 hc with hc1 | hc1
        · exfalso
          obtain ⟨v, hv1, hv2, rfl⟩ := (mem_regra1 _ _ _).mp hc1
          rw [literais_regra1 223 v (by decide) hv1] at hl
          simp only [List.mem_map, mem_intervalo] at hl
          obtain ⟨c, ⟨hc1, hc2⟩, hc3⟩ := hl
          have := var_pos (k := 223) (by decide) hv1 hc1
          omega
        · rcases List.mem_append.1 hc1 with hc2 | hc2
          · exfalso
            simp only [linhas_cortadas, List.mem_cons, List.mem_singleton, List.not_mem_nil,
              or_false] at hc2
            rcases hc2 with rfl | rfl
            · have e : intervalo 893 1113 ++ [1, 0] = (intervalo 893 1113 ++ [1]) ++ [0] := by
                simp
              rw [e, literais_append_zero] at hl
              · rcases List.mem_append.1 hl with h5 | h5
                · have := mem_intervalo.mp h5; omega
                · simp at h5
              · intro x hx
                rcases List.mem_append.1 hx with h5 | h5
                · have := mem_intervalo.mp h5; omega
                · simp only [List.mem_singleton] at h5; omega
            · have : literais ([114, 1115, 0] : List Int) = [114, 1115] := by decide
              rw [this] at hl
              simp at hl
          · have hc3 := emP c hc2
            obtain ⟨v, c1, c2, hv1, hv2, h11, h12, h13, rfl⟩ := (mem_regra2 _ _ _).mp hc3
            have p1 := var_pos (k := 223) (by decide) hv1 h11
            have p2 := var_pos (k := 223) (by decide) hv1 (by omega : 1 ≤ c2)
            rw [literais_negativa _ _ p1 p2] at hl
            simp only [List.mem_cons, List.mem_singleton, List.not_mem_nil, or_false,
              neg_inj] at hl
            rcases hl with hl | hl
            · -- first literal: the row would be the last line of rule 2
              exfalso
              have hv5 : v = 5 := by omega
              have hc222 : c1 = 222 := by omega
              have hc223 : c2 = 223 := by omega
              subst hv5 hc222 hc223
              exact hx hc2
            · have hv5 : v = 5 := by omega
              have hc222 : c2 = 222 := by omega
              subst hv5 hc222
              refine ⟨-((5 - 1) * 223 + c1), ?_, ?_⟩
              · rw [literais_negativa _ _ p1 p2]
                simp
              · have hb := hbaixo ((5 - 1) * 223 + c1) (by omega) (by omega)
                have hne : (5 - 1) * 223 + c1 ≠ 1114 := by omega
                have ha : c_abs (-((5 - 1) * 223 + c1)) = (5 - 1) * 223 + c1 := by
                  unfold c_abs
                  rw [if_pos (by omega)]
                  omega
                rw [ha, atribuir_outro _ _ _ _ hne, hb]
                unfold valor_do_literal
                rw [if_neg (by omega)]
      · exact ⟨l, hl, by rw [atribuir_outro _ _ _ _ hlv]; exact hv⟩
    obtain ⟨j, hj1, hj2, hFj, hTj⟩ := lex _ htot hsT 1114 (by omega) (by omega) h
      (atribuir_mesmo _ _ _)
    rw [atribuir_outro _ _ _ _ (by omega), hFj] at hTj
    omega

/-- C6: the failing run. With five vertices, no edge and 223 colours `ler_formula`
accepts the text `gerarCNF` writes and `SAT` returns true from the all-zero array, but
the line of vertex 5 was read in two pieces and the last line of rule 2 is not among the
rows visited: the colours 222 and 223 of vertex 5 are both left at `1`, so vertex 5 does
not have exactly one colour `c` in `1..223` with `interpretacao[(5-1)*223+c] == 1`. -/
theorem coloracao_encontrada_total_falha :
    ∃ f r, ler_formula_texto (gerarCNF_texto grafo_cinco 223) = some f ∧
      SAT f interpretacao_inicial no_vazio = some r ∧ r.ret = true ∧
      r.interpretacao ((5 - 1) * 223 + 222) = 1 ∧
      r.interpretacao ((5 - 1) * 223 + 223) = 1 ∧
      ¬ ∃! c, (1 ≤ c ∧ c ≤ 223) ∧ r.interpretacao ((5 - 1) * 223 + c) = 1 := by
  obtain ⟨f, r, hf, hr, hret, h1114, h1115, -⟩ := SAT_cinco
  have e1 : ((5 : Int) - 1) * 223 + 222 = 1114 := by norm_num
  have e2 : ((5 : Int) - 1) * 223 + 223 = 1115 := by norm_num
  refine ⟨f, r, hf, hr, hret, by rw [e1]; exact h1114, by rw [e2]; exact h1115, ?_⟩
  rintro ⟨c, -, huniq⟩
  have a := huniq 222 ⟨⟨by omega, by omega⟩, by rw [e1]; exact h1114⟩
  have b := huniq 223 ⟨⟨by omega, by omega⟩, by rw [e2]; exact h1115⟩
  omega

/-- The colour the decode loop prints for vertex 5 after the run on five vertices
without edges and 223 colours is 222. -/
theorem cor_do_vertice_cinco (r : Saida) (h1114 : r.interpretacao 1114 = 1)
    (hbaixo : ∀ j, 893 ≤ j → j ≤ 1113 → r.interpretacao j = -1) :
    cor_do_vertice 223 r.interpretacao 5 = some 222 := by
  have e1 : ((5 : Int) - 1) * 223 + 222 = 1114 := by norm_num
  obtain ⟨c, hc⟩ := cor_do_vertice_existe 223 r.interpretacao 5
    ⟨222, by omega, by omega, by rw [e1]; exact h1114⟩
  obtain ⟨hc1, hc2, hI⟩ := cor_do_vertice_some _ _ _ _ hc
  have hge : 222 ≤ c := by
    by_contra hlt
    have := hbaixo ((5 - 1) * 223 + c) (by omega) (by omega)
    rw [this] at hI
    omega
  have hle : c ≤ 222 := by
    by_contra hgt
    have := find_intervalo_minimo _ _ 1 223 c rfl hc 222 (by omega) (by omega)
    simp only [decide_eq_false_iff_not] at this
    exact this (by rw [e1]; exact h1114)
  have : c = 222 := by omega
  rw [this] at hc
  exact hc

/-- C28: the failing run. With five vertices, no edge and 223 colours `SAT` returns
true on the formula `ler_formula` reads from the text `gerarCNF` writes, and the decode
loop prints colour 222 for vertex 5, although a proper colouring with 223 colours
agrees with the printed colours on the vertices 1 to 4 and gives colour 1 to vertex 5:
the colours printed are not the first in lexicographic order. -/
theorem coloracao_encontrada_lex_falha :
    ∃ f r cor, ler_formula_texto (gerarCNF_texto grafo_cinco 223) = some f ∧
      SAT f interpretacao_inicial no_vazio = some r ∧ r.ret = true ∧
      coloracao_propria grafo_cinco 223 cor ∧
      (∀ u cu, u < 5 →
        (u, cu) ∈ coloracao_encontrada grafo_cinco.n_vertices 223 r.interpretacao →
        cor u = cu) ∧
      (5, 222) ∈ coloracao_encontrada grafo_cinco.n_vertices 223 r.interpretacao ∧
      cor 5 = 1 ∧ ¬ ((222 : Int) ≤ cor 5) := by
  obtain ⟨f, r, hf, hr, hret, h1114, -, hbaixo⟩ := SAT_cinco
  refine ⟨f, r, fun v => if v = 5 then 1 else (cor_do_vertice 223 r.interpretacao v).getD 1,
    hf, hr, hret, ⟨?_, ?_⟩, ?_, ?_, by simp, by simp⟩
  · intro v _ _
    simp only
    split
    · omega
    · cases hc : cor_do_vertice 223 r.interpretacao v with
      | none => simp
      | some c =>
        obtain ⟨hc1, hc2, -⟩ := cor_do_vertice_some _ _ _ _ hc
        simp only [Option.getD_some]
        exact ⟨hc1, hc2⟩
  · intro e he
    have : arestas_de grafo_cinco = [] := by decide
    rw [this] at he
    simp at he
  · intro u cu hu hmem
    obtain ⟨-, -, hc⟩ := (mem_coloracao_encontrada _ _ _ _ _).mp hmem
    simp only
    rw [if_neg (by omega), hc]
    rfl
  · exact (mem_coloracao_encontrada _ _ _ _ _).mpr
      ⟨by decide, by decide, cor_do_vertice_cinco r h1114 hbaixo⟩

/-! ## Five vertices, the self-loop (4,4) and 223 colours: the run -/

theorem arestas_dentro_cinco_laco : arestas_dentro grafo_cinco_laco := by
  unfold arestas_dentro; decide

/-- The lines of rule 3 for the self-loop `(4, 4)` and 223 colours: the last one forbids
colour 223 on vertex 5. -/
theorem regra3_cinco_laco :
    regra3 grafo_cinco_laco 223 =
      (intervalo 1 222).map (fun c =>
        [menos ((5 - 1) * 223 + c), menos ((5 - 1) * 223 + c), 0]) ++
        [[-1115, -1115, 0]] := by
  unfold regra3
  have hr : List.range grafo_cinco_laco.m_arestas.toNat = [0] := by decide
  rw [hr]
  simp only [List.flatMap_cons, List.flatMap_nil, List.append_nil]
  rw [intervalo_snoc (by decide : (1 : Int) ≤ 223), List.map_append]
  rfl

theorem length_regra2_cinco : (regra2 5 223).length = 123765 := by
  have h := length_regra2 5 223
  have a : (5 : Int).toNat = 5 := rfl
  have b : (223 : Int).toNat = 223 := rfl
  rw [a, b] at h
  omega

theorem contagem_cinco_laco (R : List (List Int)) (hR : R.length = 123765) :
    (gerarCNF grafo_cinco_laco 223).num_clauses.toNat =
      (regra1 4 223 ++ (linhas_cortadas ++ (R ++
        (intervalo 1 222).map (fun c =>
          [menos ((5 - 1) * 223 + c), menos ((5 - 1) * 223 + c), 0])))).length := by
  have hC : (gerarCNF grafo_cinco_laco 223).num_clauses.toNat = 123993 := by decide
  rw [hC]
  simp only [List.length_append, length_regra1, List.length_cons, List.length_nil,
    linhas_cortadas, List.length_map, length_intervalo, hR]
  rfl

/-- What `ler_formula` hands to `SAT` for five vertices, the self-loop `(4, 4)` and 223
colours: the rows visited are the rows of the vertices 1 to 4, the two rows made of the
line of vertex 5, the lines of rule 2 and the lines of rule 3 without the last one,
`-1115 -1115 0`. -/
theorem leitura_cinco_laco :
    ∃ f, ler_formula_texto (gerarCNF_texto grafo_cinco_laco 223) = some f ∧
      f.num_literais = 1115 ∧
      clausulas_de f = regra1 4 223 ++ (linhas_cortadas ++ (regra2 5 223 ++
        (intervalo 1 222).map (fun c =>
          [menos ((5 - 1) * 223 + c), menos ((5 - 1) * 223 + c), 0]))) := by
  have hf := ler_formula_texto_cinco grafo_cinco_laco rfl arestas_dentro_cinco_laco
  have hrows : regra1 4 223 ++ (linhas_cortadas ++ (regra2 5 223 ++
        regra3 grafo_cinco_laco 223)) =
      (regra1 4 223 ++ (linhas_cortadas ++ (regra2 5 223 ++
        (intervalo 1 222).map (fun c =>
          [menos ((5 - 1) * 223 + c), menos ((5 - 1) * 223 + c), 0])))) ++
        [[-1115, -1115, 0]] := by
    rw [regra3_cinco_laco]
    simp only [List.append_assoc]
  rw [hrows] at hf
  have hcount : (gerarCNF grafo_cinco_laco 223).num_clauses.toNat =
      (regra1 4 223 ++ (linhas_cortadas ++ (regra2 5 223 ++
        (intervalo 1 222).map (fun c =>
          [menos ((5 - 1) * 223 + c), menos ((5 - 1) * 223 + c), 0])))).length := by
    exact contagem_cinco_laco _ length_regra2_cinco
  exact ⟨_, hf, rfl, clausulas_de_sem_ultima _ _ _ _ hcount⟩

/-- C5: the failing run. With five vertices, the stored edge `(4, 4)` and 223 colours
`ler_formula` accepts the text `gerarCNF` writes; the line of vertex 5 was read in two
pieces, so the last line of the file, which forbids colour 223 on the two endpoints of
the edge, is not among the rows visited; `SAT` returns true and the decode loop prints
colour 223 for vertex 5, which is both endpoints of the stored edge. -/
theorem coloracao_encontrada_adjacencia_falha :
    ∃ f r, ler_formula_texto (gerarCNF_texto grafo_cinco_laco 223) = some f ∧
      SAT f interpretacao_inicial no_vazio = some r ∧ r.ret = true ∧
      ((4 : Int), (4 : Int)) ∈ arestas_de grafo_cinco_laco ∧
      ((4 : Int) + 1, (223 : Int)) ∈
        coloracao_encontrada grafo_cinco_laco.n_vertices 223 r.interpretacao ∧
      ¬ ∀ e ∈ arestas_de grafo_cinco_laco, ∀ c1 c2,
        (e.1 + 1, c1) ∈ coloracao_encontrada grafo_cinco_laco.n_vertices 223 r.interpretacao →
        (e.2 + 1, c2) ∈ coloracao_encontrada grafo_cinco_laco.n_vertices 223 r.interpretacao →
        c1 ≠ c2 := by
  obtain ⟨f, hf, hnl, hV⟩ := leitura_cinco_laco
  obtain ⟨-, -, hwf, -⟩ := ler_formula_texto_some _ f hf
  obtain ⟨r1, r2⟩ := regras_cor_cinco
  have em1 : ∀ c ∈ regra1 4 223, c ∈ regra1 5 223 := by
    intro c hc
    obtain ⟨v, h1, h2, rfl⟩ := (mem_regra1 _ _ _).mp hc
    exact (mem_regra1 _ _ _).mpr ⟨v, h1, by omega, rfl⟩
  have hsat : satisfaz f (interpretacao_de 223 cor_cinco) := by
    intro c hc
    rw [hV] at hc
    apply satisfaz_de_linha
    rcases List.mem_append.1 hc with h | h
    · exact r1 c (em1 c h)
    · rcases List.mem_append.1 h with h | h
      · exact linhas_cortadas_cor_cinco c h
      · rcases List.mem_append.1 h with h | h
        · exact r2 c h
        · simp only [List.mem_map, mem_intervalo] at h
          obtain ⟨c3, ⟨h31, h32⟩, rfl⟩ := h
          rw [clausula_negativa _ _ _ (by omega) (by omega)]
          left
          rw [interpretacao_de_var 223 cor_cinco 5 c3 (by decide) h31 (by omega)]
          have : cor_cinco 5 = 223 := by decide
          rw [this, if_neg (by omega)]
  have h1 : (intervalo 1 223).map (fun c => (1 - 1) * 223 + c) ++ [0] ∈ clausulas_de f := by
    rw [hV]
    exact List.mem_append_left _ ((mem_regra1 _ _ _).mpr ⟨1, by omega, by omega, rfl⟩)
  have h2 : [menos ((1 - 1) * 223 + 1), menos ((1 - 1) * 223 + 114), 0] ∈ clausulas_de f := by
    rw [hV]
    apply List.mem_append_right
    apply List.mem_append_right
    apply List.mem_append_left
    exact (mem_regra2 _ _ _).mpr ⟨1, 1, 114, by omega, by omega, by omega, by omega,
      by omega, rfl⟩
  have h3 : [114, 1115] ++ [0] ∈ clausulas_de f := by
    rw [hV]
    apply List.mem_append_right
    apply List.mem_append_left
    simp [linhas_cortadas]
  obtain ⟨r, hr, hret, hsF, hF1115, -, -⟩ := SAT_nucleo f hnl hwf hsat h1 h2 h3
  have hbaixo : ∀ c, 1 ≤ c → c ≤ 222 → r.interpretacao ((5 - 1) * 223 + c) = -1 := by
    intro c hc1 hc2
    have hrow : [menos ((5 - 1) * 223 + c), menos ((5 - 1) * 223 + c), 0] ∈ clausulas_de f := by
      rw [hV]
      apply List.mem_append_right
      apply List.mem_append_right
      apply List.mem_append_right
      simp only [List.mem_map, mem_intervalo]
      exact ⟨c, ⟨hc1, hc2⟩, rfl⟩
    rcases satisfaz_linha_negativa f _ hsF _ _ (by omega) (by omega) hrow with h | h <;>
      exact h
  have e2 : ((5 : Int) - 1) * 223 + 223 = 1115 := by norm_num
  obtain ⟨c, hc⟩ := cor_do_vertice_existe 223 r.interpretacao 5
    ⟨223, by omega, by omega, by rw [e2]; exact hF1115⟩
  obtain ⟨hc1, hc2, hI⟩ := cor_do_vertice_some _ _ _ _ hc
  have hc223 : c = 223 := by
    by_contra hne
    have := hbaixo c hc1 (by omega)
    rw [this] at hI
    omega
  rw [hc223] at hc
  have hpar : ((4 : Int) + 1, (223 : Int)) ∈
      coloracao_encontrada grafo_cinco_laco.n_vertices 223 r.interpretacao :=
    (mem_coloracao_encontrada _ _ _ _ _).mpr ⟨by decide, by decide, hc⟩
  have haresta : ((4 : Int), (4 : Int)) ∈ arestas_de grafo_cinco_laco := by decide
  refine ⟨f, r, hf, hr, hret, haresta, hpar, ?_⟩
  intro hnunca
  exact hnunca (4, 4) haresta 223 223 hpar hpar rfl

end GCP
